import Mathlib

/-!
Verification development for the qasm-py assembler core.

The Lean definitions below are a shallow embedding of the Python sources
under src/qasm.  Machine integers are modelled as Nat/Int with explicit
range checks and modular reduction exactly where the Python code performs
them (int.to_bytes / int.from_bytes / struct.pack).  The target platform is
modelled as the 64-bit little-endian machine (struct.calcsize("P") = 8,
sys.byteorder = "little"); both the writers and the readers of the
repository use this same native order, so every claim below is settled
against that single platform model.

Byte strings are modelled as List Nat with every element < 256.
-/

namespace QasmPy

/-- NATIVE_SIZE from qasm/asm/bin_types.py: struct.calcsize("P") on the
modelled 64-bit platform. -/
def NATIVE_SIZE : Nat := 8

/-- Little-endian byte encoding of a natural number into exactly n bytes
(the value is reduced mod 2^(8*n) byte by byte, as int.to_bytes does after
its own range check). -/
def leBytes : Nat → Nat → List Nat
  | _, 0 => []
  | v, n + 1 => (v % 256) :: leBytes (v / 256) n

/-- Little-endian value of a byte list, as int.from_bytes(b, "little"). -/
def leVal : List Nat → Nat
  | [] => 0
  | b :: bs => b + 256 * leVal bs

/-- Python v.to_bytes(n, "little", signed=(v < 0)), i.e. the behaviour of
Int.to_bytes in qasm/asm/bin_types.py: an unsigned encoding for v >= 0 and a
two's-complement encoding for v < 0; None models the OverflowError raised
outside [-2^(8n-1), 2^(8n)). -/
def intToBytesAuto (v : Int) (n : Nat) : Option (List Nat) :=
  if 0 ≤ v then
    if v < (2 : Int) ^ (8 * n) then some (leBytes v.toNat n) else none
  else
    if -((2 : Int) ^ (8 * n - 1)) ≤ v then
      some (leBytes (v + (2 : Int) ^ (8 * n)).toNat n)
    else none

/-- Python struct.pack of one signed field of n bytes ("b" for n = 1, "h"
for n = 2) in native little-endian order; None models struct.error. -/
def packSigned (v : Int) (n : Nat) : Option (List Nat) :=
  if -((2 : Int) ^ (8 * n - 1)) ≤ v ∧ v < (2 : Int) ^ (8 * n - 1) then
    some (leBytes (v.emod ((2 : Int) ^ (8 * n))).toNat n)
  else none

/-- Python struct.pack of one unsigned field of n bytes ("P" for n = 8) in
native little-endian order; None models struct.error. -/
def packUnsigned (v : Int) (n : Nat) : Option (List Nat) :=
  if 0 ≤ v ∧ v < (2 : Int) ^ (8 * n) then some (leBytes v.toNat n) else none

/-- Python int.from_bytes(b, "little", signed=True), the behaviour of
Int.from_bytes in qasm/asm/bin_types.py. -/
def intFromBytesSigned (bs : List Nat) : Int :=
  let u := leVal bs
  if u < 2 ^ (8 * bs.length - 1) then (u : Int)
  else (u : Int) - (2 : Int) ^ (8 * bs.length)

/-- Python int.from_bytes(b, "little") unsigned, the behaviour of
Pointer.from_bytes in qasm/asm/bin_types.py. -/
def natFromBytes (bs : List Nat) : Nat := leVal bs

/-- Python i & (2^k - 1) on a possibly negative int (two's complement):
equal to the nonnegative remainder of i mod 2^k. -/
def pyAndLow (i : Int) (k : Nat) : Int := i.emod ((2 : Int) ^ k)

/-- Python i & 2^k on a possibly negative int (two's complement): 2^k when
bit k of the two's-complement representation is set, else 0. -/
def pyAndBit (i : Int) (k : Nat) : Int :=
  i.emod ((2 : Int) ^ (k + 1)) - i.emod ((2 : Int) ^ k)

/-! ## qasm/qpl/file.py : ArchitectureInfo and Header -/

/-- ArchitectureInfo from qasm/qpl/file.py: the decoded pair of
_system_word_size and _is_little_endian. -/
structure ArchitectureInfo where
  systemWordSize : Nat
  isLittleEndian : Bool
  deriving Repr, DecidableEq

/-- ArchitectureInfo.__init__ on the int path (little_endian argument
absent): rejects arch == 0, then decodes the low 7 bits as the word size
and the MSB as the byte order (0 = little-endian).  The incoming arch may
be negative because Header.from_bytes unpacks the byte with the signed
"b" format. -/
def mkArchFromInt (arch : Int) : Except String ArchitectureInfo :=
  if arch = 0 then Except.error "arch must not be 0"
  else Except.ok
    { systemWordSize := (pyAndLow arch 7).toNat
      isLittleEndian := pyAndBit arch 7 = 0 }

/-- ArchitectureInfo.__int__ from qasm/qpl/file.py line 77, exactly as
written: (is_big_endian & BYTE_ORDER_MASK) | (word_size & ARCHITECTURE_MASK),
where is_big_endian is the bool 0/1. -/
def archToInt (a : ArchitectureInfo) : Nat :=
  ((if a.isLittleEndian then 0 else 1) &&& 0x80) ||| (a.systemWordSize &&& 0x7F)

/-- Header from qasm/qpl/file.py.  flags is the QPLFlags int value;
numSections and the version halves are kept as the raw ints handed to
__init__. -/
structure Header where
  flags : Int
  architecture : ArchitectureInfo
  numSections : Int
  versionMajor : Int
  versionMinor : Int
  deriving Repr, DecidableEq

/-- Header.__init__: the architecture argument is re-decoded through
ArchitectureInfo (int path). -/
def mkHeader (flags arch numSections vMajor vMinor : Int) :
    Except String Header := do
  let a ← mkArchFromInt arch
  Except.ok { flags := flags, architecture := a, numSections := numSections,
              versionMajor := vMajor, versionMinor := vMinor }

/-- The 4-byte signature "QPL\0". -/
def qplSignature : List Nat := [0x51, 0x50, 0x4C, 0x00]

/-- Header.to_bytes: struct.pack("4s b b b x h h 4x", SIGNATURE, flags,
int(architecture), num_sections, v_major, v_minor); the one pad byte after
num_sections and the trailing four pad bytes are zero.  None models
struct.error on an out-of-range field. -/
def headerToBytes (h : Header) : Option (List Nat) := do
  let f ← packSigned h.flags 1
  let a ← packSigned ((archToInt h.architecture : Nat) : Int) 1
  let n ← packSigned h.numSections 1
  let vM ← packSigned h.versionMajor 2
  let vm ← packSigned h.versionMinor 2
  some (qplSignature ++ f ++ a ++ n ++ [0] ++ vM ++ vm ++ [0, 0, 0, 0])

/-- Python struct.unpack of a signed little-endian field of n bytes taken
at offset off of data. -/
def unpackSignedAt (data : List Nat) (off n : Nat) : Int :=
  intFromBytesSigned ((data.drop off).take n)

/-- Header.from_bytes: length check, signature check, then
Header(flags, architecture, num_sections, v_major, v_minor) from the
signed-unpacked fields. -/
def headerFromBytes (data : List Nat) : Except String Header :=
  if data.length < 16 then Except.error "len(data) must be >= 16"
  else if data.take 4 ≠ qplSignature then Except.error "bad signature"
  else
    mkHeader (unpackSignedAt data 4 1) (unpackSignedAt data 5 1)
      (unpackSignedAt data 6 1) (unpackSignedAt data 8 2)
      (unpackSignedAt data 10 2)

/-! ## qasm/asm/bin_types.py : the binary type registry

The module qasm/asm/old/bin_types.py imported by qasm/qpl/exports.py is not
present under src/; src/qasm/asm/bin_types.py is, exports the same names
(Void, TYPES, TypeMeta, Int, ...) and is the module this registry is
translated from.  The constructors named localSlot and argSlot stand for
the Python classes Local and Argument (local and arg are Lean keywords). -/

/-- The sixteen concrete binary types of TYPES[1:] in bin_types.py. -/
inductive BinTy where
  | void | bool | ptr | rptr | int | int8 | int16 | int32 | int64
  | float | float32 | float64 | str | raw | localSlot | argSlot
  deriving Repr, DecidableEq

namespace BinTy

/-- The _name attribute of each type class. -/
def name : BinTy → String
  | .void => "void" | .bool => "bool" | .ptr => "ptr" | .rptr => "rptr"
  | .int => "int" | .int8 => "int8" | .int16 => "int16" | .int32 => "int32"
  | .int64 => "int64" | .float => "float" | .float32 => "float32"
  | .float64 => "float64" | .str => "str" | .raw => "raw"
  | .localSlot => "local" | .argSlot => "arg"

/-- TYPE_INDEX: the position of each type in the TYPES list (1-based). -/
def index : BinTy → Nat
  | .void => 1 | .bool => 2 | .ptr => 3 | .rptr => 4 | .int => 5
  | .int8 => 6 | .int16 => 7 | .int32 => 8 | .int64 => 9 | .float => 10
  | .float32 => 11 | .float64 => 12 | .str => 13 | .raw => 14
  | .localSlot => 15 | .argSlot => 16

/-- The _size attribute of each type class, on the 64-bit platform model
(NATIVE_SIZE = 8; String and Bytes inherit Pointer's size). -/
def size : BinTy → Nat
  | .void => 0 | .bool => 1 | .ptr => 8 | .rptr => 8 | .int => 8
  | .int8 => 1 | .int16 => 2 | .int32 => 4 | .int64 => 8 | .float => 8
  | .float32 => 4 | .float64 => 8 | .str => 8 | .raw => 8
  | .localSlot => 1 | .argSlot => 1

/-- The TYPES list position i for i in 1..16. -/
def byIndex (i : Nat) : Option BinTy :=
  [BinTy.void, .bool, .ptr, .rptr, .int, .int8, .int16, .int32, .int64,
   .float, .float32, .float64, .str, .raw, .localSlot, .argSlot].get? (i - 1)

end BinTy

/-- Python TYPES[i] for a signed index i: positions 1..16 hold the types;
a negative i in -16..-2 wraps around as Python list indexing does (so the
byte 0xFF, read signed as -1, yields Argument); position 0 and -17 hold
the Python None placeholder and any other index raises IndexError — both
of those make the reader unusable, and are modelled as a lookup failure. -/
def typesGet (i : Int) : Option BinTy :=
  if 1 ≤ i ∧ i ≤ 16 then BinTy.byIndex i.toNat
  else if -16 ≤ i ∧ i ≤ -2 then BinTy.byIndex (i + 17).toNat
  else none

/-! ## qasm/qpl/exports.py : the export table -/

/-- ExportTableEntry (a FunctionReference from qasm/asm/old/function.py):
name is modelled as its ASCII byte sequence. -/
structure ExportEntry where
  name : List Nat
  offset : Int
  returnType : BinTy
  parameterTypes : List BinTy
  numLocals : Int
  deriving Repr, DecidableEq

/-- ExportTableEntry.to_bytes: ascii name, NUL, then
struct.pack("P b Nb b b", offset, return index, parameter indices,
Void.index(), num_locals).  The ascii encode fails on a code point >= 128;
pack fails outside the field ranges. -/
def exportEntryToBytes (e : ExportEntry) : Option (List Nat) := do
  if e.name.all (· < 128) then
    let off ← packUnsigned e.offset 8
    let rt ← packSigned (e.returnType.index : Int) 1
    let ps ← (e.parameterTypes.mapM fun p => packSigned (p.index : Int) 1)
    let term ← packSigned ((BinTy.void.index : Nat) : Int) 1
    let nl ← packSigned e.numLocals 1
    some (e.name ++ [0] ++ off ++ rt ++ ps.flatten ++ term ++ nl)
  else none

/-- The name loop of ExportTableEntry.from_binary_io: single-byte reads
until a NUL.  Python loops forever at end of stream (read(1) keeps
returning the empty byte string); that divergence is modelled as none. -/
def readCString : List Nat → Option (List Nat × List Nat)
  | [] => none
  | b :: rest =>
    if b = 0 then some ([], rest)
    else do
      let (nm, r) ← readCString rest
      some (b :: nm, r)

/-- The parameter loop of ExportTableEntry.from_binary_io: read one signed
byte, look it up in TYPES, stop at Void.  End of stream makes Python read
the value 0 forever (TYPES[0] is None); that divergence, and any index
whose TYPES entry is not a usable type, is modelled as none. -/
def readParams : List Nat → Option (List BinTy × List Nat)
  | [] => none
  | b :: rest => do
    let t ← typesGet (intFromBytesSigned [b])
    if t = BinTy.void then some ([], rest)
    else do
      let (ts, r) ← readParams rest
      some (t :: ts, r)

/-- One io.read(1) that must yield a byte; none models the divergence the
reader falls into at end of stream. -/
def readByte1 : List Nat → Option (Nat × List Nat)
  | [] => none
  | b :: r => some (b, r)

/-- ExportTableEntry.from_binary_io: name to the NUL, a signed native-word
offset (Int.from_bytes of 8 bytes, signed=True), a signed return-index
byte, parameter-index bytes up to the Void terminator, one num_locals
byte. -/
def readExportEntry (bs : List Nat) : Option (ExportEntry × List Nat) := do
  let (nm, r1) ← readCString bs
  let off := intFromBytesSigned (r1.take 8)
  let r2 := r1.drop 8
  let (rb, r3) ← readByte1 r2
  let rt ← typesGet (intFromBytesSigned [rb])
  let (ps, r4) ← readParams r3
  let (nb, r5) ← readByte1 r4
  some ({ name := nm, offset := off, returnType := rt,
          parameterTypes := ps, numLocals := intFromBytesSigned [nb] }, r5)

/-- ExportTable.to_bytes: Int.to_bytes of the entry count followed by the
serialized entries (the table is the dict's insertion-ordered values). -/
def exportTableToBytes (tbl : List ExportEntry) : Option (List Nat) := do
  let cnt ← intToBytesAuto (tbl.length : Int) 8
  let es ← tbl.mapM exportEntryToBytes
  some (cnt ++ es.flatten)

/-- The entry loop of ExportTable.from_binary_io: read count entries in
order; add_export raises on a duplicate name, modelled as none. -/
def readExportEntries : Nat → List Nat → List (List Nat) →
    Option (List ExportEntry × List Nat)
  | 0, bs, _ => some ([], bs)
  | n + 1, bs, seen => do
    let (e, r) ← readExportEntry bs
    if e.name ∈ seen then none
    else do
      let (es, r2) ← readExportEntries n r (e.name :: seen)
      some (e :: es, r2)

/-- ExportTable.from_binary_io: a signed native-word count then that many
entries. -/
def exportTableFromBytes (bs : List Nat) : Option (List ExportEntry × List Nat) :=
  let cnt := intFromBytesSigned (bs.take 8)
  readExportEntries cnt.toNat (bs.drop 8) []

/-- An entry whose offset fits in a native word but not in a signed native
word: the writer packs it with the unsigned "P" format, the reader decodes
it with signed Int.from_bytes. -/
def cexExportEntry : ExportEntry :=
  { name := [102], offset := (2 : Int) ^ 63, returnType := BinTy.int,
    parameterTypes := [], numLocals := 0 }

/-- The bytes ExportTableEntry.to_bytes produces for cexExportEntry. -/
def cexExportEntryBytes : List Nat :=
  [102, 0, 0, 0, 0, 0, 0, 0, 0, 128, 5, 1, 0]

/-- The entry the reader recovers from those bytes: the offset has become
negative. -/
def cexExportEntryReparsed : ExportEntry :=
  { name := [102], offset := -((2 : Int) ^ 63), returnType := BinTy.int,
    parameterTypes := [], numLocals := 0 }

/-- Validity of an export entry under which serialize-then-parse recovers
it: ASCII name without NUL bytes, an offset representable as a signed
native word, void excluded from the parameter list, and num_locals in the
range of the signed byte the writer packs it with. -/
def GoodEntry (e : ExportEntry) : Prop :=
  (∀ b ∈ e.name, 0 < b ∧ b < 128) ∧
  0 ≤ e.offset ∧ e.offset < (2 : Int) ^ 63 ∧
  (∀ p ∈ e.parameterTypes, p ≠ BinTy.void) ∧
  0 ≤ e.numLocals ∧ e.numLocals < 128

instance (e : ExportEntry) : Decidable (GoodEntry e) := by
  unfold GoodEntry; infer_instance

/-- The wire form of a good export entry, spelled out: name, NUL, 8-byte
little-endian offset, return index, parameter indices, the void terminator
1, num_locals. -/
def exportEntryWire (e : ExportEntry) : List Nat :=
  e.name ++ 0 :: (leBytes e.offset.toNat 8 ++ e.returnType.index ::
    ((e.parameterTypes.map BinTy.index) ++ 1 :: [e.numLocals.toNat]))

/-- The bytes of the one-entry table holding cexExportEntry. -/
def cexExportTableBytes : List Nat :=
  [1, 0, 0, 0, 0, 0, 0, 0] ++ cexExportEntryBytes

/-- A concrete well-formed export table used to instantiate the round-trip
theorem. -/
def wtnExportTable : List ExportEntry :=
  [{ name := [102], offset := 5, returnType := BinTy.int,
     parameterTypes := [BinTy.int8, BinTy.ptr], numLocals := 2 }]

/-- The failing input for claims C2 and C8: a big-endian architecture with
an 8-byte word, exactly what ArchitectureInfo decodes from the byte 0x88. -/
def bigEndianArch : ArchitectureInfo :=
  { systemWordSize := 8, isLittleEndian := false }

/-- A big-endian header: flags 0, architecture 0x88 (big-endian, 8-byte
words), no sections, version 1.0. -/
def bigEndianHeader : Header :=
  { flags := 0, architecture := bigEndianArch, numSections := 0,
    versionMajor := 1, versionMinor := 0 }

/-! ## qasm/parsing/tokens.py and qasm/parsing/tokenizer.py

The concrete Tokenizer imports TokenType from qasm/parsing/tokens.py, which
has exactly the kinds below: there is no semicolon, asterisk or equals kind
in that enum (the separate enum in itokenizer.py adds Asterisk but is not
the one the Tokenizer uses, and has no semicolon or equals kind either). -/

/-- TokenType from qasm/parsing/tokens.py. -/
inductive TokenType where
  | whiteSpace | newLine | comment | unknown | eof | dot | identifier
  | litChar | litInt | litString | litBool | litFloat | litNull
  | litBytes | litHex
  | comma | leftCurlyBracket | rightCurlyBracket
  | leftCurvyBracket | rightCurvyBracket | colon
  deriving Repr, DecidableEq

/-- The numeric value of each TokenType member. -/
def TokenType.toInt : TokenType → Int
  | .whiteSpace => -4 | .newLine => -3 | .comment => -2 | .unknown => -1
  | .eof => 0 | .dot => 1 | .identifier => 2
  | .litChar => 4 | .litInt => 5 | .litString => 6 | .litBool => 7
  | .litFloat => 8 | .litNull => 9 | .litBytes => 10 | .litHex => 11
  | .comma => 20 | .leftCurlyBracket => 21 | .rightCurlyBracket => 22
  | .leftCurvyBracket => 23 | .rightCurvyBracket => 24 | .colon => 25

/-- TokenType.is_literal: the literal-indicator range 4..11. -/
def TokenType.isLiteral (t : TokenType) : Bool :=
  4 ≤ t.toInt ∧ t.toInt ≤ 11

/-- TokenizerOptions from qasm/parsing/itokenizer.py. -/
inductive TokOpt where
  | emitNewLine | skipSpacesBeforeEating | emitWhiteSpace | emitComments
  | includeCommentCharacter | includeCommentEOL
  deriving Repr, DecidableEq

/-- The tokenizer's option dict, one boolean per TokenizerOptions key. -/
structure TokOptions where
  emitNewLine : Bool
  skipSpacesBeforeEating : Bool
  emitWhiteSpace : Bool
  emitComments : Bool
  includeCommentCharacter : Bool
  includeCommentEOL : Bool
  deriving Repr, DecidableEq

/-- Tokenizer.__init__ sets every option to False. -/
def TokOptions.allFalse : TokOptions :=
  ⟨false, false, false, false, false, false⟩

/-- Tokenizer.__getitem__. -/
def TokOptions.get : TokOptions → TokOpt → Bool
  | o, .emitNewLine => o.emitNewLine
  | o, .skipSpacesBeforeEating => o.skipSpacesBeforeEating
  | o, .emitWhiteSpace => o.emitWhiteSpace
  | o, .emitComments => o.emitComments
  | o, .includeCommentCharacter => o.includeCommentCharacter
  | o, .includeCommentEOL => o.includeCommentEOL

/-- Tokenizer.__setitem__. -/
def TokOptions.set : TokOptions → TokOpt → Bool → TokOptions
  | o, .emitNewLine, v => { o with emitNewLine := v }
  | o, .skipSpacesBeforeEating, v => { o with skipSpacesBeforeEating := v }
  | o, .emitWhiteSpace, v => { o with emitWhiteSpace := v }
  | o, .emitComments, v => { o with emitComments := v }
  | o, .includeCommentCharacter, v => { o with includeCommentCharacter := v }
  | o, .includeCommentEOL, v => { o with includeCommentEOL := v }

/-- A Token from qasm/parsing/asm_token.py (line, char, type, value). -/
structure Token where
  line : Nat
  col : Nat
  ttype : TokenType
  value : String
  deriving Repr, DecidableEq

/-- The Tokenizer's mutable state: source, cursor index (an int, set to -1
when the end-of-input IndexError is caught), position counters, the
current-token slot and the option dict. -/
structure TokState where
  source : List Char
  current : Int
  line : Nat
  col : Nat
  token : Option Token
  options : TokOptions
  deriving Repr, DecidableEq

/-- Tokenizer(source). -/
def mkTokenizer (s : List Char) : TokState :=
  { source := s, current := 0, line := 1, col := 1, token := none,
    options := TokOptions.allFalse }

/-- Tokenizer.char, i.e. self._source[self._current]: none models the
IndexError past the end.  (Python would wrap a negative index around, but
advance only reads the char while the cursor is >= 0.) -/
def TokState.char? (st : TokState) : Option Char :=
  if h : 0 ≤ st.current ∧ st.current.toNat < st.source.length then
    some (st.source.get ⟨st.current.toNat, h.2⟩)
  else none

/-- Tokenizer.next_char: self._source[self._current + 1], with the
IndexError converted to the empty string; the empty result is modelled as
none (its only use is isdigit, which is False for it). -/
def TokState.nextChar? (st : TokState) : Option Char :=
  if h : 0 ≤ st.current + 1 ∧ (st.current + 1).toNat < st.source.length then
    some (st.source.get ⟨(st.current + 1).toNat, h.2⟩)
  else none

/-- Tokenizer._next_char: advance the line/column counters over one
character. -/
def TokState.nextCharCount (st : TokState) (c : Char) : TokState :=
  if c = '\n' then { st with line := st.line + 1, col := 1 }
  else if c = '\r' then { st with col := 1 }
  else { st with col := st.col + 1 }

/-- Tokenizer._next_string: fold _next_char over a string. -/
def TokState.nextStringCount (st : TokState) (s : List Char) : TokState :=
  s.foldl TokState.nextCharCount st

/-- Tokenizer._create_token: store the token, advance the counters over the
value (plus "00" for char/string literals), then advance the cursor. -/
def createToken (st : TokState) (t : TokenType) (v : List Char) :
    Token × TokState :=
  let tok : Token := { line := st.line, col := st.col, ttype := t,
                       value := String.mk v }
  let v2 := if t = TokenType.litChar ∨ t = TokenType.litString
            then v ++ ['0', '0'] else v
  let st2 := st.nextStringCount v2
  (tok, { st2 with token := some tok, current := st2.current + 1 })

/-- The outcome of one tokenizer helper: a value with the new state, an
uncaught IndexError carrying the state at the raise, or a ValueError. -/
inductive TokStep (α : Type) where
  | ok (a : α) (st : TokState)
  | ix (st : TokState)
  | err (msg : String)
  deriving Repr

/-- Advance the cursor by one. -/
def TokState.bump (st : TokState) : TokState :=
  { st with current := st.current + 1 }

/-- Tokenizer._get_line_comment: collect up to (exclusive of) the newline,
also consuming the newline into the buffer when IncludeCommentEOL is set;
the IndexError at end of input is caught locally and the buffer so far is
returned. -/
def getLineComment : Nat → TokState → List Char × TokState
  | 0, st => ([], st)
  | fuel + 1, st =>
    match st.char? with
    | none => ([], st)
    | some c =>
      if c = '\n' then
        if st.options.includeCommentEOL then ([c], st.bump)
        else ([], st)
      else
        let (buf, st2) := getLineComment fuel st.bump
        (c :: buf, st2)

/-- The comment-skipping loop of advance when EmitComments is off:
while self.char != newline: current += 1; the IndexError escapes to
advance. -/
def skipToNewline : Nat → TokState → TokStep Unit
  | 0, _ => TokStep.err "fuel"
  | fuel + 1, st =>
    match st.char? with
    | none => TokStep.ix st
    | some c =>
      if c = '\n' then TokStep.ok () st
      else skipToNewline fuel st.bump

/-- Tokenizer._is_identifier_first_character. -/
def isIdentFirst (c : Char) : Bool :=
  c.isAlpha ∨ c ∈ ['_', '$', '#', '%', '!']

/-- Tokenizer._is_identifier_character. -/
def isIdentChar (c : Char) : Bool :=
  c.isAlphanum ∨ c ∈ ['_', '$', '#', '%', '!']

/-- The collection loop of _get_identifier: while the current char is an
identifier character, append and advance; the char read past the end
raises IndexError, which escapes to advance. -/
def identLoop : Nat → TokState → TokStep (List Char)
  | 0, _ => TokStep.err "fuel"
  | fuel + 1, st =>
    match st.char? with
    | none => TokStep.ix st
    | some c =>
      if isIdentChar c then
        match identLoop fuel st.bump with
        | TokStep.ok buf st2 => TokStep.ok (c :: buf) st2
        | r => r
      else TokStep.ok [] st

/-- Tokenizer._get_identifier: a ValueError unless the first char starts an
identifier, then the collection loop, then one step back when anything was
collected. -/
def getIdentifier (fuel : Nat) (st : TokState) : TokStep (List Char) :=
  match st.char? with
  | none => TokStep.ix st
  | some c =>
    if isIdentFirst c then
      match identLoop fuel st with
      | TokStep.ok buf st2 =>
        if buf.isEmpty then TokStep.ok buf st2
        else TokStep.ok buf { st2 with current := st2.current - 1 }
      | r => r
    else
      TokStep.err "Expected an identifier"

/-- The digit-collection loop shared by _get_integer10 (base-10 digits) and
_get_integer16 (hex digits). -/
def digitLoop (isDigit : Char → Bool) : Nat → TokState → TokStep (List Char)
  | 0, _ => TokStep.err "fuel"
  | fuel + 1, st =>
    match st.char? with
    | none => TokStep.ix st
    | some c =>
      if isDigit c then
        match digitLoop isDigit fuel st.bump with
        | TokStep.ok buf st2 => TokStep.ok (c :: buf) st2
        | r => r
      else TokStep.ok [] st

/-- Hex-digit predicate of _get_integer16 (case-insensitive). -/
def isHexDigit (c : Char) : Bool :=
  ('0' ≤ c ∧ c ≤ '9') ∨ ('a' ≤ c.toLower ∧ c.toLower ≤ 'f')

/-- Tokenizer._get_integer16: collect hex digits then unconditionally step
back one. -/
def getInteger16 (fuel : Nat) (st : TokState) : TokStep (List Char) :=
  match digitLoop isHexDigit fuel st with
  | TokStep.ok buf st2 => TokStep.ok buf { st2 with current := st2.current - 1 }
  | r => r

/-- Tokenizer._get_hex: require an x, skip it, then the hex digits. -/
def getHex (fuel : Nat) (st : TokState) : TokStep (List Char) :=
  match st.char? with
  | none => TokStep.ix st
  | some c =>
    if c = 'x' then getInteger16 fuel st.bump
    else TokStep.err "Hex number literal must begin with an x"

/-- Tokenizer._get_integer10: an optional leading minus, digits, then one
step back when anything was collected. -/
def getInteger10 (fuel : Nat) (st : TokState) : TokStep (List Char) :=
  match st.char? with
  | none => TokStep.ix st
  | some c =>
    let (pre, st1) : List Char × TokState :=
      if c = '-' then ([c], st.bump) else ([], st)
    match digitLoop Char.isDigit fuel st1 with
    | TokStep.ok buf st2 =>
      let all := pre ++ buf
      if all.isEmpty then TokStep.ok all st2
      else TokStep.ok all { st2 with current := st2.current - 1 }
    | r => r

/-- Tokenizer._get_number: integer part, optional fraction after a dot,
with the cursor stepped back when the dot is not followed by digits or
there is no dot. -/
def getNumber (fuel : Nat) (st : TokState) : TokStep (List Char) :=
  match getInteger10 fuel st with
  | TokStep.ok left st1 =>
    let withLeft : TokStep (List Char × TokState) :=
      if left.isEmpty then
        match st1.char? with
        | none => TokStep.ix st1
        | some c =>
          if c ≠ '.' then TokStep.err "Expected a number"
          else TokStep.ok ([], st1) st1
      else TokStep.ok (left, st1.bump) st1.bump
    match withLeft with
    | TokStep.ok (buf, st2) _ =>
      (match st2.char? with
      | none => TokStep.ix st2
      | some c =>
        if c = '.' then
          match getInteger10 fuel st2.bump with
          | TokStep.ok right st3 =>
            if right.isEmpty then
              TokStep.ok (buf ++ [c]) { st3 with current := st3.current - 1 }
            else TokStep.ok (buf ++ c :: right) st3
          | r => r
        else TokStep.ok buf { st2 with current := st2.current - 1 })
    | TokStep.ix s => TokStep.ix s
    | TokStep.err m => TokStep.err m
  | r => r

/-- Tokenizer._get_special_character. -/
def getSpecialChar (c : Char) : Option Char :=
  if c = 'r' then some '\r'
  else if c = 't' then some '\t'
  else if c = 'n' then some '\n'
  else if c = '\\' then some '\\'
  else if c = '\'' then some '\''
  else none

/-- The collection loop of the string-literal branch of advance. -/
def stringLoop : Nat → TokState → TokStep (List Char)
  | 0, _ => TokStep.err "fuel"
  | fuel + 1, st =>
    match st.char? with
    | none => TokStep.ix st
    | some c =>
      if c = '\"' then TokStep.ok [] st
      else
        let st1 := st.bump
        let (ch, st2) : Char × TokState :=
          if c = '\\' then
            match st1.char? with
            | none => (c, st1)
            | some e =>
              match getSpecialChar e with
              | some esc => (esc, st1.bump)
              | none => (c, st1)
          else (c, st1)
        match stringLoop fuel st2 with
        | TokStep.ok buf st3 => TokStep.ok (ch :: buf) st3
        | r => r

/-- One iteration outcome of the dispatch loop in Tokenizer.advance: a
token, a continue (newline/whitespace/comment consumed silently), an
escaping IndexError, or a ValueError. -/
inductive AdvStep where
  | tok (t : Token) (st : TokState)
  | cont (st : TokState)
  | ix (st : TokState)
  | err (msg : String)
  deriving Repr

/-- The body of the while loop of Tokenizer.advance, dispatching on the
current character exactly in source order. -/
def advanceBody (fuel : Nat) (st : TokState) : AdvStep :=
  match st.char? with
  | none => AdvStep.ix st
  | some c =>
    if c = '\n' then
      if st.options.emitNewLine then
        let (t, st2) := createToken st TokenType.newLine [c]
        AdvStep.tok t st2
      else AdvStep.cont ((st.nextCharCount c).bump)
    else if c = ' ' ∨ c = '\t' then
      if st.options.emitWhiteSpace then
        let (t, st2) := createToken st TokenType.whiteSpace [c]
        AdvStep.tok t st2
      else AdvStep.cont ((st.nextCharCount c).bump)
    else if c = ';' then
      if st.options.emitComments then
        let st1 := if st.options.includeCommentCharacter then st else st.bump
        let (buf, st2) := getLineComment fuel st1
        let (t, st3) := createToken st2 TokenType.comment buf
        AdvStep.tok t st3
      else
        match skipToNewline fuel st with
        | TokStep.ok _ st2 => AdvStep.cont st2
        | TokStep.ix st2 => AdvStep.ix st2
        | TokStep.err m => AdvStep.err m
    else if c = '(' then
      let (t, st2) := createToken st TokenType.leftCurvyBracket [c]
      AdvStep.tok t st2
    else if c = ')' then
      let (t, st2) := createToken st TokenType.rightCurvyBracket [c]
      AdvStep.tok t st2
    else if c = '{' then
      let (t, st2) := createToken st TokenType.leftCurlyBracket [c]
      AdvStep.tok t st2
    else if c = '}' then
      let (t, st2) := createToken st TokenType.rightCurlyBracket [c]
      AdvStep.tok t st2
    else if c = ',' then
      let (t, st2) := createToken st TokenType.comma [c]
      AdvStep.tok t st2
    else if c = '.' then
      if (st.nextChar?.map Char.isDigit).getD false then
        match getNumber fuel st with
        | TokStep.ok buf st2 =>
          let (t, st3) := createToken st2 TokenType.litFloat buf
          AdvStep.tok t st3
        | TokStep.ix st2 => AdvStep.ix st2
        | TokStep.err m => AdvStep.err m
      else
        let (t, st2) := createToken st TokenType.dot [c]
        AdvStep.tok t st2
    else if c = ':' then
      let (t, st2) := createToken st TokenType.colon [c]
      AdvStep.tok t st2
    else if c = '\'' then
      let st1 := st.bump
      match st1.char? with
      | none => AdvStep.ix st1
      | some ch =>
        let st2 := st1.bump
        let (ch2, st3) : Char × TokState :=
          if ch = '\\' then
            match st2.char? with
            | none => (ch, st2)
            | some e =>
              match getSpecialChar e with
              | some esc => (esc, st2.bump)
              | none => (ch, st2)
          else (ch, st2)
        match st3.char? with
        | none => AdvStep.ix st3
        | some q =>
          if q ≠ '\'' then AdvStep.err "Invalid char literal"
          else
            let (t, st4) := createToken st3 TokenType.litChar [ch2]
            AdvStep.tok t st4
    else if c = '\"' then
      match stringLoop fuel st.bump with
      | TokStep.ok buf st2 =>
        let (t, st3) := createToken st2 TokenType.litString buf
        AdvStep.tok t st3
      | TokStep.ix st2 => AdvStep.ix st2
      | TokStep.err m => AdvStep.err m
    else if c = '\\' then
      let st1 := st.bump
      match st1.char? with
      | none => AdvStep.ix st1
      | some x =>
        if x = 'x' then
          match getHex fuel st1 with
          | TokStep.ok buf st2 =>
            let (t, st3) := createToken st2 TokenType.litHex buf
            AdvStep.tok t st3
          | TokStep.ix st2 => AdvStep.ix st2
          | TokStep.err m => AdvStep.err m
        else AdvStep.err "Invalid number format"
    else if c.isDigit ∨ c = '-' then
      match getNumber fuel st with
      | TokStep.ok buf st2 =>
        if buf.contains '.' then
          let (t, st3) := createToken st2 TokenType.litFloat buf
          AdvStep.tok t st3
        else
          let (t, st3) := createToken st2 TokenType.litInt buf
          AdvStep.tok t st3
      | TokStep.ix st2 => AdvStep.ix st2
      | TokStep.err m => AdvStep.err m
    else
      match getIdentifier fuel st with
      | TokStep.ok buf st2 =>
        let (t, st3) := createToken st2 TokenType.identifier buf
        AdvStep.tok t st3
      | TokStep.ix st2 => AdvStep.ix st2
      | TokStep.err m => AdvStep.err m

/-- The while loop of Tokenizer.advance: run the body while the cursor is
nonnegative; the IndexError handler sets the cursor to -1 and returns the
EOF token (whose creation bumps the cursor back to 0); falling out of the
loop returns Python's implicit None. -/
def advanceLoop : Nat → TokState → Except String (Option Token × TokState)
  | 0, _ => Except.error "fuel"
  | fuel + 1, st =>
    if st.current < 0 then Except.ok (none, st)
    else
      match advanceBody fuel st with
      | AdvStep.tok t st2 => Except.ok (some t, st2)
      | AdvStep.cont st2 => advanceLoop fuel st2
      | AdvStep.ix st2 =>
        let (t, st3) := createToken { st2 with current := -1 } TokenType.eof []
        Except.ok (some t, st3)
      | AdvStep.err m => Except.error m

/-- Tokenizer.advance: clear the token slot and run the loop.  The fuel is
ample for any cursor position within the source. -/
def advance (st : TokState) : Except String (Option Token × TokState) :=
  advanceLoop (st.source.length + 2) { st with token := none }

/-- Tokenizer.TokenizerOptionsWrapper.options(value): set every named
option to the one value. -/
def setOptionsAll (o : TokOptions) (ks : List TokOpt) (v : Bool) : TokOptions :=
  ks.foldl (fun acc k => acc.set k v) o

/-- TokenizerOptionsWrapper.__enter__ on a tokenizer state: every named
option becomes True. -/
def wrapperEnter (ks : List TokOpt) (st : TokState) : TokState :=
  { st with options := setOptionsAll st.options ks true }

/-- TokenizerOptionsWrapper.__exit__ (both on normal and on exception
exit; it returns False, so an exception is re-raised): every named option
becomes False. -/
def wrapperExit (ks : List TokOpt) (st : TokState) : TokState :=
  { st with options := setOptionsAll st.options ks false }

/-- A with-block over the wrapper: enter, run the body (whose error value
carries the tokenizer state at the raise, since the Python state mutations
made before the raise survive the unwinding), exit on either path. -/
def wrapperWith (ks : List TokOpt) (body : TokState → Except TokState TokState)
    (st : TokState) : Except TokState TokState :=
  match body (wrapperEnter ks st) with
  | Except.ok st2 => Except.ok (wrapperExit ks st2)
  | Except.error st2 => Except.error (wrapperExit ks st2)

/-- The state a with-block run leaves behind, on either exit path. -/
def exitState : Except TokState TokState → TokState
  | Except.ok st => st
  | Except.error st => st

/-! ## qasm/asm/instructions/type.py and stack_machine.py

The Type objects of the stack-machine model are singletons compared by
object identity in Python (Type defines no __eq__); ITy values model those
objects, with structural equality standing for identity of the per-name
singletons.  Stacks are Lean lists with the TOP at the HEAD (the Python
deque holds bottom-to-top, so our head is deque[-1]). -/

/-- The type tags of qasm/asm/instructions/type.py: Type(name),
Generic(name), Many(type, limit), Template(name) (whose types slot is
never assigned, see unpackOne). -/
inductive ITy where
  | mk (tname : String)
  | generic (g : String)
  | many (t : ITy) (limit : Int)
  | template (tname : String)
  deriving Repr, DecidableEq

/-- The _name attribute: Generic and Template mangle their names, and a
Many's name is its str() form. -/
def ITy.name : ITy → String
  | .mk n => n
  | .generic g => "GenericName<" ++ g ++ ">"
  | .many t l =>
    t.name ++ "[" ++ (if l < 0 then "..." else toString l) ++ "]"
  | .template n => "TemplateName<" ++ n ++ ">"

/-- unpack_types on a single tag: a Many with limit >= 0 expands to limit
recursively-unpacked copies of its inner type; a Many with negative limit
stays; a Template is appended as-is (its types slot is declared in
__slots__ but never assigned, so the access raises AttributeError and the
except branch appends the template itself); anything else stays. -/
def unpackOne : ITy → List ITy
  | .many t l =>
    if 0 ≤ l then (List.replicate l.toNat (unpackOne t)).flatten
    else [.many t l]
  | .template n => [.template n]
  | t => [t]

/-- unpack_types from qasm/asm/instructions/type.py: each element
contributes its unpacking, in order. -/
def unpackTypes (ts : List ITy) : List ITy := ts.flatMap unpackOne

/-- StackTransformation: a pair of StackStates; StackState.__init__ runs
unpack_types over the given tags, so both sides are stored unpacked. -/
structure StackTransformation where
  before : List ITy
  after : List ITy
  deriving Repr, DecidableEq

/-- StackState(before) >> StackState(after). -/
def mkTransformation (before after : List ITy) : StackTransformation :=
  { before := unpackTypes before, after := unpackTypes after }

/-- The errors of stack_machine.py: NotEnoughValuesError from the depth
precheck, InvalidStackStateError from pop_type on a mismatched nonempty
stack, and the IndexError pop_type actually raises on an empty stack
(self.top()[0] indexes an empty tuple while building the message). -/
inductive StackErr where
  | notEnoughValues (expected got : Nat)
  | invalidState
  | indexError
  deriving Repr, DecidableEq

/-- Stack.try_pop_type: pop and return the top when it equals the wanted
type, None when it differs or the stack is empty (IndexError caught). -/
def tryPopType (t : ITy) : List ITy → Option (List ITy)
  | [] => none
  | x :: rest => if x = t then some rest else none

/-- Stack.pop_type: try_pop_type, raising when it yields None — an
InvalidStackStateError on a nonempty stack, and on an empty stack the
IndexError from self.top()[0] in the message expression. -/
def popType (t : ITy) (st : List ITy) : Except StackErr (List ITy) :=
  match tryPopType t st with
  | some st2 => Except.ok st2
  | none =>
    match st with
    | [] => Except.error StackErr.indexError
    | _ => Except.error StackErr.invalidState

/-- The while-loop of the negative-limit Many branch of Stack.apply:
try_pop_type until it returns None (first non-matching top or empty
stack). -/
def popGreedy (t : ITy) : List ITy → List ITy
  | [] => []
  | x :: rest => if x = t then popGreedy t rest else x :: rest

/-- The processing loop of Stack.apply over reversed(before.types)
(top-first here), threading the mutated stack through and stopping at the
first raised error with the stack as the mutations left it — Python's
deque is mutated in place, so the error case returns the partially-popped
stack. -/
def applyEntriesMut : List ITy → List ITy → Option StackErr × List ITy
  | [], st => (none, st)
  | t :: rest, st =>
    match t with
    | .many ty l =>
      if l < 0 then applyEntriesMut rest (popGreedy ty st)
      else
        match popExactMut ty l.toNat st with
        | (none, st2) => applyEntriesMut rest st2
        | (some e, st2) => (some e, st2)
    | _ =>
      match popType t st with
      | Except.ok st2 => applyEntriesMut rest st2
      | Except.error e => (some e, st)
where
  /-- The for-range loop of the nonnegative-limit Many branch: limit
  pop_type calls. -/
  popExactMut (ty : ITy) : Nat → List ITy → Option StackErr × List ITy
    | 0, st => (none, st)
    | n + 1, st =>
      match popType ty st with
      | Except.ok st2 => popExactMut ty n st2
      | Except.error e => (some e, st)

/-- Stack.apply with the mutated stack made explicit: the depth precheck
(counting each before entry, a Many included, as one) happens before any
pop; then the entry loop; on success the after types are pushed
bottom-to-top. -/
def stackApplyMut (tr : StackTransformation) (st : List ITy) :
    Option StackErr × List ITy :=
  if st.length < tr.before.length then
    (some (StackErr.notEnoughValues tr.before.length st.length), st)
  else
    match applyEntriesMut tr.before.reverse st with
    | (none, st2) => (none, tr.after.reverse ++ st2)
    | (some e, st2) => (some e, st2)

/-- Stack.apply viewed as raising: the result stack is dropped on error. -/
def stackApply (tr : StackTransformation) (st : List ITy) :
    Except StackErr (List ITy) :=
  match stackApplyMut tr st with
  | (none, st2) => Except.ok st2
  | (some e, _) => Except.error e

/-! ## qasm/asm/instructions/instruction.py : Instruction.build_from -/

/-- An Instruction: name, parameter tags, and the stored transformation
(both sides unpacked by StackState.__init__). -/
structure Instr where
  iname : String
  parameters : List ITy
  before : List ITy
  after : List ITy
  deriving Repr, DecidableEq

/-- Instruction(name, parameters, StackState(before), StackState(after)). -/
def mkInstr (n : String) (params bef aft : List ITy) : Instr :=
  { iname := n, parameters := params,
    before := unpackTypes bef, after := unpackTypes aft }

/-- The errors build_from raises. -/
inductive BuildErr where
  | wrongArgCount
  | notEnoughValues (expected got : Nat)
  | invalidArgumentType
  | incompatibleTypesOnStack
  | somehowNotUnpacked
  | unboundGeneric
  deriving Repr, DecidableEq

/-- The first loop of build_from: bind each parameter's name to its
argument in the generic mapping (an insertion-ordered dict modelled as an
association list); a name already bound must name-match the new
argument, else InvalidInstructionArgumentType. -/
def bindArgs : List (ITy × ITy) → List (String × ITy) →
    Except BuildErr (List (String × ITy))
  | [], m => Except.ok m
  | (argument, parameter) :: rest, m =>
    match m.lookup parameter.name with
    | some bound =>
      if argument.name ≠ bound.name then Except.error BuildErr.invalidArgumentType
      else bindArgs rest m
    | none => bindArgs rest (m ++ [(parameter.name, argument)])

/-- The second loop of build_from: walk stack.top(n) (bottom-to-top)
against the unpacked before types, substituting bound generics and binding
unbound ones to the stack entry at their position; a Many keeps its limit
around the substituted inner type.  Returns the rebuilt before list
(bottom-to-top) and the extended mapping. -/
def substBefore : List (ITy × ITy) → List (String × ITy) →
    List ITy × List (String × ITy)
  | [], m => ([], m)
  | (stackType, typeBefore) :: rest, m =>
    let (inner, lim?) : ITy × Option Int :=
      match typeBefore with
      | .many t l => (t, some l)
      | t => (t, none)
    let (inner2, m2) : ITy × List (String × ITy) :=
      match inner with
      | .generic g =>
        (match m.lookup (ITy.generic g).name with
        | some bound => (bound, m)
        | none => (stackType, m ++ [((ITy.generic g).name, stackType)]))
      | t => (t, m)
    let outT := match lim? with
      | some l => ITy.many inner2 l
      | none => inner2
    let (ts, m3) := substBefore rest m2
    (outT :: ts, m3)

/-- The verification loop of build_from: compare reversed(stack) with
reversed(types_before) (both top-first here); a Many with limit <= 0 is
skipped, a Many with positive limit raises the "Somehow ... was not
unpacked" ValueError, and a name mismatch raises
IncompatibleTypesOnStackError. -/
def verifyBefore : List (ITy × ITy) → Except BuildErr Unit
  | [] => Except.ok ()
  | (stackType, typeBefore) :: rest =>
    match typeBefore with
    | .many _ l =>
      if l ≤ 0 then verifyBefore rest
      else Except.error BuildErr.somehowNotUnpacked
    | t =>
      if t.name ≠ stackType.name then
        Except.error BuildErr.incompatibleTypesOnStack
      else verifyBefore rest

/-- The after loop of build_from: substitute bound generics (KeyError on
an unbound one). -/
def substAfter : List ITy → List (String × ITy) → Except BuildErr (List ITy)
  | [], _ => Except.ok []
  | t :: rest, m => do
    let t2 ← (match t with
      | ITy.generic g =>
        (match m.lookup (ITy.generic g).name with
        | some bound => Except.ok bound
        | none => Except.error BuildErr.unboundGeneric)
      | t => Except.ok t)
    let ts ← substAfter rest m
    Except.ok (t2 :: ts)

/-- Python stack.top(n): the top n entries in bottom-to-top order (the
whole stack when it is shorter). -/
def stackTop (st : List ITy) (n : Nat) : List ITy := (st.take n).reverse

/-- Instruction.build_from(stack, *arguments) from
qasm/asm/instructions/instruction.py: argument-count check, generic
binding from the arguments, depth check against the unpacked before
types, the top-down rebuild of the before types, the verification pass,
the after substitution, and the rebuilt Instruction (whose StackStates
unpack again). -/
def buildFrom (inst : Instr) (stack : List ITy) (arguments : List ITy) :
    Except BuildErr Instr := do
  if arguments.length ≠ inst.parameters.length then
    Except.error BuildErr.wrongArgCount
  else
    let m0 ← bindArgs (arguments.zip inst.parameters) []
    let before := unpackTypes inst.before
    if before.length > stack.length then
      Except.error (BuildErr.notEnoughValues before.length stack.length)
    else
      let (typesBefore, m1) :=
        substBefore ((stackTop stack inst.before.length).zip
          (unpackTypes inst.before)) m0
      let _ ← verifyBefore (stack.zip typesBefore.reverse)
      let typesAfter ← substAfter inst.after m1
      Except.ok (mkInstr inst.iname inst.parameters typesBefore typesAfter)

/-! ## qasm/asm/old/assembler.py : the assembler pipeline

The AST node classes come from qasm/parsing/old/nodes.py, which is absent
from src/; they are plain data carriers and are modelled from their use in
assembler.py and from the spec (see the doc comments marked
"Modelled from the spec").  The deciding logic embedded below —
CodeSection.on_instruction/recalculate_labels/to_bytes, the section
managers, Assembler.assemble — is translated from
src/qasm/asm/old/assembler.py; the binary types come from
src/qasm/asm/bin_types.py as before.  Label objects are shared between
the label manager, the sections and the functions in Python; the model
keeps one store (labelMan / functions / typeDefs) and per-section lists
of owned label names, so a section's recalculation updates the shared
entry. -/

/-- A Python token value as the assembler sees it: the parser leaves
strings, CodeSection.on_instruction fabricates int-valued tokens. -/
inductive TokVal where
  | s (v : String)
  | i (v : Int)
  deriving Repr, DecidableEq

/-- Modelled from the spec: an instruction-argument node
(InstructionNode.InstructionArgument from the absent
qasm/parsing/old/nodes.py): a value token — whose token type drives
bin_type_from_token_type — and an optional type annotation. -/
structure NArg where
  tval : TokVal
  ttok : TokenType
  atype : Option String
  deriving Repr, DecidableEq

/-- Modelled from the spec: the AST nodes of the directive dialect
(SectionNode, InstructionNode, VariableDefinitionNode,
FunctionDefinitionNode, TypeDefinitionNode, LabelNode from the absent
qasm/parsing/old/nodes.py), with exactly the attributes assembler.py
reads: name/opname/arguments/type/return_type/parameters/modifiers. -/
inductive Node where
  | section (name : String)
  | instruction (opname : String) (args : List NArg)
  | varDef (name : Option String) (tname : String)
  | funcDef (name : String) (returnType : String)
      (params : List (String × String)) (modifiers : List String)
  | typeDef (name : String) (modifiers : List String)
  | label (name : String)
  deriving Repr, DecidableEq

/-- The type values the assembler passes around: a registry type, the
Type/TypeSize/Variable pseudo-type classes, Pointer[typedef], or a
TypeDefinition used as a type. -/
inductive ATy where
  | base (b : BinTy)
  | typeTy
  | sizeofTy
  | varTy
  | ptrTo (td : String)
  | tdef (td : String)
  deriving Repr, DecidableEq

/-- The _name attribute of each type value (TypeDefinition.name is its
label name; Pointer subclasses keep the name "ptr"). -/
def ATy.aname : ATy → String
  | .base b => b.name
  | .typeTy => "type"
  | .sizeofTy => "sizeof"
  | .varTy => "var"
  | .ptrTo _ => "ptr"
  | .tdef n => n

/-- The class-level _size: pseudo classes Type and Variable have the
TypeMeta default 0, TypeSize inherits Int's native size, Pointer[...] the
pointer size; a TypeDefinition's size is state-dependent and never occurs
in an encoded instruction's operand-type list. -/
def ATy.asize : ATy → Nat
  | .base b => b.size
  | .typeTy => 0
  | .sizeofTy => 8
  | .varTy => 0
  | .ptrTo _ => 8
  | .tdef _ => 0

/-- issubclass(pt, Pointer): Pointer, RelativePointer, Bytes (raw) and
String (str) are Pointer subclasses in bin_types.py, as is any
Pointer[typedef]. -/
def ATy.isPtrSubclass : ATy → Bool
  | .base .ptr => true
  | .base .rptr => true
  | .base .raw => true
  | .base .str => true
  | .ptrTo _ => true
  | _ => false

/-- TYPE_TABLE: name → registry type. -/
def typeTableGet (n : String) : Option BinTy :=
  [BinTy.void, .bool, .ptr, .rptr, .int, .int8, .int16, .int32, .int64,
   .float, .float32, .float64, .str, .raw, .localSlot, .argSlot].find?
    (fun b => b.name = n)

/-- INSTRUCTIONS from qasm/asm/old/instructions.py: name → (code,
operand types). -/
def instructionsGet (n : String) : Option (Int × List ATy) :=
  if n = "nop" then some (0, [])
  else if n = "dlog" then some (1, [ATy.typeTy])
  else if n = "push" then some (2, [ATy.varTy])
  else if n = "pop" then some (3, [ATy.varTy])
  else if n = "call" then some (4, [ATy.base BinTy.rptr])
  else if n = "unsafe_call" then some (5, [ATy.base BinTy.rptr])
  else if n = "ret" then some (6, [])
  else if n = "jmp" then some (7, [ATy.base BinTy.rptr])
  else if n = "jmp_true" then some (8, [ATy.base BinTy.rptr])
  else if n = "jmp_false" then some (9, [ATy.base BinTy.rptr])
  else if n = "cmp_gt" then some (10, [ATy.typeTy, ATy.typeTy])
  else if n = "cmp_lt" then some (11, [ATy.typeTy, ATy.typeTy])
  else if n = "cmp_ge" then some (12, [ATy.typeTy, ATy.typeTy])
  else if n = "cmp_le" then some (13, [ATy.typeTy, ATy.typeTy])
  else if n = "cmp_eq" then some (14, [ATy.typeTy, ATy.typeTy])
  else if n = "cmp_ne" then some (15, [ATy.typeTy, ATy.typeTy])
  else if n = "add" then some (16, [ATy.typeTy, ATy.typeTy])
  else if n = "sub" then some (17, [ATy.typeTy, ATy.typeTy])
  else if n = "mul" then some (18, [ATy.typeTy, ATy.typeTy])
  else if n = "div" then some (19, [ATy.typeTy, ATy.typeTy])
  else if n = "mod" then some (20, [ATy.typeTy, ATy.typeTy])
  else if n = "push_mem" then some (21, [ATy.typeTy, ATy.typeTy])
  else if n = "pop_mem" then some (22, [ATy.typeTy, ATy.typeTy])
  else if n = "new" then some (23, [ATy.sizeofTy, ATy.base BinTy.int])
  else if n = "free" then some (24, [])
  else if n = "dup" then some (25, [])
  else if n = "exit" then some (-1, [])
  else none

/-- Modelled from the spec: bin_type_from_token_type of the absent
qasm/parsing/old/parser.py — literals carry their token kind as the
provisional binary type (spec 4.2/4.3); non-literal kinds have none. -/
def binTypeFromTokenType : TokenType → Except String BinTy
  | .litInt => Except.ok BinTy.int
  | .litFloat => Except.ok BinTy.float
  | .litString => Except.ok BinTy.str
  | .litBool => Except.ok BinTy.bool
  | .litChar => Except.ok BinTy.int8
  | .litBytes => Except.ok BinTy.raw
  | .litHex => Except.ok BinTy.raw
  | .litNull => Except.ok BinTy.void
  | _ => Except.error "no binary type for this token type"

/-- A parsed literal value: the int family (bool included) or raw bytes
(ascii-encoded strings included). -/
inductive PVal where
  | i (v : Int)
  | bs (v : List Nat)
  deriving Repr, DecidableEq

/-- Python int(string): an optional minus sign then decimal digits. -/
def parseIntStr (s : String) : Option Int :=
  match s.data with
  | [] => none
  | '-' :: rest =>
    if rest ≠ [] ∧ rest.all Char.isDigit then
      some (-(String.mk rest).toNat!)
    else none
  | l =>
    if l.all Char.isDigit then some ((String.mk l).toNat! : Int) else none

/-- Python int(v) on a token value. -/
def parseAsInt (v : TokVal) : Except String Int :=
  match v with
  | .i n => Except.ok n
  | .s s =>
    match parseIntStr s with
    | some n => Except.ok n
    | none => Except.error "invalid literal for int()"

/-- The ascii bytes of a string, failing on a code point outside ascii. -/
def asciiBytes (s : String) : Except String (List Nat) :=
  if s.data.all (fun c => c.toNat < 128) then
    Except.ok (s.data.map Char.toNat)
  else Except.error "ascii codec can't encode character"

/-- parse() of each registry type on a token value (bin_types.py): the
int family via int(), bool via the true/false table, str as itself, raw
as its ascii bytes, void as None (modelled as the empty byte value);
float parsing falls outside the integer model and is mapped to an error
(no claim exercises it). -/
def parseBin (b : BinTy) (v : TokVal) : Except String PVal :=
  match b with
  | .int | .int8 | .int16 | .int32 | .int64 | .ptr | .rptr =>
    do Except.ok (PVal.i (← parseAsInt v))
  | .bool =>
    match v with
    | .s "true" => Except.ok (PVal.i 1)
    | .s "false" => Except.ok (PVal.i 0)
    | _ => Except.error "KeyError in Bool.parse"
  | .str | .raw =>
    match v with
    | .s s => do Except.ok (PVal.bs (← asciiBytes s))
    | .i _ => Except.error "raw value must be a string"
  | .void => Except.ok (PVal.bs [])
  | .float | .float32 | .float64 =>
    Except.error "float values are outside the integer model"
  | .localSlot | .argSlot =>
    do Except.ok (PVal.i (← parseAsInt v))

/-- Int.to_bytes(v, size, signed=(v<0)) lifted to Except. -/
def intBytesAutoE (n : Int) (w : Nat) : Except String (List Nat) :=
  match intToBytesAuto n w with
  | some l => Except.ok l
  | none => Except.error "OverflowError in int.to_bytes"

/-- to_bytes() of each registry type on a parsed value (bin_types.py):
Void always empty, Pointer unsigned native-word, RelativePointer signed
native-word, bool one unsigned byte, the Int family with
signed=(v<0), raw/str the bytes themselves; floats are outside the
integer model. -/
def binToBytes (b : BinTy) (v : PVal) : Except String (List Nat) :=
  match b, v with
  | .void, _ => Except.ok []
  | .ptr, PVal.i n =>
    (match packUnsigned n 8 with
    | some l => Except.ok l
    | none => Except.error "OverflowError in Pointer.to_bytes")
  | .rptr, PVal.i n =>
    (match packSigned n 8 with
    | some l => Except.ok l
    | none => Except.error "OverflowError in RelativePointer.to_bytes")
  | .bool, PVal.i n =>
    (match packUnsigned n 1 with
    | some l => Except.ok l
    | none => Except.error "OverflowError in Bool.to_bytes")
  | .int, PVal.i n => intBytesAutoE n 8
  | .int8, PVal.i n => intBytesAutoE n 1
  | .int16, PVal.i n => intBytesAutoE n 2
  | .int32, PVal.i n => intBytesAutoE n 4
  | .int64, PVal.i n => intBytesAutoE n 8
  | .localSlot, PVal.i n => intBytesAutoE n 1
  | .argSlot, PVal.i n => intBytesAutoE n 1
  | .str, PVal.bs l => Except.ok l
  | .raw, PVal.bs l => Except.ok l
  | .float, _ => Except.error "float values are outside the integer model"
  | .float32, _ => Except.error "float values are outside the integer model"
  | .float64, _ => Except.error "float values are outside the integer model"
  | _, _ => Except.error "TypeError in to_bytes"

/-- to_bytes() on an assembler type value: registry types as above, a
Pointer[typedef] with Pointer's unsigned encoding; the pseudo classes
have no usable to_bytes. -/
def atyToBytes (t : ATy) (v : PVal) : Except String (List Nat) :=
  match t with
  | .base b => binToBytes b v
  | .ptrTo _ =>
    (match v with
    | PVal.i n =>
      (match packUnsigned n 8 with
      | some l => Except.ok l
      | none => Except.error "OverflowError in Pointer.to_bytes")
    | _ => Except.error "TypeError in Pointer.to_bytes")
  | _ => Except.error "to_bytes on a pseudo type"

/-- A TypeDefinition from qasm/asm/old/type.py: a label (name, offset)
carrying ordered fields (name → intra-type offset) and the accumulated
size. -/
structure TypeDefn where
  tdname : String
  offset : Int
  modifiers : List String
  fields : List (TokVal × Int)
  size : Int
  deriving Repr, DecidableEq

/-- A Parameter from qasm/asm/old/function.py (name, type, index). -/
structure AParam where
  pname : String
  ptype : ATy
  pindex : Nat
  deriving Repr, DecidableEq

/-- A Function from qasm/asm/old/function.py.  The body holds the indices
of the shared Instruction objects within the code section's list. -/
structure AFunc where
  fname : String
  offset : Int
  returnType : ATy
  params : List AParam
  locals : List AParam
  modifiers : List String
  body : List Nat
  deriving Repr, DecidableEq

/-- An entry of the global LabelManager: a plain label, a Function (whose
offset lives in the shared functions store), or an imported
FunctionReference. -/
inductive LMEntry where
  | plain (offset : Int)
  | func (idx : Nat)
  | funcRef (offset : Int) (ret : BinTy) (ps : List BinTy) (numLocals : Int)
  deriving Repr, DecidableEq

/-- An encoded instruction of the code section (old/instruction.py): the
built InstructionDefinition (name, opcode, expanded operand types), the
expanded argument nodes and the section-relative offset (made global by
the relocation pass). -/
structure CodeInstr where
  opname : String
  opcode : Int
  ptypes : List ATy
  args : List NArg
  offset : Int
  deriving Repr, DecidableEq

/-- The six section names, in the fixed emission order of
Assembler._sections_ordered. -/
inductive SectionName where
  | config | types | data | code | imports | exports
  deriving Repr, DecidableEq

/-- The assembler's whole mutable state: the sections' contents, the label
manager, the function store, the current-section and current-function
pointers. -/
structure AsmState where
  configValues : List (String × List TokVal)
  typeDefs : List TypeDefn
  currentType : Option Nat
  typesSize : Int
  dataBytes : List Nat
  codeInstrs : List CodeInstr
  codeSize : Int
  importsBytes : List Nat
  importTable : Option (List ExportEntry)
  allImports : List String
  exportsIdx : List Nat
  functions : List AFunc
  labelMan : List (String × LMEntry)
  typesLabelNames : List String
  dataLabelNames : List String
  codeLabelNames : List String
  importsLabelNames : List String
  currentSection : Option SectionName
  currentFunction : Option Nat
  deriving Repr, DecidableEq

/-- Assembler.__init__. -/
def initState : AsmState :=
  { configValues := [], typeDefs := [], currentType := none, typesSize := 0,
    dataBytes := [], codeInstrs := [], codeSize := 0, importsBytes := [],
    importTable := none, allImports := [], exportsIdx := [], functions := [],
    labelMan := [], typesLabelNames := [], dataLabelNames := [],
    codeLabelNames := [], importsLabelNames := [], currentSection := none,
    currentFunction := none }

/-- The files the import section may load, the external collaborator of
read_file: path → the parsed QPL file's sections (name → bytes), whose
concatenation is QPLFile.raw_data. -/
structure FileEnv where
  files : String → Option (List (String × List Nat))

/-- Assembler._sections: name → section. -/
def sectionOfName (n : String) : Option SectionName :=
  if n = "config" then some SectionName.config
  else if n = "types" then some SectionName.types
  else if n = "data" then some SectionName.data
  else if n = "code" then some SectionName.code
  else if n = "imports" then some SectionName.imports
  else if n = "exports" then some SectionName.exports
  else none

/-- Which sections are SizedSections (config and exports are not). -/
def isSized : SectionName → Bool
  | .types | .data | .code | .imports => true
  | _ => false

/-- The size property of a sized section. -/
def sectionSize (st : AsmState) : SectionName → Int
  | .types => st.typesSize
  | .data => (st.dataBytes.length : Int)
  | .code => st.codeSize
  | .imports => (st.importsBytes.length : Int)
  | _ => 0

/-- Assembler.get_type: TYPE_TABLE first, then the types section's
registry. -/
def getType (st : AsmState) (n : String) : Except String ATy :=
  match typeTableGet n with
  | some b => Except.ok (ATy.base b)
  | none =>
    match st.typeDefs.find? (fun t => t.tdname = n) with
    | some _ => Except.ok (ATy.tdef n)
    | none => Except.error "unknown type"

/-- The size a type value contributes, reading a TypeDefinition's
accumulated size from the store. -/
def atySizeIn (st : AsmState) : ATy → Int
  | .tdef n =>
    (match st.typeDefs.find? (fun t => t.tdname = n) with
    | some t => t.size
    | none => 0)
  | t => (t.asize : Int)

/-- index() of a type value: registry types their TYPE_INDEX,
Pointer[typedef] and TypeDefinition the Pointer index (3); the pseudo
classes have no TYPE_INDEX entry (KeyError). -/
def atyIndex (t : ATy) : Except String Nat :=
  match t with
  | .base b => Except.ok b.index
  | .ptrTo _ => Except.ok 3
  | .tdef _ => Except.ok 3
  | _ => Except.error "KeyError in TYPE_INDEX"

/-- LabelManager.get_label by name. -/
def lmGet (st : AsmState) (n : String) : Option LMEntry :=
  match st.labelMan.find? (fun p => p.1 = n) with
  | some p => some p.2
  | none => none

/-- The current offset of a label-manager entry. -/
def lmOffset (st : AsmState) : LMEntry → Int
  | .plain o => o
  | .func idx =>
    (match st.functions.get? idx with
    | some f => f.offset
    | none => 0)
  | .funcRef o _ _ _ => o

/-- LabelManager.add_label: duplicates rejected. -/
def lmAdd (st : AsmState) (n : String) (e : LMEntry) :
    Except String AsmState :=
  if (st.labelMan.find? (fun p => p.1 = n)).isSome then
    Except.error "Label already exists"
  else Except.ok { st with labelMan := st.labelMan ++ [(n, e)] }

/-- The Local/Argument tail of one iteration of the argument-expansion
loop in CodeSection.on_instruction, after the Variable replacement has
produced preT/preA: a local or parameter reference expands to a
(type-index, slot-index) byte pair; anything else falls through appended
as-is. -/
def expandTail (st : AsmState) (pt : ATy) (arg : NArg)
    (preT : List ATy) (preA : List NArg) :
    Except String (List ATy × List NArg) :=
  match pt with
  | ATy.base BinTy.localSlot => do
    match st.currentFunction with
    | none => Except.error "AttributeError: no current function"
    | some fidx =>
      match st.functions.get? fidx with
      | none => Except.error "bad function index"
      | some f =>
        match ((match arg.tval with
          | TokVal.s nm => f.locals.find? (fun p => p.pname = nm)
          | TokVal.i _ => none) : Option AParam) with
        | none => Except.error "KeyError in locals"
        | some lcl => do
          let t ← getType st lcl.ptype.aname
          let tIdx ← atyIndex t
          Except.ok (preT ++ [ATy.base BinTy.int8, ATy.base BinTy.localSlot],
            preA ++ ([⟨TokVal.i tIdx, TokenType.litInt, none⟩,
                      ⟨TokVal.i lcl.pindex, TokenType.litInt, none⟩] : List NArg))
  | ATy.base BinTy.argSlot => do
    match st.currentFunction with
    | none => Except.error "AttributeError: no current function"
    | some fidx =>
      match st.functions.get? fidx with
      | none => Except.error "bad function index"
      | some f =>
        match ((match arg.tval with
          | TokVal.s nm => f.params.find? (fun p => p.pname = nm)
          | TokVal.i _ => none) : Option AParam) with
        | none => Except.error "KeyError in parameters"
        | some prm => do
          let t ← getType st prm.ptype.aname
          let tIdx ← atyIndex t
          Except.ok (preT ++ [ATy.base BinTy.int8, ATy.base BinTy.argSlot],
            preA ++ ([⟨TokVal.i tIdx, TokenType.litInt, none⟩,
                      ⟨TokVal.i prm.pindex, TokenType.litInt, none⟩] : List NArg))
  | _ => Except.ok (preT ++ [pt], preA ++ [arg])

/-- One iteration of the argument-expansion loop of
CodeSection.on_instruction: the Type pseudo-parameter becomes an Int8
type index, the TypeSize pseudo-parameter an Int holding the named
type's size, a Variable becomes an Int8 type index followed by the
argument under its actual type (a TypeDefinition wrapped into a pointer),
and Local/Argument expand per expandTail. -/
def expandArg (st : AsmState) (pt0 : ATy) (arg0 : NArg) :
    Except String (List ATy × List NArg) := do
  let (pt1, arg1) ←
    (match pt0 with
    | ATy.typeTy =>
      (match arg0.tval with
      | TokVal.s tn =>
        (match typeTableGet tn with
        | some b => Except.ok (ATy.base BinTy.int8,
            ({ tval := TokVal.i (b.index : Int), ttok := TokenType.litInt,
               atype := some "int8" } : NArg))
        | none => Except.error "KeyError in TYPE_INDEX")
      | TokVal.i _ => Except.error "KeyError in TYPE_INDEX")
    | ATy.sizeofTy =>
      (match arg0.tval with
      | TokVal.s tn => do
        let t ← getType st tn
        Except.ok (ATy.base BinTy.int,
          ({ tval := TokVal.i (atySizeIn st t), ttok := TokenType.litInt,
             atype := some "int" } : NArg))
      | TokVal.i _ => Except.error "unknown type")
    | _ => Except.ok (pt0, arg0))
  match pt1 with
  | ATy.varTy => do
    let ptv ← (match arg1.atype with
      | some tn => getType st tn
      | none => do
        let b ← binTypeFromTokenType arg1.ttok
        Except.ok (ATy.base b))
    let ptv2 := (match ptv with
      | ATy.tdef n => ATy.ptrTo n
      | t => t)
    let idx ← atyIndex ptv2
    expandTail st ptv2 arg1 [ATy.base BinTy.int8]
      [⟨TokVal.i idx, TokenType.litInt, none⟩]
  | _ => expandTail st pt1 arg1 [] []

/-- The whole expansion loop over zip(inst.types, instruction.arguments). -/
def expandArgs (st : AsmState) :
    List (ATy × NArg) → Except String (List ATy × List NArg)
  | [] => Except.ok ([], [])
  | (pt, arg) :: rest => do
    let (t1, a1) ← expandArg st pt arg
    let (t2, a2) ← expandArgs st rest
    Except.ok (t1 ++ t2, a1 ++ a2)

/-- CodeSection.on_instruction: look the opcode up, check the argument
count against the declared parameter list, expand the arguments, compute
the encoded size (opcode byte plus operand sizes, plus the two extra
call bytes), and append the instruction at the current cursor.  Returns
the index of the appended instruction (the object on_instruction
returns). -/
def codeOnInstruction (st : AsmState) (opname : String) (args : List NArg) :
    Except String (AsmState × Nat) := do
  match instructionsGet opname with
  | none => Except.error "Unknown instruction"
  | some (code, ptys) =>
    if args.length ≠ ptys.length then
      Except.error "wrong number of arguments"
    else do
      let (types2, args2) ← expandArgs st (ptys.zip args)
      let size : Int := 1 + ((types2.map (fun t => (t.asize : Int))).sum) +
        (if opname = "call" then 2 else 0)
      let instr : CodeInstr :=
        { opname := opname, opcode := code, ptypes := types2, args := args2,
          offset := st.codeSize }
      Except.ok ({ st with
          codeInstrs := st.codeInstrs ++ [instr],
          codeSize := st.codeSize + size }, st.codeInstrs.length)

/-- DataSection.on_instruction: only db; each argument's bytes (by its
annotation or its token kind) are appended. -/
def dataOnInstruction (st : AsmState) (opname : String) (args : List NArg) :
    Except String AsmState :=
  if opname ≠ "db" then Except.error "Invalid instruction in data section"
  else do
    let chunks ← args.mapM (fun arg => do
      let typ ← (match arg.atype with
        | none => binTypeFromTokenType arg.ttok
        | some tn =>
          (match typeTableGet tn with
          | some b => Except.ok b
          | none => Except.error "KeyError in TYPE_TABLE"))
      let pv ← parseBin typ arg.tval
      binToBytes typ pv)
    Except.ok { st with dataBytes := st.dataBytes ++ chunks.flatten }

/-- TypesSection.on_instruction: field <Type>.<name> adds a field (keyed
by the raw token value, as the Python dict is) at the current type's
running size and advances both the type's size and the section size. -/
def typesOnInstruction (st : AsmState) (opname : String) (args : List NArg) :
    Except String AsmState :=
  if opname = "field" then
    match args with
    | [] => Except.error "not enough values to unpack"
    | a :: _ => do
      let tn ← (match a.atype with
        | some tn => Except.ok tn
        | none => Except.error "unknown type")
      let typ ← getType st tn
      match st.currentType with
      | none => Except.error "Can't define a field outside a type definition"
      | some ti =>
        match st.typeDefs.get? ti with
        | none => Except.error "bad type index"
        | some td =>
          if (td.fields.find? (fun p => p.1 = a.tval)).isSome then
            Except.error "Field already exists"
          else
            let fsize := atySizeIn st typ
            let td2 := { td with
              fields := td.fields ++ [(a.tval, td.size)],
              size := td.size + fsize }
            Except.ok { st with
              typeDefs := st.typeDefs.set ti td2,
              typesSize := st.typesSize + fsize }
  else Except.error "Unknown instruction in types section"

/-- ImportSection.on_instruction: load parses a companion file's export
table and appends its raw data; import copies one export's signature into
the label manager (the all-imports duplicate check tests a set nothing is
ever added to, so it never fires); any other opname falls through and is
silently ignored. -/
def importsOnInstruction (env : FileEnv) (st : AsmState) (opname : String)
    (args : List NArg) : Except String AsmState :=
  if opname = "load" then do
    match args.get? 0 with
    | none => Except.error "IndexError: no path argument"
    | some a0 =>
      match a0.tval with
      | TokVal.i _ => Except.error "invalid path token"
      | TokVal.s path =>
        match env.files path with
        | none => Except.error "FileNotFoundError"
        | some sections =>
          match sections.find? (fun p => p.1 = "exports") with
          | none => Except.error "KeyError: no exports section"
          | some (_, exBytes) =>
            match exportTableFromBytes exBytes with
            | none => Except.error "bad export table"
            | some (tbl, _) =>
              Except.ok { st with
                importTable := some tbl,
                importsBytes := st.importsBytes ++
                  (sections.map Prod.snd).flatten }
  else if opname = "import" then do
    match st.importTable with
    | none => Except.error "Can't import function without loading a file first"
    | some tbl =>
      match args.get? 0 with
      | none => Except.error "IndexError: no function name"
      | some a0 =>
        match a0.tval with
        | TokVal.i _ => Except.error "invalid name token"
        | TokVal.s funcName => do
          let importName ← (match args.get? 1 with
            | some a1 =>
              (match a1.tval with
              | TokVal.s nm => Except.ok nm
              | TokVal.i _ => Except.error "invalid name token")
            | none => Except.ok funcName)
          if funcName ∈ st.allImports then
            Except.error "Function was already imported"
          else do
            let nmBytes ← asciiBytes funcName
            match tbl.find? (fun e => e.name = nmBytes) with
            | none => Except.error "KeyError in export table"
            | some func => do
              let st2 ← lmAdd st importName
                (LMEntry.funcRef func.offset func.returnType
                  func.parameterTypes func.numLocals)
              Except.ok { st2 with
                importsLabelNames := st2.importsLabelNames ++ [importName] }
  else Except.ok st

/-- ConfigSection's predeclared options: entry of one Pointer. -/
def configTypesGet (n : String) : Option (List ATy) :=
  if n = "entry" then some [ATy.base BinTy.ptr] else none

/-- ConfigSection.on_instruction: set a known option's values (custom
options are disabled in Assembler.__init__). -/
def configOnInstruction (st : AsmState) (opname : String) (args : List NArg) :
    Except String AsmState :=
  match configTypesGet opname with
  | none => Except.error "No option was found"
  | some tys =>
    if args.length ≠ tys.length then
      Except.error "Option takes exactly N arguments"
    else
      let vals := args.map (fun a => a.tval)
      let cv := (if (st.configValues.find? (fun p => p.1 = opname)).isSome
        then st.configValues.map
          (fun p => if p.1 = opname then (p.1, vals) else p)
        else st.configValues ++ [(opname, vals)])
      Except.ok { st with configValues := cv }

/-- The per-section on_instruction dispatch; the code section returns the
appended instruction's index. -/
def onInstruction (env : FileEnv) (st : AsmState) (sec : SectionName)
    (opname : String) (args : List NArg) :
    Except String (AsmState × Option Nat) :=
  match sec with
  | SectionName.code => do
    let (st2, i) ← codeOnInstruction st opname args
    Except.ok (st2, some i)
  | SectionName.data => do
    Except.ok (← dataOnInstruction st opname args, none)
  | SectionName.types => do
    Except.ok (← typesOnInstruction st opname args, none)
  | SectionName.imports => do
    Except.ok (← importsOnInstruction env st opname args, none)
  | SectionName.config => do
    Except.ok (← configOnInstruction st opname args, none)
  | SectionName.exports => Except.error "Can't manually export a function"

/-- Append an instruction index to the current function's body (the shared
Instruction object in Python). -/
def appendBody (st : AsmState) (fidx : Nat) (i : Nat) : AsmState :=
  match st.functions.get? fidx with
  | some f =>
    { st with functions := st.functions.set fidx { f with body := f.body ++ [i] } }
  | none => st

/-- Add a name to a sized section's owned-label list. -/
def addSectionLabelName (st : AsmState) (sec : SectionName) (n : String) :
    AsmState :=
  match sec with
  | SectionName.types => { st with typesLabelNames := st.typesLabelNames ++ [n] }
  | SectionName.data => { st with dataLabelNames := st.dataLabelNames ++ [n] }
  | SectionName.code => { st with codeLabelNames := st.codeLabelNames ++ [n] }
  | SectionName.imports =>
    { st with importsLabelNames := st.importsLabelNames ++ [n] }
  | _ => st

/-- The implicit push 0 the assembler fabricates in front of a ret in a
void function (assembler.py lines 486-496): a push with the int-literal
token "0". -/
def pushZeroArgs : List NArg :=
  [{ tval := TokVal.s "0", ttok := TokenType.litInt, atype := none }]

/-- One iteration of the node loop of Assembler.assemble. -/
def processNode (env : FileEnv) (st : AsmState) (n : Node) :
    Except String AsmState :=
  match n with
  | Node.section name =>
    if name = "$null" then Except.ok { st with currentSection := none }
    else
      match sectionOfName name with
      | some s => Except.ok { st with currentSection := some s }
      | none => Except.error "KeyError: unknown section"
  | Node.instruction opname args =>
    match st.currentSection with
    | none => Except.ok st
    | some sec => do
      let st1 ←
        if opname = "ret" then
          match st.currentFunction with
          | none => Except.error "AttributeError: no current function"
          | some fidx =>
            match st.functions.get? fidx with
            | none => Except.error "bad function index"
            | some f =>
              if f.returnType = ATy.base BinTy.void then do
                let (st2, res) ← onInstruction env st sec "push" pushZeroArgs
                if sec = SectionName.code then
                  match res with
                  | some i => Except.ok (appendBody st2 fidx i)
                  | none => Except.ok st2
                else Except.ok st2
              else Except.ok st
        else Except.ok st
      let (st3, res2) ← onInstruction env st1 sec opname args
      if sec = SectionName.code then
        match st3.currentFunction with
        | none => Except.error "AttributeError: no current function"
        | some fidx =>
          match res2 with
          | some i => Except.ok (appendBody st3 fidx i)
          | none => Except.ok st3
      else Except.ok st3
  | Node.varDef name? tname =>
    match st.currentFunction with
    | none => Except.error "AttributeError: no current function"
    | some fidx =>
      match st.functions.get? fidx with
      | none => Except.error "bad function index"
      | some f => do
        let nm := name?.getD (toString f.locals.length)
        let ty ← (match typeTableGet tname with
          | some b => Except.ok (ATy.base b)
          | none =>
            (match st.typeDefs.find? (fun t => t.tdname = tname) with
            | some _ => Except.ok (ATy.ptrTo tname)
            | none => Except.error "KeyError: unknown type"))
        let newP : AParam := { pname := nm, ptype := ty, pindex := f.locals.length }
        let locals2 :=
          if (f.locals.find? (fun p => p.pname = nm)).isSome then
            f.locals.map (fun p => if p.pname = nm then newP else p)
          else f.locals ++ [newP]
        Except.ok
          { st with functions := st.functions.set fidx { f with locals := locals2 } }
  | Node.funcDef name rt params modifiers => do
    let rty ← getType st rt
    let ptys ← (params.enum.mapM (fun pi => do
      let t ← getType st pi.2.2
      Except.ok ({ pname := pi.2.1, ptype := t, pindex := pi.1 } : AParam)))
    let idx := st.functions.length
    let f : AFunc := { fname := name, offset := st.codeSize,
                       returnType := rty, params := ptys, locals := [],
                       modifiers := modifiers, body := [] }
    let st2 := { st with
      functions := st.functions ++ [f],
      currentFunction := some idx }
    let st3 ←
      if "export" ∈ modifiers then
        if (st2.exportsIdx.find? (fun i =>
            (match st2.functions.get? i with
            | some g => g.fname = name
            | none => false))).isSome then
          Except.error "Function is already exported"
        else Except.ok { st2 with exportsIdx := st2.exportsIdx ++ [idx] }
      else Except.ok st2
    match st3.currentSection with
    | some sec =>
      if isSized sec then do
        let st4 ← lmAdd st3 name (LMEntry.func idx)
        Except.ok (addSectionLabelName st4 sec name)
      else Except.error "Can't add label outside a sized section"
    | none => Except.error "Can't add label outside a sized section"
  | Node.typeDef name modifiers =>
    if (st.typeDefs.find? (fun t => t.tdname = name)).isSome then
      Except.error "Type already exists"
    else
      let td : TypeDefn := { tdname := name, offset := st.typesSize,
                             modifiers := modifiers, fields := [], size := 0 }
      Except.ok { st with
        typeDefs := st.typeDefs ++ [td],
        currentType := some st.typeDefs.length }
  | Node.label name =>
    match st.currentSection with
    | some sec =>
      if isSized sec then do
        let st2 ← lmAdd st name (LMEntry.plain (sectionSize st sec))
        Except.ok (addSectionLabelName st2 sec name)
      else Except.ok st
    | none => Except.ok st

/-- The node loop of Assembler.assemble over a whole program. -/
def processNodes (env : FileEnv) (ns : List Node) (st : AsmState) :
    Except String AsmState :=
  ns.foldlM (processNode env) st

/-- ConfigSection.to_bytes: for each option whose value was set, each
value serialized under the option's type — a Pointer-family type takes
the label's offset, anything else parses the value. -/
def configToBytes (st : AsmState) : Except String (List Nat) := do
  let chunks ← st.configValues.mapM (fun nv => do
    let tys ← (match configTypesGet nv.1 with
      | some t => Except.ok t
      | none => Except.error "KeyError in config types")
    let parts ← (nv.2.zip tys).mapM (fun vt => do
      if vt.2.isPtrSubclass then do
        let nm ← (match vt.1 with
          | TokVal.s n => Except.ok n
          | TokVal.i _ => Except.error "KeyError in label manager")
        match lmGet st nm with
        | none => Except.error "KeyError in label manager"
        | some e => atyToBytes vt.2 (PVal.i (lmOffset st e))
      else do
        let pv ← (match vt.2 with
          | ATy.base b => parseBin b vt.1
          | _ => Except.error "parse on a pseudo type")
        atyToBytes vt.2 pv)
    Except.ok parts.flatten)
  Except.ok chunks.flatten

/-- ExportTableEntry.to_bytes over a Function, as ExportSection.to_bytes
emits it: ascii name, NUL, unsigned native-word offset, signed index
bytes for the return and parameter types, the void terminator, one
num_locals byte (the current number of locals). -/
def exportFuncToBytes (f : AFunc) : Except String (List Nat) := do
  let nm ← asciiBytes f.fname
  let off ← (match packUnsigned f.offset 8 with
    | some l => Except.ok l
    | none => Except.error "struct.error in pack P")
  let rIdx ← atyIndex f.returnType
  let rt ← (match packSigned (rIdx : Int) 1 with
    | some l => Except.ok l
    | none => Except.error "struct.error in pack b")
  let ps ← f.params.mapM (fun p => do
    let i ← atyIndex p.ptype
    match packSigned (i : Int) 1 with
    | some l => Except.ok l
    | none => Except.error "struct.error in pack b")
  let nl ← (match packSigned (f.locals.length : Int) 1 with
    | some l => Except.ok l
    | none => Except.error "struct.error in pack b")
  Except.ok (nm ++ [0] ++ off ++ rt ++ ps.flatten ++ [1] ++ nl)

/-- ExportSection.to_bytes: the native-word count then the entries of the
exported functions, in export order. -/
def exportsToBytes (st : AsmState) : Except String (List Nat) := do
  let entries ← st.exportsIdx.mapM (fun i => do
    match st.functions.get? i with
    | some f => exportFuncToBytes f
    | none => Except.error "bad export index")
  let cnt ← intBytesAutoE (st.exportsIdx.length : Int) 8
  Except.ok (cnt ++ entries.flatten)

/-- Label.recalculate on one entry: a plain label or an imported reference
shifts its stored offset; a Function entry's offset lives in the function
store instead, so the entry itself is unchanged. -/
def shiftEntry (off : Int) : LMEntry → LMEntry
  | LMEntry.plain o => LMEntry.plain (o + off)
  | LMEntry.funcRef o r ps nl => LMEntry.funcRef (o + off) r ps nl
  | e => e

/-- The indices of the Function entries among a section's owned labels,
whose offsets must shift in the function store. -/
def recalcFidxs (lm : List (String × LMEntry)) (names : List String) :
    List Nat :=
  lm.filterMap (fun p =>
    if p.1 ∈ names then
      match p.2 with
      | LMEntry.func i => some i
      | _ => none
    else none)

/-- SizedSection.recalculate_labels on the label-manager entries a section
owns: plain labels and imported references shift in place; a Function
entry's offset lives in the function store and shifts there. -/
def recalcNames (st : AsmState) (names : List String) (off : Int) : AsmState :=
  { st with
    labelMan := st.labelMan.map (fun p =>
      if p.1 ∈ names then (p.1, shiftEntry off p.2) else p),
    functions := st.functions.enum.map (fun fi =>
      if fi.1 ∈ recalcFidxs st.labelMan names then
        { fi.2 with offset := fi.2.offset + off }
      else fi.2) }

/-- TypesSection.recalculate_labels: the owned manager labels plus every
TypeDefinition label the section holds. -/
def recalcTypes (st : AsmState) (off : Int) : AsmState :=
  let st2 := recalcNames st st.typesLabelNames off
  { st2 with
    typeDefs := st2.typeDefs.map (fun t => { t with offset := t.offset + off }) }

/-- CodeSection.recalculate_labels: the owned labels plus every encoded
instruction's offset. -/
def recalcCode (st : AsmState) (off : Int) : AsmState :=
  let st2 := recalcNames st st.codeLabelNames off
  { st2 with
    codeInstrs := st2.codeInstrs.map (fun c => { c with offset := c.offset + off }) }

/-- The sized-section stages of the relocation pass, starting from the
running offset the serialized config section leaves: shift the types
section's labels, then data's, then code's (with the instruction
offsets), then imports'. -/
def relocStages (st : AsmState) (off1 : Int) : AsmState :=
  let st1 := recalcTypes st off1
  let st2 := recalcNames st1 st1.dataLabelNames (off1 + st1.typesSize)
  let st3 := recalcCode st2
    (off1 + st1.typesSize + (st2.dataBytes.length : Int))
  recalcNames st3 st3.importsLabelNames
    (off1 + st1.typesSize + (st2.dataBytes.length : Int) + st3.codeSize)

/-- The relocation pass of Assembler.assemble (lines 529-536): walk the
sections in emission order with a running global offset; a sized section
shifts its labels by the current offset then advances it by its size; an
unsized section advances it by the length of its serialized form. -/
def relocate (st : AsmState) : Except String AsmState := do
  let cfg ← configToBytes st
  let off1 : Int := (cfg.length : Int)
  let st1 := recalcTypes st off1
  let off2 := off1 + st1.typesSize
  let st2 := recalcNames st1 st1.dataLabelNames off2
  let off3 := off2 + (st2.dataBytes.length : Int)
  let st3 := recalcCode st2 off3
  let off4 := off3 + st3.codeSize
  let st4 := recalcNames st3 st3.importsLabelNames off4
  let _ ← exportsToBytes st4
  Except.ok st4

/-- One (type, arg) pair of CodeSection.to_bytes: pointer-family, Local
and Argument parameters resolve the name against the CURRENT function's
locals (then parameters, whose hit appends the InstructionArgument class
— which has no to_bytes, so emission fails there), then the typedef-field
offset or the label manager; an unresolvable name falls back to
int(value); an rptr value is made relative to the instruction's offset.
Anything else parses the literal under its type.  Returns the (type,
value) pairs this argument contributes. -/
def emitArg (st : AsmState) (instr : CodeInstr) (pt : ATy) (arg : NArg) :
    Except String (List (ATy × PVal)) :=
  if pt.isPtrSubclass ∨ pt = ATy.base BinTy.localSlot ∨
      pt = ATy.base BinTy.argSlot then
    match st.currentFunction with
    | none => Except.error "AttributeError: no current function"
    | some fidx =>
      match st.functions.get? fidx with
      | none => Except.error "bad function index"
      | some f =>
        match ((match arg.tval with
          | TokVal.s nm => f.locals.find? (fun p => p.pname = nm)
          | TokVal.i _ => none) : Option AParam) with
        | some lcl => do
          let t ← getType st lcl.ptype.aname
          let tIdx ← atyIndex t
          Except.ok [(ATy.base BinTy.int8, PVal.i (tIdx : Int)),
            (ATy.base BinTy.localSlot, PVal.i (lcl.pindex : Int))]
        | none =>
          match ((match arg.tval with
            | TokVal.s nm => f.params.find? (fun p => p.pname = nm)
            | TokVal.i _ => none) : Option AParam) with
          | some _ =>
            Except.error "AttributeError: InstructionArgument has no to_bytes"
          | none => do
            let resolved : Option (ATy × Int) :=
              (match pt with
              | ATy.ptrTo td =>
                (match st.typeDefs.find? (fun t => t.tdname = td) with
                | some tdn =>
                  (match tdn.fields.find? (fun p => p.1 = arg.tval) with
                  | some fld => some (ATy.base BinTy.int, fld.2)
                  | none => none)
                | none => none)
              | _ =>
                (match arg.tval with
                | TokVal.s nm =>
                  (match lmGet st nm with
                  | some e => some (pt, lmOffset st e)
                  | none => none)
                | TokVal.i _ => none))
            let (pt2, v) ← (match resolved with
              | some r => Except.ok r
              | none => do Except.ok (pt, ← parseAsInt arg.tval))
            let v2 := if pt2 = ATy.base BinTy.rptr then v - instr.offset else v
            Except.ok [(pt2, PVal.i v2)]
  else do
    let pv ← (match pt with
      | ATy.base b => parseBin b arg.tval
      | _ => Except.error "parse on a pseudo type")
    Except.ok [(pt, pv)]

/-- The call tail of CodeSection.to_bytes: the callee looked up in the
label manager must be a function reference; its num_params and num_locals
are appended as two Int8 values. -/
def emitCallTail (st : AsmState) (instr : CodeInstr) :
    Except String (List (ATy × PVal)) :=
  if instr.opname = "call" then
    match instr.args.get? 0 with
    | none => Except.error "IndexError: call without argument"
    | some a0 =>
      match a0.tval with
      | TokVal.i _ => Except.error "KeyError in label manager"
      | TokVal.s nm =>
        match lmGet st nm with
        | none => Except.error "KeyError in label manager"
        | some e =>
          match e with
          | LMEntry.plain _ => Except.error "Can't call a non-function object"
          | LMEntry.func i =>
            (match st.functions.get? i with
            | some f => Except.ok
                [(ATy.base BinTy.int8, PVal.i (f.params.length : Int)),
                 (ATy.base BinTy.int8, PVal.i (f.locals.length : Int))]
            | none => Except.error "bad function index")
          | LMEntry.funcRef _ _ ps nl => Except.ok
              [(ATy.base BinTy.int8, PVal.i (ps.length : Int)),
               (ATy.base BinTy.int8, PVal.i nl)]
  else Except.ok []

/-- InstructionDefinition.to_bytes for one encoded instruction: the
signed opcode byte followed by each resolved value under its type. -/
def emitInstr (st : AsmState) (instr : CodeInstr) :
    Except String (List Nat) := do
  let pairs ← (instr.ptypes.zip instr.args).mapM
    (fun pa => emitArg st instr pa.1 pa.2)
  let tail ← emitCallTail st instr
  let op ← (match packSigned instr.opcode 1 with
    | some l => Except.ok l
    | none => Except.error "OverflowError in opcode byte")
  let body ← (pairs.flatten ++ tail).mapM (fun tv => atyToBytes tv.1 tv.2)
  Except.ok (op ++ body.flatten)

/-- CodeSection.to_bytes: every instruction's bytes in order. -/
def codeToBytes (st : AsmState) : Except String (List Nat) := do
  let bss ← st.codeInstrs.mapM (emitInstr st)
  Except.ok bss.flatten

/-- The serialized form of each section (the emission pass, assemble
lines 538-539; TypesSection.to_bytes is 0xCA times its size). -/
def sectionToBytes (st : AsmState) : SectionName → Except String (List Nat)
  | SectionName.config => configToBytes st
  | SectionName.types => Except.ok (List.replicate st.typesSize.toNat 0xCA)
  | SectionName.data => Except.ok st.dataBytes
  | SectionName.code => codeToBytes st
  | SectionName.imports => Except.ok st.importsBytes
  | SectionName.exports => exportsToBytes st

/-- The code section's base offset as the relocation pass computes it:
the serialized sizes of the sections preceding code in emission order
(config's serialized length, then the types and data section sizes). -/
def codeBase (st : AsmState) : Except String Int := do
  let cfg ← configToBytes st
  Except.ok ((cfg.length : Int) + st.typesSize + (st.dataBytes.length : Int))

/-- The instruction CodeSection.on_instruction builds for the implicit
push 0 at cursor off: opcode 2, an Int8 type index (int = 5) and the int
literal "0". -/
def pushZeroInstr (off : Int) : CodeInstr :=
  { opname := "push", opcode := 2,
    ptypes := [ATy.base BinTy.int8, ATy.base BinTy.int],
    args := [{ tval := TokVal.i 5, ttok := TokenType.litInt, atype := none },
             { tval := TokVal.s "0", ttok := TokenType.litInt, atype := none }],
    offset := off }

/-- The instruction built for a bare ret at cursor off. -/
def retInstr (off : Int) : CodeInstr :=
  { opname := "ret", opcode := 6, ptypes := [], args := [], offset := off }

/-- Does position k of the code section hold a ret? -/
def retAt (st : AsmState) (k : Nat) : Bool :=
  match st.codeInstrs.get? k with
  | some c => c.opname = "ret"
  | none => false

/-- Does position k of the code section hold the assembler's push 0 (a
push whose literal argument — the second expanded argument — is the
int-literal token "0")? -/
def pushZeroAt (st : AsmState) (k : Nat) : Bool :=
  match st.codeInstrs.get? k with
  | some c => c.opname = "push" ∧ c.args.get? 1 =
      some { tval := TokVal.s "0", ttok := TokenType.litInt, atype := none }
  | none => false

/-- Claim C6's property of an assembler state: in every void function's
recorded body, a ret instruction is immediately preceded — both in the
body and in the code section's instruction list — by the assembler's
push 0. -/
def VoidRetProp (st : AsmState) : Prop :=
  ∀ f ∈ st.functions, f.returnType = ATy.base BinTy.void →
    ∀ p ∈ f.body.enum, retAt st p.2 = true →
      0 < p.1 ∧ 0 < p.2 ∧ f.body.get? (p.1 - 1) = some (p.2 - 1) ∧
      pushZeroAt st (p.2 - 1) = true

instance (st : AsmState) : Decidable (VoidRetProp st) := by
  unfold VoidRetProp; infer_instance

/-- Every body index points into the code section's instruction list. -/
def BodyInRange (st : AsmState) : Prop :=
  ∀ f ∈ st.functions, ∀ k ∈ f.body, k < st.codeInstrs.length

instance (st : AsmState) : Decidable (BodyInRange st) := by
  unfold BodyInRange; infer_instance

/-- The function index an entry references, if any. -/
def funcIdx? : LMEntry → Option Nat
  | LMEntry.func i => some i
  | _ => none

/-- A function index referenced by a label entry stays inside the store. -/
def funcBound (e : LMEntry) (n : Nat) : Prop :=
  match e with
  | LMEntry.func i => i < n
  | _ => True

instance (e : LMEntry) (n : Nat) : Decidable (funcBound e n) := by
  unfold funcBound
  cases e <;> infer_instance

/-- The bookkeeping invariant of the label manager and the per-section
label-name lists that every reachable assembler state satisfies: manager
keys are unique and in-store; each section's owned names exist in the
manager; the four ownership lists are pairwise disjoint; function indices
referenced by entries are in range, and no two entries reference the same
function. -/
def LabelNamesInv (st : AsmState) : Prop :=
  (st.labelMan.map Prod.fst).Nodup ∧
  (∀ nm ∈ st.typesLabelNames, nm ∈ st.labelMan.map Prod.fst) ∧
  (∀ nm ∈ st.dataLabelNames, nm ∈ st.labelMan.map Prod.fst) ∧
  (∀ nm ∈ st.codeLabelNames, nm ∈ st.labelMan.map Prod.fst) ∧
  (∀ nm ∈ st.importsLabelNames, nm ∈ st.labelMan.map Prod.fst) ∧
  (∀ nm ∈ st.typesLabelNames, nm ∉ st.dataLabelNames) ∧
  (∀ nm ∈ st.typesLabelNames, nm ∉ st.codeLabelNames) ∧
  (∀ nm ∈ st.typesLabelNames, nm ∉ st.importsLabelNames) ∧
  (∀ nm ∈ st.dataLabelNames, nm ∉ st.codeLabelNames) ∧
  (∀ nm ∈ st.dataLabelNames, nm ∉ st.importsLabelNames) ∧
  (∀ nm ∈ st.codeLabelNames, nm ∉ st.importsLabelNames) ∧
  (∀ p ∈ st.labelMan, funcBound p.2 st.functions.length) ∧
  (∀ p ∈ st.labelMan, ∀ q ∈ st.labelMan,
    (funcIdx? p.2).isSome → funcIdx? p.2 = funcIdx? q.2 → p.1 = q.1)

instance (st : AsmState) : Decidable (LabelNamesInv st) := by
  unfold LabelNamesInv; infer_instance

instance {α β : Type} [DecidableEq α] [DecidableEq β] :
    DecidableEq (Except α β) := fun x y =>
  match x, y with
  | Except.ok a, Except.ok b =>
    if h : a = b then Decidable.isTrue (by rw [h])
    else Decidable.isFalse (fun hc => h (Except.ok.inj hc))
  | Except.error a, Except.error b =>
    if h : a = b then Decidable.isTrue (by rw [h])
    else Decidable.isFalse (fun hc => h (Except.error.inj hc))
  | Except.ok _, Except.error _ =>
    Decidable.isFalse (fun hc => Except.noConfusion hc)
  | Except.error _, Except.ok _ =>
    Decidable.isFalse (fun hc => Except.noConfusion hc)

/-- The section-processing invariant behind claim C6. -/
def C6Inv (st : AsmState) : Prop := BodyInRange st ∧ VoidRetProp st

/-- The facets of a function the void-ret property reads: its return type
and its recorded body. -/
def funcShape (f : AFunc) : ATy × List Nat := (f.returnType, f.body)

/-- The facets of an encoded instruction the void-ret property reads: its
name and its expanded arguments. -/
def instrShape (c : CodeInstr) : String × List NArg := (c.opname, c.args)

/-- The joint processing invariant: bodies index into the code section,
the void-ret discipline holds, and the label bookkeeping is consistent. -/
def AsmInv (st : AsmState) : Prop := C6Inv st ∧ LabelNamesInv st

/-- A closed-world file environment for concrete runs: no companion files. -/
def demoEnv : FileEnv := { files := fun _ => none }

/-- A small program: one data byte, then two void functions in the code
section, the first calling the second, each returning. -/
def demoNodes : List Node :=
  [Node.section "data",
   Node.instruction "db"
     [{ tval := TokVal.i 7, ttok := TokenType.litInt, atype := some "int8" }],
   Node.section "code",
   Node.funcDef "a" "void" [] [],
   Node.instruction "call"
     [{ tval := TokVal.s "b", ttok := TokenType.identifier, atype := none }],
   Node.instruction "ret" [],
   Node.funcDef "b" "void" [] [],
   Node.instruction "ret" []]

/-- The assembler state after processing the demo program. -/
def demoSt : AsmState :=
  (processNodes demoEnv demoNodes initState).toOption.getD initState

/-- The demo state after the relocation pass. -/
def demoReloc : AsmState := (relocate demoSt).toOption.getD initState

/-- The relocated call instruction of the demo program. -/
def demoCall : CodeInstr := (demoReloc.codeInstrs.get? 0).getD (retInstr 0)

/-- The call's argument node: the identifier b. -/
def demoCallArg : NArg :=
  { tval := TokVal.s "b", ttok := TokenType.identifier, atype := none }

/-- The demo program's second function, as the relocated state stores it. -/
def demoFuncB : AFunc :=
  (demoReloc.functions.get? 1).getD
    { fname := "", offset := 0, returnType := ATy.base BinTy.void,
      params := [], locals := [], modifiers := [], body := [] }

/-- The label-manager entry of b in the demo state. -/
def demoEntryB : LMEntry := (lmGet demoReloc "b").getD (LMEntry.plain 0)

/-- A code-section prologue defining a non-void function. -/
def demoNodesNv : List Node :=
  [Node.section "code", Node.funcDef "c" "int" [] []]

/-- The state inside the non-void function c. -/
def demoStNv : AsmState :=
  (processNodes demoEnv demoNodesNv initState).toOption.getD initState

/-- The state after a ret inside the non-void function c. -/
def demoStNv2 : AsmState :=
  (processNode demoEnv demoStNv (Node.instruction "ret" [])).toOption.getD
    initState

/-- The non-void function c as the state stores it. -/
def demoFuncC : AFunc :=
  (demoStNv.functions.get? 0).getD
    { fname := "", offset := 0, returnType := ATy.base BinTy.void,
      params := [], locals := [], modifiers := [], body := [] }

/-- The state right after entering the code section, before any function
is defined. -/
def demoStSec : AsmState :=
  (processNodes demoEnv [Node.section "code"] initState).toOption.getD
    initState

/-- Substitution of one generic by a concrete type, the observable of
build_from's unification. -/
def substGeneric (g : String) (T t : ITy) : ITy :=
  if t = ITy.generic g then T else t

/-- The kind and lexeme of the token the first advance() on a fresh
default-option tokenizer over the given source produces, when it produces
one. -/
def firstTokenKindVal (s : List Char) : Option (TokenType × String) :=
  match advance (mkTokenizer s) with
  | Except.ok (some t, _) => some (t.ttype, t.value)
  | _ => none

/-- A tokenizer state in which EmitNewLine is already enabled before a
with-block names it. -/
def preEnabledState : TokState :=
  { mkTokenizer [] with
    options := { TokOptions.allFalse with emitNewLine := true } }

/-- What the with-block leaves behind: EmitNewLine force-disabled. -/
def preEnabledStateAfter : TokState :=
  { mkTokenizer [] with options := TokOptions.allFalse }

/-- The byte string Header.to_bytes produces for bigEndianHeader: note the
architecture byte at offset 5 is 0x08, with the big-endian bit lost. -/
def bigEndianHeaderBytes : List Nat :=
  [0x51, 0x50, 0x4C, 0x00, 0, 8, 0, 0, 1, 0, 0, 0, 0, 0, 0, 0]

/-- The header Header.from_bytes recovers from those bytes: little-endian. -/
def bigEndianHeaderReparsed : Header :=
  { flags := 0, architecture := { systemWordSize := 8, isLittleEndian := true },
    numSections := 0, versionMajor := 1, versionMinor := 0 }

/-- C2: the claim asserts that from_bytes(to_bytes(h)) recovers every field
of any valid Header, in particular the architecture byte order.  The code
violates this: ArchitectureInfo.__int__ computes (is_big_endian & 0x80)
where is_big_endian is a bool (0 or 1), so the AND is always 0 and the
emitted architecture byte never carries the big-endian bit, although
from_bytes does decode that bit.  Round-tripping the big-endian header
therefore yields a little-endian header.  The 16-byte length part of the
claim does hold, as this evaluation also shows. -/
theorem header_roundtrip_loses_byte_order :
    headerToBytes bigEndianHeader = some bigEndianHeaderBytes ∧
    bigEndianHeaderBytes.length = 16 ∧
    headerFromBytes bigEndianHeaderBytes = Except.ok bigEndianHeaderReparsed ∧
    bigEndianHeader.architecture.isLittleEndian = false ∧
    bigEndianHeaderReparsed.architecture.isLittleEndian = true ∧
    bigEndianHeaderReparsed ≠ bigEndianHeader := by
  refine ⟨rfl, rfl, rfl, rfl, rfl, ?_⟩
  intro h
  exact absurd (congrArg (fun x => x.architecture.isLittleEndian) h) (by decide)

/-- C8: the claim asserts that the architecture byte of a big-endian
architecture has its high bit set.  In ArchitectureInfo.__int__ the
expression (is_big_endian & 0x80) is the AND of a bool (0 or 1) with 128,
which is always 0, so the high bit of the emitted byte is 0 for every
architecture, big-endian ones included; the low 7 bits do carry the word
size.  This contradicts the code's own decoder and its comment ("MSB
indicates byte order"), which read the MSB as the byte order. -/
theorem arch_byte_high_bit_never_set :
    (∀ a : ArchitectureInfo, archToInt a &&& 0x80 = 0) ∧
    (∀ a : ArchitectureInfo, a.systemWordSize < 128 →
      archToInt a = a.systemWordSize) ∧
    archToInt bigEndianArch = 8 ∧ Nat.testBit (archToInt bigEndianArch) 7 = false := by
  have h127 : ∀ w : Nat, w < 128 → w &&& 127 = w := by
    intro w hw
    have := Nat.and_pow_two_sub_one_of_lt_two_pow (n := 7) (x := w) (by omega)
    simpa using this
  refine ⟨?_, ?_, by decide, by decide⟩
  · intro a
    unfold archToInt
    have hmask : (127 : Nat) &&& 128 = 0 := by decide
    cases a.isLittleEndian <;>
      simp [Nat.land_assoc, hmask]
  · intro a h
    unfold archToInt
    cases a.isLittleEndian <;> simp [h127 _ h]

/-! ### Byte-encoding helper lemmas -/

theorem leBytes_length : ∀ (n v : Nat), (leBytes v n).length = n := by
  intro n
  induction n with
  | zero => intro v; rfl
  | succ n ih => intro v; simp [leBytes, ih]

theorem leVal_leBytes : ∀ (n v : Nat), v < 2 ^ (8 * n) →
    leVal (leBytes v n) = v := by
  intro n
  induction n with
  | zero =>
    intro v hv
    simp [Nat.mul_zero, Nat.pow_zero] at hv
    simp [leBytes, leVal, hv]
  | succ n ih =>
    intro v hv
    have hdiv : v / 256 < 2 ^ (8 * n) := by
      apply Nat.div_lt_of_lt_mul
      calc v < 2 ^ (8 * (n + 1)) := hv
        _ = 256 * 2 ^ (8 * n) := by ring
    simp only [leBytes, leVal, ih (v / 256) hdiv]
    omega

theorem packSigned_byte (v : Int) (h0 : 0 ≤ v) (h1 : v < 128) :
    packSigned v 1 = some [v.toNat] := by
  unfold packSigned
  rw [if_pos ⟨by omega, by norm_num; omega⟩]
  have hm : v.emod ((2 : Int) ^ (8 * 1)) = v := by
    have h256 : ((2 : Int) ^ (8 * 1)) = 256 := by norm_num
    rw [h256]
    exact Int.emod_eq_of_lt h0 (by omega)
  rw [hm]
  simp [leBytes]
  omega

theorem intFromBytesSigned_byte (b : Nat) (h : b < 128) :
    intFromBytesSigned [b] = (b : Int) := by
  unfold intFromBytesSigned leVal leVal
  simp only [List.length_singleton]
  norm_num
  omega

theorem intFromBytesSigned_word (v : Nat) (h : v < 2 ^ 63) :
    intFromBytesSigned (leBytes v 8) = (v : Int) := by
  unfold intFromBytesSigned
  rw [leBytes_length, leVal_leBytes 8 v (by norm_num; omega)]
  norm_num
  omega

theorem typesGet_index (p : BinTy) : typesGet ((p.index : Nat) : Int) = some p := by
  cases p <;> rfl

theorem index_lt (p : BinTy) : p.index < 128 := by
  cases p <;> simp [BinTy.index]

/-! ### Export-entry serialization lemmas -/

theorem readCString_append (nm rest : List Nat) (h : ∀ b ∈ nm, b ≠ 0) :
    readCString (nm ++ 0 :: rest) = some (nm, rest) := by
  induction nm with
  | nil => rfl
  | cons b bs ih =>
    have hb : b ≠ 0 := h b (by simp)
    have ih2 := ih (fun x hx => h x (by simp [hx]))
    simp only [List.cons_append, readCString, if_neg hb, List.append_eq, ih2,
      Option.bind_eq_bind, Option.some_bind]

theorem readParams_append (ps : List BinTy) (rest : List Nat)
    (h : ∀ p ∈ ps, p ≠ BinTy.void) :
    readParams ((ps.map BinTy.index) ++ 1 :: rest) = some (ps, rest) := by
  induction ps with
  | nil => rfl
  | cons p ps ih =>
    have hp : p ≠ BinTy.void := h p (by simp)
    have ih2 := ih (fun x hx => h x (by simp [hx]))
    simp only [List.map_cons, List.cons_append, readParams,
      intFromBytesSigned_byte p.index (index_lt p), typesGet_index p,
      Option.bind_eq_bind, Option.some_bind, if_neg hp, List.append_eq, ih2]

theorem mapM_packIndex (ps : List BinTy) :
    (ps.mapM fun p => packSigned ((p.index : Nat) : Int) 1) =
      some (ps.map fun p => [p.index]) := by
  induction ps with
  | nil => rfl
  | cons p ps ih =>
    rw [List.mapM_cons, packSigned_byte _ (by positivity)
      (by exact_mod_cast index_lt p), ih]
    simp

theorem exportEntryToBytes_eq (e : ExportEntry) (he : GoodEntry e) :
    exportEntryToBytes e = some (exportEntryWire e) := by
  obtain ⟨hn, ho0, ho1, hp, hl0, hl1⟩ := he
  unfold exportEntryToBytes exportEntryWire
  have hall : e.name.all (· < 128) = true := by
    rw [List.all_eq_true]
    intro b hb
    simpa using (hn b hb).2
  rw [if_pos hall]
  have hoff : packUnsigned e.offset 8 = some (leBytes e.offset.toNat 8) := by
    unfold packUnsigned
    rw [if_pos ⟨ho0, by norm_num; omega⟩]
  have hrt : packSigned ((e.returnType.index : Nat) : Int) 1 =
      some [e.returnType.index] := by
    rw [packSigned_byte _ (by positivity) (by exact_mod_cast index_lt _)]
    simp
  have hterm : packSigned ((BinTy.void.index : Nat) : Int) 1 = some [1] := by rfl
  have hnl : packSigned e.numLocals 1 = some [e.numLocals.toNat] :=
    packSigned_byte _ hl0 hl1
  rw [hoff, hrt, mapM_packIndex, hterm, hnl]
  have hflat : (e.parameterTypes.map fun p => [p.index]).flatten =
      e.parameterTypes.map BinTy.index := by
    induction e.parameterTypes with
    | nil => rfl
    | cons p ps ih => simp [ih]
  simp [hflat, List.append_assoc]

theorem readExportEntry_wire (e : ExportEntry) (rest : List Nat)
    (he : GoodEntry e) :
    readExportEntry (exportEntryWire e ++ rest) = some (e, rest) := by
  obtain ⟨hn, ho0, ho1, hp, hl0, hl1⟩ := he
  unfold readExportEntry exportEntryWire
  have hname : readCString ((e.name ++ 0 ::
      (leBytes e.offset.toNat 8 ++ e.returnType.index ::
        ((e.parameterTypes.map BinTy.index) ++ 1 :: [e.numLocals.toNat]))) ++ rest) =
      some (e.name, leBytes e.offset.toNat 8 ++ e.returnType.index ::
        ((e.parameterTypes.map BinTy.index) ++ 1 :: ([e.numLocals.toNat] ++ rest))) := by
    have := readCString_append e.name
      (leBytes e.offset.toNat 8 ++ e.returnType.index ::
        ((e.parameterTypes.map BinTy.index) ++ 1 :: ([e.numLocals.toNat] ++ rest)))
      (fun b hb => by have := (hn b hb).1; omega)
    rw [← this]
    congr 1
    simp [List.append_assoc]
  rw [hname]
  simp only [Option.bind_eq_bind, Option.some_bind]
  have htake : (leBytes e.offset.toNat 8 ++ e.returnType.index ::
      ((e.parameterTypes.map BinTy.index) ++ 1 :: ([e.numLocals.toNat] ++ rest))).take 8 =
      leBytes e.offset.toNat 8 := List.take_left' (leBytes_length 8 _)
  have hdrop : (leBytes e.offset.toNat 8 ++ e.returnType.index ::
      ((e.parameterTypes.map BinTy.index) ++ 1 :: ([e.numLocals.toNat] ++ rest))).drop 8 =
      e.returnType.index ::
      ((e.parameterTypes.map BinTy.index) ++ 1 :: ([e.numLocals.toNat] ++ rest)) :=
    List.drop_left' (leBytes_length 8 _)
  rw [htake, hdrop]
  have hofftn : e.offset.toNat < 2 ^ 63 := by omega
  simp only [readByte1, Option.bind_eq_bind, Option.some_bind]
  rw [intFromBytesSigned_word _ hofftn,
    intFromBytesSigned_byte _ (index_lt e.returnType), typesGet_index]
  simp only [Option.some_bind]
  rw [readParams_append _ _ hp]
  simp only [Option.some_bind, List.singleton_append, readByte1]
  rw [intFromBytesSigned_byte e.numLocals.toNat (by omega)]
  have h1 : (e.offset.toNat : Int) = e.offset := Int.toNat_of_nonneg ho0
  have h2 : (e.numLocals.toNat : Int) = e.numLocals := Int.toNat_of_nonneg hl0
  rw [h1, h2]

theorem readExportEntries_wires :
    ∀ (tbl : List ExportEntry) (seen : List (List Nat)),
    (∀ e ∈ tbl, GoodEntry e) → (tbl.map ExportEntry.name).Nodup →
    (∀ e ∈ tbl, e.name ∉ seen) →
    readExportEntries tbl.length ((tbl.map exportEntryWire).flatten) seen =
      some (tbl, []) := by
  intro tbl
  induction tbl with
  | nil => intro seen _ _ _; rfl
  | cons e tl ih =>
    intro seen hgood hnodup hseen
    have hwire := readExportEntry_wire e (tl.map exportEntryWire).flatten
      (hgood e (by simp))
    simp only [List.length_cons, List.map_cons, List.flatten_cons, readExportEntries]
    rw [hwire]
    simp only [Option.bind_eq_bind, Option.some_bind]
    rw [if_neg (hseen e (by simp))]
    have hnodup2 : (tl.map ExportEntry.name).Nodup := (List.nodup_cons.mp hnodup).2
    have hseen2 : ∀ x ∈ tl, x.name ∉ (e.name :: seen) := by
      intro x hx
      simp only [List.mem_cons]
      push_neg
      refine ⟨?_, fun h => hseen x (by simp [hx]) h⟩
      intro hcontra
      exact (List.nodup_cons.mp hnodup).1 (by
        rw [← hcontra]
        exact List.mem_map_of_mem ExportEntry.name hx)
    rw [ih (e.name :: seen) (fun x hx => hgood x (by simp [hx])) hnodup2 hseen2]
    rfl

/-- C7, amended: on the 64-bit platform model the export-table round trip
holds for tables whose entry offsets fit in a SIGNED native word (not
merely in a native word: the writer packs the offset with the unsigned "P"
format while the reader decodes it with the signed Int.from_bytes, so an
offset with the top bit set comes back negative) and whose num_locals fits
in a SIGNED byte (the writer packs it with the signed "b" format, which
rejects 128..255): every entry's name, offset, return type, parameter
types and num_locals, and the entry count, are recovered. -/
theorem export_table_roundtrip (tbl : List ExportEntry)
    (hgood : ∀ e ∈ tbl, GoodEntry e)
    (hnodup : (tbl.map ExportEntry.name).Nodup)
    (hlen : (tbl.length : Int) < 2 ^ 63) :
    ∃ bs, exportTableToBytes tbl = some bs ∧
      exportTableFromBytes bs = some (tbl, []) := by
  have hmapm : tbl.mapM exportEntryToBytes = some (tbl.map exportEntryWire) := by
    clear hnodup hlen
    induction tbl with
    | nil => rfl
    | cons e tl ih =>
      rw [List.mapM_cons, exportEntryToBytes_eq e (hgood e (by simp)),
        ih (fun x hx => hgood x (by simp [hx]))]
      simp
  have hcnt : intToBytesAuto (tbl.length : Int) 8 =
      some (leBytes tbl.length 8) := by
    unfold intToBytesAuto
    rw [if_pos (by positivity), if_pos (by norm_num; omega)]
    simp
  refine ⟨leBytes tbl.length 8 ++ (tbl.map exportEntryWire).flatten, ?_, ?_⟩
  · unfold exportTableToBytes
    rw [hcnt, hmapm]
    rfl
  · unfold exportTableFromBytes
    rw [List.take_left' (leBytes_length 8 _), List.drop_left' (leBytes_length 8 _)]
    have hlen2 : tbl.length < 2 ^ 63 := by exact_mod_cast hlen
    rw [intFromBytesSigned_word _ hlen2]
    simp only [Int.toNat_natCast]
    exact readExportEntries_wires tbl [] hgood hnodup (by simp)

/-- Witness for the amended C7 theorem at a concrete one-entry table. -/
theorem export_table_roundtrip_witness :
    ∃ bs, exportTableToBytes wtnExportTable = some bs ∧
      exportTableFromBytes bs = some (wtnExportTable, []) :=
  export_table_roundtrip wtnExportTable (by decide) (by decide) (by decide)

/-- C7, counterexample: an entry whose offset is 2^63 fits in a native
word, serializes fine, but is read back as the negative offset -2^63, so
the round trip of the claim fails as stated. -/
theorem export_offset_not_recovered :
    exportTableToBytes [cexExportEntry] = some cexExportTableBytes ∧
    exportTableFromBytes cexExportTableBytes =
      some ([cexExportEntryReparsed], []) ∧
    cexExportEntry.offset = (2 : Int) ^ 63 ∧
    cexExportEntryReparsed.offset = -((2 : Int) ^ 63) ∧
    cexExportEntryReparsed ≠ cexExportEntry := by
  refine ⟨by decide, by decide, by decide, by decide, by decide⟩

/-! ### Tokenizer punctuation (C3) -/

/-- C3, amended: each of the seven characters ( ) brace-open brace-close
, . : is tokenized by advance() into its own distinct kind with the
character as its lexeme, without failing.  The other three characters of
the claim are settled by the counterexample theorem below. -/
theorem tokenizer_seven_punct_kinds :
    firstTokenKindVal ['('] = some (TokenType.leftCurvyBracket, "(") ∧
    firstTokenKindVal [')'] = some (TokenType.rightCurvyBracket, ")") ∧
    firstTokenKindVal ['{'] = some (TokenType.leftCurlyBracket, "\x7b") ∧
    firstTokenKindVal ['}'] = some (TokenType.rightCurlyBracket, "\x7d") ∧
    firstTokenKindVal [','] = some (TokenType.comma, ",") ∧
    firstTokenKindVal ['.'] = some (TokenType.dot, ".") ∧
    firstTokenKindVal [':'] = some (TokenType.colon, ":") ∧
    [TokenType.leftCurvyBracket, TokenType.rightCurvyBracket,
     TokenType.leftCurlyBracket, TokenType.rightCurlyBracket,
     TokenType.comma, TokenType.dot, TokenType.colon].Nodup := by
  refine ⟨rfl, rfl, rfl, rfl, rfl, rfl, rfl, by decide⟩

/-- C3, counterexample: the claim also lists semicolon, asterisk and
equals as punctuation kinds.  The TokenType enum used by the Tokenizer has
no such kinds; advance() on a lone semicolon consumes it as a comment and
returns the EOF token, and on an asterisk or an equals sign it raises the
ValueError of _get_identifier, so it does fail. -/
theorem tokenizer_semicolon_star_equals_not_punct :
    firstTokenKindVal [';'] = some (TokenType.eof, "") ∧
    advance (mkTokenizer ['*']) = Except.error "Expected an identifier" ∧
    advance (mkTokenizer ['=']) = Except.error "Expected an identifier" := by
  refine ⟨rfl, rfl, rfl⟩

/-! ### Tokenizer option wrapper (C9) -/

theorem TokOptions.get_set (o : TokOptions) (k j : TokOpt) (v : Bool) :
    (o.set k v).get j = if j = k then v else o.get j := by
  cases k <;> cases j <;> simp [TokOptions.get, TokOptions.set]

theorem setOptionsAll_get (o : TokOptions) (ks : List TokOpt) (v : Bool)
    (k : TokOpt) :
    (setOptionsAll o ks v).get k = if k ∈ ks then v else o.get k := by
  induction ks generalizing o with
  | nil => simp [setOptionsAll]
  | cons h t ih =>
    show (setOptionsAll (o.set h v) t v).get k = _
    rw [ih]
    by_cases hk : k ∈ t <;> by_cases he : k = h <;>
      simp [hk, he, TokOptions.get_set]

theorem exitState_wrapperWith (ks : List TokOpt)
    (body : TokState → Except TokState TokState) (st : TokState) :
    exitState (wrapperWith ks body st) =
      wrapperExit ks (exitState (body (wrapperEnter ks st))) := by
  unfold wrapperWith exitState
  cases body (wrapperEnter ks st) <;> rfl

/-- C9, amended: exiting the with-block, on the normal path and on the
exception path alike, force-disables every option named in the block —
regardless of whether it was enabled before entry — rather than restoring
the prior state; options not named in the block keep whatever value the
body left them.  The exception/normal character of the exit is preserved
(__exit__ returns False). -/
theorem wrapper_clears_named_options (ks : List TokOpt)
    (body : TokState → Except TokState TokState) (st : TokState) :
    (∀ k ∈ ks, (exitState (wrapperWith ks body st)).options.get k = false) ∧
    (∀ k, k ∉ ks → (exitState (wrapperWith ks body st)).options.get k =
      (exitState (body (wrapperEnter ks st))).options.get k) ∧
    (wrapperWith ks body st).isOk = (body (wrapperEnter ks st)).isOk := by
  refine ⟨?_, ?_, ?_⟩
  · intro k hk
    rw [exitState_wrapperWith]
    show (setOptionsAll _ ks false).get k = false
    rw [setOptionsAll_get, if_pos hk]
  · intro k hk
    rw [exitState_wrapperWith]
    show (setOptionsAll _ ks false).get k = _
    rw [setOptionsAll_get, if_neg hk]
  · unfold wrapperWith
    cases body (wrapperEnter ks st) <;> rfl

/-- Witness for the amended C9 theorem at a concrete block. -/
theorem wrapper_clears_named_options_witness :
    (exitState (wrapperWith [TokOpt.emitComments] Except.ok
      (mkTokenizer []))).options.get TokOpt.emitComments = false ∧
    (exitState (wrapperWith [TokOpt.emitComments] Except.ok
      (mkTokenizer []))).options.get TokOpt.emitNewLine =
      (exitState (Except.ok (wrapperEnter [TokOpt.emitComments]
        (mkTokenizer [])))).options.get TokOpt.emitNewLine :=
  ⟨(wrapper_clears_named_options [TokOpt.emitComments] Except.ok
      (mkTokenizer [])).1 TokOpt.emitComments (by decide),
   (wrapper_clears_named_options [TokOpt.emitComments] Except.ok
      (mkTokenizer [])).2.1 TokOpt.emitNewLine (by decide)⟩

/-- C9, counterexample: the claim says the option state after the block
equals the state before entering it on every exit path.  Enable
EmitNewLine beforehand, run a block that names EmitNewLine with a body
that does nothing: after the normal exit EmitNewLine is disabled, so the
state is not restored. -/
theorem wrapper_does_not_restore :
    wrapperWith [TokOpt.emitNewLine] Except.ok preEnabledState =
      Except.ok preEnabledStateAfter ∧
    preEnabledState.options.emitNewLine = true ∧
    preEnabledStateAfter.options.emitNewLine = false ∧
    preEnabledStateAfter ≠ preEnabledState := by
  refine ⟨rfl, rfl, rfl, by decide⟩

/-! ### Stack.apply and Many semantics (C4, C10) -/

theorem flatten_replicate_singleton {α : Type} (n : Nat) (a : α) :
    (List.replicate n [a]).flatten = List.replicate n a := by
  induction n with
  | zero => rfl
  | succ n ih => simp [List.replicate_succ, ih]

theorem unpackTypes_many_mk (tn : String) (l : Int) (h : 0 ≤ l) :
    unpackTypes [ITy.many (ITy.mk tn) l] = List.replicate l.toNat (ITy.mk tn) := by
  show (unpackOne (ITy.many (ITy.mk tn) l)) ++ [] = _
  unfold unpackOne
  rw [if_pos h]
  rw [show unpackOne (ITy.mk tn) = [ITy.mk tn] from rfl,
    flatten_replicate_singleton]
  simp

theorem unpackTypes_many_neg (t : ITy) (l : Int) (h : l < 0) :
    unpackTypes [ITy.many t l] = [ITy.many t l] := by
  show (unpackOne (ITy.many t l)) ++ [] = _
  unfold unpackOne
  rw [if_neg (by omega)]
  simp

theorem popGreedy_eq_dropWhile (t : ITy) (st : List ITy) :
    popGreedy t st = st.dropWhile (· = t) := by
  induction st with
  | nil => rfl
  | cons x rest ih =>
    by_cases h : x = t <;> simp [popGreedy, List.dropWhile, h, ih]

theorem applyEntriesMut_replicate_ok (tn : String) :
    ∀ (n : Nat) (st : List ITy),
    st.take n = List.replicate n (ITy.mk tn) →
    applyEntriesMut (List.replicate n (ITy.mk tn)) st = (none, st.drop n) := by
  intro n
  induction n with
  | zero => intro st _; rfl
  | succ n ih =>
    intro st htake
    match st with
    | [] => simp [List.replicate_succ] at htake
    | x :: st2 =>
      rw [List.take_succ_cons, List.replicate_succ, List.cons.injEq] at htake
      obtain ⟨rfl, h2⟩ := htake
      show applyEntriesMut (ITy.mk tn :: List.replicate n (ITy.mk tn))
        (ITy.mk tn :: st2) = (none, st2.drop n)
      simp only [applyEntriesMut, popType, tryPopType, if_pos rfl]
      exact ih st2 h2

theorem applyEntriesMut_replicate_err (tn : String) :
    ∀ (n : Nat) (st : List ITy), n ≤ st.length →
    st.take n ≠ List.replicate n (ITy.mk tn) →
    ∃ st2, applyEntriesMut (List.replicate n (ITy.mk tn)) st =
      (some StackErr.invalidState, st2) := by
  intro n
  induction n with
  | zero => intro st _ h; simp at h
  | succ n ih =>
    intro st hlen htake
    match st with
    | [] => simp at hlen
    | x :: st2 =>
      rw [List.take_succ_cons, List.replicate_succ] at htake
      by_cases hx : x = ITy.mk tn
      · subst hx
        have h2 : st2.take n ≠ List.replicate n (ITy.mk tn) := by
          intro hc; exact htake (by rw [hc])
        obtain ⟨st3, h3⟩ := ih st2 (by simpa using hlen) h2
        refine ⟨st3, ?_⟩
        show applyEntriesMut (ITy.mk tn :: List.replicate n (ITy.mk tn))
          (ITy.mk tn :: st2) = _
        simp only [applyEntriesMut, popType, tryPopType, if_pos rfl]
        exact h3
      · refine ⟨x :: st2, ?_⟩
        show applyEntriesMut (ITy.mk tn :: List.replicate n (ITy.mk tn))
          (x :: st2) = _
        simp only [applyEntriesMut, popType, tryPopType, if_neg hx]

/-- C4, amended: for a transformation whose before-stack is Many(T, N)
with a concrete T: with N >= 0 apply pops exactly N entries of type T
from the top (the state constructor has already expanded the Many into N
copies of T), failing when one of the top N entries is not T or the stack
is shallower than N; with N < 0 apply pops entries of type T greedily,
stopping without error at the first non-T entry or when the stack runs
empty during popping — PROVIDED the stack is nonempty to begin with,
because the depth precheck counts the Many entry as one required value
and raises NotEnoughValues on an empty stack (the counterexample
theorem). -/
theorem many_pop_semantics (tn : String) (l : Int) (after st : List ITy) :
    (0 ≤ l → st.take l.toNat = List.replicate l.toNat (ITy.mk tn) →
      stackApply (mkTransformation [ITy.many (ITy.mk tn) l] after) st =
        Except.ok ((unpackTypes after).reverse ++ st.drop l.toNat)) ∧
    (0 ≤ l → l.toNat ≤ st.length →
      st.take l.toNat ≠ List.replicate l.toNat (ITy.mk tn) →
      stackApply (mkTransformation [ITy.many (ITy.mk tn) l] after) st =
        Except.error StackErr.invalidState) ∧
    (0 ≤ l → st.length < l.toNat →
      stackApply (mkTransformation [ITy.many (ITy.mk tn) l] after) st =
        Except.error (StackErr.notEnoughValues l.toNat st.length)) ∧
    (l < 0 → 1 ≤ st.length →
      stackApply (mkTransformation [ITy.many (ITy.mk tn) l] after) st =
        Except.ok ((unpackTypes after).reverse ++
          st.dropWhile (· = ITy.mk tn))) := by
  refine ⟨?_, ?_, ?_, ?_⟩
  · intro hl htake
    have hlen : l.toNat ≤ st.length := by
      have := congrArg List.length htake
      simp at this
      omega
    unfold stackApply stackApplyMut
    simp only [mkTransformation, unpackTypes_many_mk tn l hl,
      List.length_replicate]
    rw [if_neg (by omega), List.reverse_replicate,
      applyEntriesMut_replicate_ok tn l.toNat st htake]
  · intro hl hlen htake
    obtain ⟨st2, h2⟩ := applyEntriesMut_replicate_err tn l.toNat st hlen htake
    unfold stackApply stackApplyMut
    simp only [mkTransformation, unpackTypes_many_mk tn l hl,
      List.length_replicate]
    rw [if_neg (by omega), List.reverse_replicate, h2]
  · intro hl hlen
    unfold stackApply stackApplyMut
    simp only [mkTransformation, unpackTypes_many_mk tn l hl,
      List.length_replicate]
    rw [if_pos (by omega)]
  · intro hl hlen
    unfold stackApply stackApplyMut
    simp only [mkTransformation, unpackTypes_many_neg _ l hl,
      List.length_singleton]
    rw [if_neg (by omega)]
    have h1 : applyEntriesMut ([ITy.many (ITy.mk tn) l].reverse) st =
        (none, popGreedy (ITy.mk tn) st) := by
      show applyEntriesMut [ITy.many (ITy.mk tn) l] st = _
      simp only [applyEntriesMut, if_pos hl]
    rw [h1, popGreedy_eq_dropWhile]

/-- Witness for the amended C4 theorem: Many(int, 2) pops the two ints off
[int, int, float] and pushes the after types, and Many(int, ...) greedily
empties [int, int]. -/
theorem many_pop_semantics_witness :
    stackApply (mkTransformation [ITy.many (ITy.mk "int") 2] [ITy.mk "int"])
      [ITy.mk "int", ITy.mk "int", ITy.mk "float"] =
      Except.ok [ITy.mk "int", ITy.mk "float"] ∧
    stackApply (mkTransformation [ITy.many (ITy.mk "int") (-1)] [])
      [ITy.mk "int", ITy.mk "int"] = Except.ok [] :=
  ⟨(many_pop_semantics "int" 2 [ITy.mk "int"]
      [ITy.mk "int", ITy.mk "int", ITy.mk "float"]).1 (by decide) (by decide),
   (many_pop_semantics "int" (-1) [] [ITy.mk "int", ITy.mk "int"]).2.2.2
      (by decide) (by decide)⟩

/-- C4, counterexample: the claim promises that with N < 0 the greedy pop
stops without error when the stack becomes empty; but on an initially
empty stack apply raises NotEnoughValues before popping anything, because
the depth precheck counts the Many entry as one required value.  (On a
nonempty stack whose top is not T the error-free stop does happen.) -/
theorem many_negative_empty_stack_error :
    stackApply (mkTransformation [ITy.many (ITy.mk "int") (-1)] []) [] =
      Except.error (StackErr.notEnoughValues 1 0) ∧
    stackApply (mkTransformation [ITy.many (ITy.mk "int") (-1)] [])
      [ITy.mk "float"] = Except.ok [ITy.mk "float"] := by
  exact ⟨rfl, rfl⟩

/-- C10, amended: a type-mismatch error can leave the stack mutated —
there is a transformation whose depth requirement is satisfied for which
apply raises the stack-type error after popping an entry, so apply is not
atomic — and the insufficient-depth error, checked before any pop, always
leaves the stack unchanged.  But the depth error is not the ONLY
error that leaves the stack unchanged: a type error on the very first
popped entry also does (the counterexample theorem). -/
theorem apply_not_atomic :
    (∃ (tr : StackTransformation) (st : List ITy),
      tr.before.length ≤ st.length ∧
      (stackApplyMut tr st).1 = some StackErr.invalidState ∧
      (stackApplyMut tr st).2 ≠ st) ∧
    (∀ (tr : StackTransformation) (st : List ITy),
      st.length < tr.before.length →
      stackApplyMut tr st =
        (some (StackErr.notEnoughValues tr.before.length st.length), st)) := by
  constructor
  · refine ⟨mkTransformation [ITy.mk "int", ITy.mk "int"] [],
      [ITy.mk "int", ITy.mk "float"], by decide, by decide, by decide⟩
  · intro tr st h
    unfold stackApplyMut
    rw [if_pos h]

/-- Witness for the depth-error half of the amended C10 theorem. -/
theorem apply_not_atomic_witness :
    stackApplyMut (mkTransformation [ITy.mk "int"] []) [] =
      (some (StackErr.notEnoughValues 1 0), []) :=
  apply_not_atomic.2 (mkTransformation [ITy.mk "int"] []) [] (by decide)

/-- C10, counterexample: the claim says only the insufficient-depth error
leaves the stack unchanged.  A type mismatch on the very first popped
entry also leaves it unchanged: applying a transformation expecting int
to the one-entry stack [float] passes the depth check, raises the
stack-type error, and returns the stack exactly as it was. -/
theorem type_error_can_leave_stack_unchanged :
    stackApplyMut (mkTransformation [ITy.mk "int"] []) [ITy.mk "float"] =
      (some StackErr.invalidState, [ITy.mk "float"]) ∧
    (mkTransformation [ITy.mk "int"] []).before.length ≤
      [ITy.mk "float"].length := by
  exact ⟨rfl, by decide⟩

/-! ### Instruction.build_from generic unification (C5) -/

theorem exceptBind_ok {ε α β : Type} (a : α) (f : α → Except ε β) :
    (Except.ok a >>= f : Except ε β) = f a := rfl

theorem lookup_append_single {m : List (String × ITy)} {k : String} {v : ITy}
    (h : m.lookup k = none) : (m ++ [(k, v)]).lookup k = some v := by
  induction m with
  | nil => simp [List.lookup]
  | cons p rest ih =>
    rw [List.cons_append]
    by_cases hk : k == p.1
    · rw [List.lookup_cons] at h
      simp [hk] at h
    · rw [List.lookup_cons] at h ⊢
      simp only [hk] at h ⊢
      exact ih h

theorem unpackTypes_simple {l : List ITy}
    (h : ∀ t ∈ l, (∃ n, t = ITy.mk n) ∨ (∃ g, t = ITy.generic g)) :
    unpackTypes l = l := by
  induction l with
  | nil => rfl
  | cons t rest ih =>
    have ht := h t (by simp)
    have h1 : unpackOne t = [t] := by
      rcases ht with ⟨n, rfl⟩ | ⟨g, rfl⟩ <;> rfl
    show unpackOne t ++ unpackTypes rest = t :: rest
    rw [h1, ih (fun x hx => h x (by simp [hx]))]
    rfl

theorem zip_map_self {α : Type} (f : α → α) (l : List α) :
    (l.map f).zip l = l.map fun x => (f x, x) := by
  induction l with
  | nil => rfl
  | cons x rest ih => simp [ih]

theorem zip_self {α : Type} (l : List α) :
    l.zip l = l.map fun x => (x, x) := by
  induction l with
  | nil => rfl
  | cons x rest ih => simp [ih]

theorem zip_truncate {α β : Type} :
    ∀ (l2 : List β) (l1 : List α), l1.zip l2 = (l1.take l2.length).zip l2 := by
  intro l2
  induction l2 with
  | nil => intro l1; simp
  | cons b bs ih =>
    intro l1
    match l1 with
    | [] => rfl
    | a :: as2 => simp [ih as2]

theorem substBefore_mapped (g : String) (T : ITy) :
    ∀ (bs : List ITy) (m : List (String × ITy)),
    (∀ t ∈ bs, (∃ n, t = ITy.mk n) ∨ t = ITy.generic g) →
    (m.lookup (ITy.generic g).name = none ∨
      m.lookup (ITy.generic g).name = some T) →
    ∃ m2, substBefore (bs.map fun b => (substGeneric g T b, b)) m =
        (bs.map (substGeneric g T), m2) ∧
      (m2.lookup (ITy.generic g).name = none ∨
        m2.lookup (ITy.generic g).name = some T) ∧
      ((ITy.generic g ∈ bs ∨ m.lookup (ITy.generic g).name = some T) →
        m2.lookup (ITy.generic g).name = some T) := by
  intro bs
  induction bs with
  | nil =>
    intro m _ hm
    exact ⟨m, rfl, hm, fun h => by
      rcases h with h | h
      · simp at h
      · exact h⟩
  | cons b rest ih =>
    intro m hb hm
    rcases hb b (by simp) with ⟨n, rfl⟩ | rfl
    · have hsub : substGeneric g T (ITy.mk n) = ITy.mk n := by
        unfold substGeneric
        rw [if_neg (by simp)]
      obtain ⟨m2, h1, h2, h3⟩ := ih m (fun x hx => hb x (by simp [hx])) hm
      refine ⟨m2, ?_, h2, ?_⟩
      · simp only [List.map_cons, hsub, substBefore, h1]
      · intro h
        apply h3
        rcases h with h | h
        · rcases (by simpa using h : ITy.mk n = ITy.generic g ∨
            ITy.generic g ∈ rest) with h' | h'
          · exact absurd h' (by simp)
          · exact Or.inl h'
        · exact Or.inr h
    · have hsub : substGeneric g T (ITy.generic g) = T := by
        unfold substGeneric
        rw [if_pos rfl]
      rcases hm with hnone | hsome
      · obtain ⟨m2, h1, h2, h3⟩ := ih (m ++ [((ITy.generic g).name, T)])
          (fun x hx => hb x (by simp [hx]))
          (Or.inr (lookup_append_single hnone))
        refine ⟨m2, ?_, h2, fun _ => h3 (Or.inr (lookup_append_single hnone))⟩
        simp only [List.map_cons, hsub, substBefore, hnone, h1]
      · obtain ⟨m2, h1, h2, h3⟩ := ih m
          (fun x hx => hb x (by simp [hx])) (Or.inr hsome)
        refine ⟨m2, ?_, h2, fun _ => h3 (Or.inr hsome)⟩
        simp only [List.map_cons, hsub, substBefore, hsome, h1]

theorem verifyBefore_dup (L : List ITy)
    (h : ∀ x ∈ L, ∀ t l, x ≠ ITy.many t l) :
    verifyBefore (L.map fun x => (x, x)) = Except.ok () := by
  induction L with
  | nil => rfl
  | cons x rest ih =>
    have hx := h x (by simp)
    have ih2 := ih (fun y hy => h y (by simp [hy]))
    match x, hx with
    | ITy.mk n, _ => simpa [verifyBefore] using ih2
    | ITy.generic g, _ => simpa [verifyBefore] using ih2
    | ITy.template n, _ => simpa [verifyBefore] using ih2
    | ITy.many t l, hx => exact absurd rfl (hx t l)

theorem substAfter_mapped (g : String) (T : ITy) :
    ∀ (aft : List ITy) (m : List (String × ITy)),
    (∀ t ∈ aft, (∃ n, t = ITy.mk n) ∨ t = ITy.generic g) →
    m.lookup (ITy.generic g).name = some T →
    substAfter aft m = Except.ok (aft.map (substGeneric g T)) := by
  intro aft
  induction aft with
  | nil => intro m _ _; rfl
  | cons t rest ih =>
    intro m ht hm
    have ih2 := ih m (fun x hx => ht x (by simp [hx])) hm
    rcases ht t (by simp) with ⟨n, rfl⟩ | rfl
    · have hsub : substGeneric g T (ITy.mk n) = ITy.mk n := by
        unfold substGeneric
        rw [if_neg (by simp)]
      simp only [substAfter, ih2, List.map_cons, hsub]
      rfl
    · have hsub : substGeneric g T (ITy.generic g) = T := by
        unfold substGeneric
        rw [if_pos rfl]
      simp only [substAfter, hm, ih2, List.map_cons, hsub]
      rfl

/-- C5: for an instruction template in which a Generic g occurs in the
before-stack, when the stack's top entries match the before-stack with
the concrete type T at every position of g (and equal the concrete
entries elsewhere), and the argument/parameter pre-pass leaves g unbound,
build_from succeeds, binds g to T, and returns an instruction whose
before- and after-stacks carry exactly T at every occurrence of g. -/
theorem generic_unification (inst : Instr) (stack arguments : List ITy)
    (g tn : String) (T : ITy) (m0 : List (String × ITy))
    (hT : T = ITy.mk tn)
    (hargs : arguments.length = inst.parameters.length)
    (hm0 : bindArgs (arguments.zip inst.parameters) [] = Except.ok m0)
    (hm0g : m0.lookup (ITy.generic g).name = none)
    (hbef : ∀ t ∈ inst.before, (∃ n, t = ITy.mk n) ∨ t = ITy.generic g)
    (hbefg : ITy.generic g ∈ inst.before)
    (haft : ∀ t ∈ inst.after, (∃ n, t = ITy.mk n) ∨ t = ITy.generic g)
    (hstack : stackTop stack inst.before.length =
      inst.before.map (substGeneric g T)) :
    ∃ res, buildFrom inst stack arguments = Except.ok res ∧
      res.before = inst.before.map (substGeneric g T) ∧
      res.after = inst.after.map (substGeneric g T) := by
  have hsimple : ∀ t ∈ inst.before,
      (∃ n, t = ITy.mk n) ∨ (∃ h, t = ITy.generic h) := by
    intro t ht
    rcases hbef t ht with h | h
    · exact Or.inl h
    · exact Or.inr ⟨g, h⟩
  have hunp : unpackTypes inst.before = inst.before := unpackTypes_simple hsimple
  have hsublen : (inst.before.map (substGeneric g T)).length =
      inst.before.length := by simp
  have hlen : inst.before.length ≤ stack.length := by
    have := congrArg List.length hstack
    simp only [stackTop, List.length_reverse, List.length_take,
      List.length_map] at this
    omega
  have hsubstsimple : ∀ x ∈ inst.before.map (substGeneric g T),
      ∀ t l, x ≠ ITy.many t l := by
    intro x hx t l
    obtain ⟨b, hb, rfl⟩ := List.mem_map.mp hx
    rcases hbef b hb with ⟨n, rfl⟩ | rfl
    · unfold substGeneric
      rw [if_neg (by simp)]
      simp
    · unfold substGeneric
      rw [if_pos rfl, hT]
      simp
  obtain ⟨m2, hsb, _, hsb3⟩ := substBefore_mapped g T inst.before m0
    (fun t ht => hbef t ht) (Or.inl hm0g)
  have hm2 : m2.lookup (ITy.generic g).name = some T := hsb3 (Or.inl hbefg)
  have htakeeq : stack.take inst.before.length =
      (inst.before.map (substGeneric g T)).reverse := by
    have : (stackTop stack inst.before.length).reverse =
        (inst.before.map (substGeneric g T)).reverse := by rw [hstack]
    simpa [stackTop] using this
  refine ⟨mkInstr inst.iname inst.parameters
    (inst.before.map (substGeneric g T))
    (inst.after.map (substGeneric g T)), ?_, ?_, ?_⟩
  · unfold buildFrom
    rw [if_neg (by omega), hm0, exceptBind_ok]
    rw [hunp, if_neg (by simp; omega), hstack, zip_map_self, hsb]
    dsimp only
    have hver : verifyBefore
        (stack.zip (inst.before.map (substGeneric g T)).reverse) =
        Except.ok () := by
      rw [zip_truncate ((inst.before.map (substGeneric g T)).reverse) stack]
      simp only [List.length_reverse, List.length_map]
      rw [htakeeq, zip_self]
      exact verifyBefore_dup _ (fun x hx =>
        hsubstsimple x (List.mem_reverse.mp hx))
    rw [hver, exceptBind_ok, substAfter_mapped g T inst.after m2 haft hm2,
      exceptBind_ok]
  · show unpackTypes (inst.before.map (substGeneric g T)) = _
    apply unpackTypes_simple
    intro t ht
    obtain ⟨b, hb, rfl⟩ := List.mem_map.mp ht
    rcases hbef b hb with ⟨n, rfl⟩ | rfl
    · refine Or.inl ⟨n, ?_⟩
      unfold substGeneric
      rw [if_neg (by simp)]
    · refine Or.inl ⟨tn, ?_⟩
      unfold substGeneric
      rw [if_pos rfl, hT]
  · show unpackTypes (inst.after.map (substGeneric g T)) = _
    apply unpackTypes_simple
    intro t ht
    obtain ⟨b, hb, rfl⟩ := List.mem_map.mp ht
    rcases haft b hb with ⟨n, rfl⟩ | rfl
    · refine Or.inl ⟨n, ?_⟩
      unfold substGeneric
      rw [if_neg (by simp)]
    · refine Or.inl ⟨tn, ?_⟩
      unfold substGeneric
      rw [if_pos rfl, hT]

/-- Witness for the C5 theorem: the add template (Generic T, Generic T ->
Generic T) built against the stack [int, int] yields int, int -> int. -/
theorem generic_unification_witness :
    ∃ res, buildFrom
        (mkInstr "add" [] [ITy.generic "T", ITy.generic "T"] [ITy.generic "T"])
        [ITy.mk "int", ITy.mk "int"] [] = Except.ok res ∧
      res.before = (mkInstr "add" [] [ITy.generic "T", ITy.generic "T"]
        [ITy.generic "T"]).before.map (substGeneric "T" (ITy.mk "int")) ∧
      res.after = (mkInstr "add" [] [ITy.generic "T", ITy.generic "T"]
        [ITy.generic "T"]).after.map (substGeneric "T" (ITy.mk "int")) :=
  generic_unification
    (mkInstr "add" [] [ITy.generic "T", ITy.generic "T"] [ITy.generic "T"])
    [ITy.mk "int", ITy.mk "int"] [] "T" "int" (ITy.mk "int") []
    rfl (by decide) rfl rfl
    (by
      intro t ht
      right
      have h2 : t ∈ [ITy.generic "T", ITy.generic "T"] := ht
      rcases (by simpa using h2 : t = ITy.generic "T" ∨ t = ITy.generic "T")
        with h | h <;> exact h)
    (by decide)
    (by
      intro t ht
      right
      have h2 : t ∈ [ITy.generic "T"] := ht
      simpa using h2)
    (by decide)


/-! ### Frame lemmas for the assembler's per-node step -/

theorem exceptBind_err {ε α β : Type} (e : ε) (f : α → Except ε β) :
    (Except.error e >>= f : Except ε β) = Except.error e := rfl

theorem codeOnInstruction_spec (st : AsmState) (op : String) (args : List NArg)
    (st' : AsmState) (i : Nat)
    (h : codeOnInstruction st op args = Except.ok (st', i)) :
    ∃ c sz, st' = { st with codeInstrs := st.codeInstrs ++ [c],
                            codeSize := st.codeSize + sz } ∧
      c.opname = op ∧ c.offset = st.codeSize ∧ i = st.codeInstrs.length := by
  unfold codeOnInstruction at h
  cases hI : instructionsGet op with
  | none => rw [hI] at h; exact absurd h (by simp)
  | some ci =>
    rw [hI] at h
    obtain ⟨code, ptys⟩ := ci
    dsimp only at h
    by_cases hl : args.length = ptys.length
    · rw [if_neg (not_not_intro hl)] at h
      cases hE : expandArgs st (ptys.zip args) with
      | error e =>
        rw [hE, exceptBind_err] at h
        exact absurd h (by simp)
      | ok ta =>
        obtain ⟨types2, args2⟩ := ta
        rw [hE, exceptBind_ok] at h
        dsimp only at h
        obtain ⟨h1, h2⟩ := Prod.mk.injEq .. ▸ Except.ok.inj h
        refine ⟨_, _, h1.symm, rfl, rfl, h2.symm⟩
    · rw [if_pos hl] at h
      exact absurd h (by simp)

theorem codeOnInstruction_pushZero (st : AsmState) :
    codeOnInstruction st "push" pushZeroArgs =
      Except.ok ({ st with
        codeInstrs := st.codeInstrs ++ [pushZeroInstr st.codeSize],
        codeSize := st.codeSize + 10 }, st.codeInstrs.length) := rfl

theorem codeOnInstruction_ret (st : AsmState) :
    codeOnInstruction st "ret" [] =
      Except.ok ({ st with
        codeInstrs := st.codeInstrs ++ [retInstr st.codeSize],
        codeSize := st.codeSize + 1 }, st.codeInstrs.length) := rfl

theorem dataOnInstruction_frame (st : AsmState) (op : String)
    (args : List NArg) (st' : AsmState)
    (h : dataOnInstruction st op args = Except.ok st') :
    ∃ bs, st' = { st with dataBytes := bs } := by
  unfold dataOnInstruction at h
  by_cases hop : op = "db"
  · rw [if_neg (not_not_intro hop)] at h
    cases hM : args.mapM (m := Except String) (fun arg => do
        let typ ← (match arg.atype with
          | none => binTypeFromTokenType arg.ttok
          | some tn =>
            (match typeTableGet tn with
            | some b => Except.ok b
            | none => Except.error "KeyError in TYPE_TABLE"))
        let pv ← parseBin typ arg.tval
        binToBytes typ pv) with
    | error e => rw [hM, exceptBind_err] at h; exact absurd h (by simp)
    | ok chunks =>
      rw [hM, exceptBind_ok] at h
      exact ⟨_, (Except.ok.inj h).symm⟩
  · rw [if_pos hop] at h
    exact absurd h (by simp)

theorem typesOnInstruction_frame (st : AsmState) (op : String)
    (args : List NArg) (st' : AsmState)
    (h : typesOnInstruction st op args = Except.ok st') :
    ∃ tds tsz, st' = { st with typeDefs := tds, typesSize := tsz } := by
  unfold typesOnInstruction at h
  by_cases hop : op = "field"
  · rw [if_pos hop] at h
    cases args with
    | nil => exact absurd h (by simp)
    | cons a rest =>
      dsimp only at h
      cases hA : a.atype with
      | none => rw [hA] at h; dsimp only at h; rw [exceptBind_err] at h
                exact absurd h (by simp)
      | some tn =>
        rw [hA] at h; dsimp only at h; rw [exceptBind_ok] at h
        cases hT : getType st tn with
        | error e => rw [hT, exceptBind_err] at h; exact absurd h (by simp)
        | ok typ =>
          rw [hT, exceptBind_ok] at h
          cases hC : st.currentType with
          | none => rw [hC] at h; exact absurd h (by simp)
          | some ti =>
            rw [hC] at h; dsimp only at h
            cases hD : st.typeDefs.get? ti with
            | none => rw [hD] at h; exact absurd h (by simp)
            | some td =>
              rw [hD] at h; dsimp only at h
              by_cases hF : (td.fields.find? (fun p => p.1 = a.tval)).isSome
              · rw [if_pos hF] at h; exact absurd h (by simp)
              · rw [if_neg hF] at h
                exact ⟨_, _, (Except.ok.inj h).symm⟩
  · rw [if_neg hop] at h
    exact absurd h (by simp)

theorem lmAdd_spec (st : AsmState) (nm : String) (e : LMEntry)
    (st2 : AsmState) (h : lmAdd st nm e = Except.ok st2) :
    st.labelMan.find? (fun p => p.1 = nm) = none ∧
    st2 = { st with labelMan := st.labelMan ++ [(nm, e)] } := by
  unfold lmAdd at h
  by_cases hf : (st.labelMan.find? (fun p => p.1 = nm)).isSome
  · rw [if_pos hf] at h; exact absurd h (by simp)
  · rw [if_neg hf] at h
    exact ⟨Option.not_isSome_iff_eq_none.mp hf, (Except.ok.inj h).symm⟩

theorem importsOnInstruction_frame (env : FileEnv) (st : AsmState)
    (op : String) (args : List NArg) (st' : AsmState)
    (h : importsOnInstruction env st op args = Except.ok st') :
    st'.functions = st.functions ∧ st'.codeInstrs = st.codeInstrs ∧
    st'.typesLabelNames = st.typesLabelNames ∧
    st'.dataLabelNames = st.dataLabelNames ∧
    st'.codeLabelNames = st.codeLabelNames ∧
    st'.currentFunction = st.currentFunction ∧
    st'.currentSection = st.currentSection ∧
    ((st'.labelMan = st.labelMan ∧
      st'.importsLabelNames = st.importsLabelNames) ∨
     (∃ nm e, st.labelMan.find? (fun p => p.1 = nm) = none ∧
       funcIdx? e = none ∧
       st'.labelMan = st.labelMan ++ [(nm, e)] ∧
       st'.importsLabelNames = st.importsLabelNames ++ [nm])) := by
  unfold importsOnInstruction at h
  by_cases hop : op = "load"
  · rw [if_pos hop] at h
    cases hA : args.get? 0 with
    | none => rw [hA] at h; exact absurd h (by simp)
    | some a0 =>
      rw [hA] at h; dsimp only at h
      cases hV : a0.tval with
      | i v => rw [hV] at h; exact absurd h (by simp)
      | s path =>
        rw [hV] at h; dsimp only at h
        cases hF : env.files path with
        | none => rw [hF] at h; exact absurd h (by simp)
        | some sections =>
          rw [hF] at h; dsimp only at h
          cases hX : sections.find? (fun p => p.1 = "exports") with
          | none => rw [hX] at h; exact absurd h (by simp)
          | some pe =>
            rw [hX] at h
            obtain ⟨_, exBytes⟩ := pe
            dsimp only at h
            cases hT : exportTableFromBytes exBytes with
            | none => rw [hT] at h; exact absurd h (by simp)
            | some te =>
              rw [hT] at h
              obtain ⟨tbl, rest⟩ := te
              dsimp only at h
              rw [← Except.ok.inj h]
              exact ⟨rfl, rfl, rfl, rfl, rfl, rfl, rfl, Or.inl ⟨rfl, rfl⟩⟩
  · rw [if_neg hop] at h
    by_cases hop2 : op = "import"
    · rw [if_pos hop2] at h
      cases hT : st.importTable with
      | none => rw [hT] at h; exact absurd h (by simp)
      | some tbl =>
        rw [hT] at h; dsimp only at h
        cases hA : args.get? 0 with
        | none => rw [hA] at h; exact absurd h (by simp)
        | some a0 =>
          rw [hA] at h; dsimp only at h
          cases hV : a0.tval with
          | i v => rw [hV] at h; exact absurd h (by simp)
          | s funcName =>
            rw [hV] at h; dsimp only at h
            cases hN : (match args.get? 1 with
              | some a1 =>
                (match a1.tval with
                | TokVal.s nm => Except.ok nm
                | TokVal.i _ =>
                  Except.error (ε := String) "invalid name token")
              | none => Except.ok funcName) with
            | error e => rw [hN, exceptBind_err] at h; exact absurd h (by simp)
            | ok importName =>
              rw [hN, exceptBind_ok] at h
              by_cases hMem : funcName ∈ st.allImports
              · rw [if_pos hMem] at h; exact absurd h (by simp)
              · rw [if_neg hMem] at h
                cases hB : asciiBytes funcName with
                | error e =>
                  rw [hB, exceptBind_err] at h; exact absurd h (by simp)
                | ok nmBytes =>
                  rw [hB, exceptBind_ok] at h
                  cases hFd : tbl.find? (fun e => e.name = nmBytes) with
                  | none => rw [hFd] at h; exact absurd h (by simp)
                  | some func =>
                    rw [hFd] at h; dsimp only at h
                    cases hAdd : lmAdd st importName
                        (LMEntry.funcRef func.offset func.returnType
                          func.parameterTypes func.numLocals) with
                    | error e =>
                      rw [hAdd, exceptBind_err] at h; exact absurd h (by simp)
                    | ok st2 =>
                      rw [hAdd, exceptBind_ok] at h
                      obtain ⟨hfresh, hst2⟩ := lmAdd_spec _ _ _ _ hAdd
                      rw [← Except.ok.inj h, hst2]
                      exact ⟨rfl, rfl, rfl, rfl, rfl, rfl, rfl,
                        Or.inr ⟨importName,
                          LMEntry.funcRef func.offset func.returnType
                            func.parameterTypes func.numLocals,
                          hfresh, rfl, rfl, rfl⟩⟩
    · rw [if_neg hop2] at h
      rw [← Except.ok.inj h]
      exact ⟨rfl, rfl, rfl, rfl, rfl, rfl, rfl, Or.inl ⟨rfl, rfl⟩⟩

theorem configOnInstruction_frame (st : AsmState) (op : String)
    (args : List NArg) (st' : AsmState)
    (h : configOnInstruction st op args = Except.ok st') :
    ∃ cv, st' = { st with configValues := cv } := by
  unfold configOnInstruction at h
  cases hT : configTypesGet op with
  | none => rw [hT] at h; exact absurd h (by simp)
  | some tys =>
    rw [hT] at h; dsimp only at h
    by_cases hl : args.length = tys.length
    · rw [if_neg (not_not_intro hl)] at h
      exact ⟨_, (Except.ok.inj h).symm⟩
    · rw [if_pos hl] at h
      exact absurd h (by simp)

theorem appendBody_functions_get? (st : AsmState) (fidx i j : Nat) :
    ((appendBody st fidx i).functions.get? j) =
      if j = fidx then
        (st.functions.get? j).map (fun f => { f with body := f.body ++ [i] })
      else st.functions.get? j := by
  unfold appendBody
  cases hF : st.functions.get? fidx with
  | none =>
    by_cases hj : j = fidx
    · subst hj; rw [if_pos rfl, hF]; rfl
    · rw [if_neg hj]
  | some f =>
    dsimp only
    by_cases hj : j = fidx
    · subst hj
      rw [if_pos rfl, List.get?_set_eq, hF]
      rfl
    · rw [if_neg hj, List.get?_set_ne _ _ (fun hc => hj hc.symm)]

theorem appendBody_frame (st : AsmState) (fidx i : Nat) :
    ∃ fns, appendBody st fidx i = { st with functions := fns } ∧
      fns.length = st.functions.length := by
  unfold appendBody
  cases hF : st.functions.get? fidx with
  | none => exact ⟨st.functions, rfl, rfl⟩
  | some f => exact ⟨_, rfl, List.length_set ..⟩

theorem addSectionLabelName_frame (st : AsmState) (sec : SectionName)
    (n : String) :
    (addSectionLabelName st sec n).functions = st.functions ∧
    (addSectionLabelName st sec n).codeInstrs = st.codeInstrs ∧
    (addSectionLabelName st sec n).labelMan = st.labelMan ∧
    (addSectionLabelName st sec n).currentFunction = st.currentFunction := by
  cases sec <;> exact ⟨rfl, rfl, rfl, rfl⟩

theorem addSectionLabelName_lists (st : AsmState) (sec : SectionName)
    (n : String) :
    (addSectionLabelName st sec n).typesLabelNames =
      st.typesLabelNames ++ (if sec = SectionName.types then [n] else []) ∧
    (addSectionLabelName st sec n).dataLabelNames =
      st.dataLabelNames ++ (if sec = SectionName.data then [n] else []) ∧
    (addSectionLabelName st sec n).codeLabelNames =
      st.codeLabelNames ++ (if sec = SectionName.code then [n] else []) ∧
    (addSectionLabelName st sec n).importsLabelNames =
      st.importsLabelNames ++ (if sec = SectionName.imports then [n] else []) := by
  cases sec <;> simp [addSectionLabelName]


/-! ### Transfer lemmas for the processing invariants -/

theorem find?_key_none {lm : List (String × LMEntry)} {nm : String}
    (h : lm.find? (fun p => p.1 = nm) = none) : nm ∉ lm.map Prod.fst := by
  intro hmem
  obtain ⟨p, hp, hpe⟩ := List.mem_map.mp hmem
  have := List.find?_eq_none.mp h p hp
  simp [hpe] at this

theorem find?_key_isSome {lm : List (String × LMEntry)} {nm : String}
    (h : nm ∈ lm.map Prod.fst) : (lm.find? (fun p => p.1 = nm)).isSome := by
  by_contra hc
  rw [Option.not_isSome_iff_eq_none] at hc
  exact find?_key_none hc h

theorem retAt_shape {st' st : AsmState} {k : Nat}
    (hc : (st'.codeInstrs.get? k).map instrShape =
      (st.codeInstrs.get? k).map instrShape) :
    retAt st' k = retAt st k := by
  unfold retAt
  cases h1 : st'.codeInstrs.get? k with
  | none =>
    cases h2 : st.codeInstrs.get? k with
    | none => rfl
    | some c => rw [h1, h2] at hc; simp at hc
  | some c' =>
    cases h2 : st.codeInstrs.get? k with
    | none => rw [h1, h2] at hc; simp at hc
    | some c =>
      rw [h1, h2] at hc
      have hsh : instrShape c' = instrShape c := by simpa using hc
      have hop : c'.opname = c.opname := congrArg Prod.fst hsh
      dsimp only
      rw [hop]

theorem pushZeroAt_shape {st' st : AsmState} {k : Nat}
    (hc : (st'.codeInstrs.get? k).map instrShape =
      (st.codeInstrs.get? k).map instrShape) :
    pushZeroAt st' k = pushZeroAt st k := by
  unfold pushZeroAt
  cases h1 : st'.codeInstrs.get? k with
  | none =>
    cases h2 : st.codeInstrs.get? k with
    | none => rfl
    | some c => rw [h1, h2] at hc; simp at hc
  | some c' =>
    cases h2 : st.codeInstrs.get? k with
    | none => rw [h1, h2] at hc; simp at hc
    | some c =>
      rw [h1, h2] at hc
      have hsh : instrShape c' = instrShape c := by simpa using hc
      have hop : c'.opname = c.opname := congrArg Prod.fst hsh
      have har : c'.args = c.args := congrArg Prod.snd hsh
      dsimp only
      rw [hop, har]

theorem voidRetProp_shape {st' st : AsmState}
    (hf : ∀ j, (st'.functions.get? j).map funcShape =
      (st.functions.get? j).map funcShape)
    (hc : ∀ k, (st'.codeInstrs.get? k).map instrShape =
      (st.codeInstrs.get? k).map instrShape)
    (h : VoidRetProp st) : VoidRetProp st' := by
  intro f' hf' hret p hp hr
  obtain ⟨j, hj⟩ := List.mem_iff_get?.mp hf'
  have hfj := hf j
  rw [hj] at hfj
  cases hg : st.functions.get? j with
  | none => rw [hg] at hfj; simp at hfj
  | some f =>
    rw [hg] at hfj
    have hsh : funcShape f' = funcShape f := by simpa using hfj
    have hrt : f'.returnType = f.returnType := congrArg Prod.fst hsh
    have hbd : f'.body = f.body := congrArg Prod.snd hsh
    have hmem : f ∈ st.functions := List.mem_iff_get?.mpr ⟨j, hg⟩
    rw [hrt] at hret
    rw [retAt_shape (hc p.2)] at hr
    rw [hbd] at hp
    obtain ⟨h1, h2, h3, h4⟩ := h f hmem hret p hp hr
    refine ⟨h1, h2, ?_, ?_⟩
    · rw [hbd]; exact h3
    · rw [pushZeroAt_shape (hc (p.2 - 1))]; exact h4

theorem bodyInRange_shape {st' st : AsmState}
    (hf : ∀ j, (st'.functions.get? j).map funcShape =
      (st.functions.get? j).map funcShape)
    (hlen : st'.codeInstrs.length = st.codeInstrs.length)
    (h : BodyInRange st) : BodyInRange st' := by
  intro f' hf' k hk
  obtain ⟨j, hj⟩ := List.mem_iff_get?.mp hf'
  have hfj := hf j
  rw [hj] at hfj
  cases hg : st.functions.get? j with
  | none => rw [hg] at hfj; simp at hfj
  | some f =>
    rw [hg] at hfj
    have hsh : funcShape f' = funcShape f := by simpa using hfj
    have hbd : f'.body = f.body := congrArg Prod.snd hsh
    rw [hbd] at hk
    rw [hlen]
    exact h f (List.mem_iff_get?.mpr ⟨j, hg⟩) k hk

theorem c6Inv_congr {st' st : AsmState} (hf : st'.functions = st.functions)
    (hc : st'.codeInstrs = st.codeInstrs) (h : C6Inv st) : C6Inv st' :=
  ⟨bodyInRange_shape (fun j => by rw [hf]) (by rw [hc]) h.1,
   voidRetProp_shape (fun j => by rw [hf]) (fun k => by rw [hc]) h.2⟩

theorem funcBound_mono {e : LMEntry} {n m : Nat} (h : funcBound e n)
    (hnm : n ≤ m) : funcBound e m := by
  cases e <;> simp [funcBound] at h ⊢ <;> omega

theorem lnInv_mono {st' st : AsmState} (hm : st'.labelMan = st.labelMan)
    (h1 : st'.typesLabelNames = st.typesLabelNames)
    (h2 : st'.dataLabelNames = st.dataLabelNames)
    (h3 : st'.codeLabelNames = st.codeLabelNames)
    (h4 : st'.importsLabelNames = st.importsLabelNames)
    (hf : st.functions.length ≤ st'.functions.length)
    (h : LabelNamesInv st) : LabelNamesInv st' := by
  obtain ⟨k, t, d, c, i, td, tc, ti, dc, di, ci, fb, inj⟩ := h
  rw [LabelNamesInv, hm, h1, h2, h3, h4]
  exact ⟨k, t, d, c, i, td, tc, ti, dc, di, ci,
    fun p hp => funcBound_mono (fb p hp) hf, inj⟩

theorem disjoint_ext {l1 l2 e1 e2 : List String} {nm : String}
    (hd : ∀ x ∈ l1, x ∉ l2)
    (hn1 : nm ∉ l1) (hn2 : nm ∉ l2)
    (he1 : e1 = [] ∨ e1 = [nm]) (he2 : e2 = [] ∨ e2 = [nm])
    (hne : e1 = [] ∨ e2 = []) :
    ∀ x ∈ l1 ++ e1, x ∉ l2 ++ e2 := by
  intro x hx hx2
  rcases List.mem_append.mp hx with hxl | hxe
  · rcases List.mem_append.mp hx2 with hyl | hye
    · exact hd x hxl hyl
    · rcases he2 with he | he
      · rw [he] at hye; exact absurd hye (List.not_mem_nil x)
      · rw [he, List.mem_singleton] at hye
        rw [hye] at hxl
        exact hn1 hxl
  · rcases he1 with he | he
    · rw [he] at hxe; exact absurd hxe (List.not_mem_nil x)
    · rw [he, List.mem_singleton] at hxe
      subst hxe
      rcases List.mem_append.mp hx2 with hyl | hye
      · exact hn2 hyl
      · rcases hne with hne | hne
        · rw [hne] at he; exact absurd he (by simp)
        · rw [hne] at hye; exact absurd hye (List.not_mem_nil x)

theorem lnInv_extend {st' st : AsmState} {nm : String} {e : LMEntry}
    (sec : SectionName)
    (hfresh : st.labelMan.find? (fun p => p.1 = nm) = none)
    (hm : st'.labelMan = st.labelMan ++ [(nm, e)])
    (ht : st'.typesLabelNames =
      st.typesLabelNames ++ (if sec = SectionName.types then [nm] else []))
    (hd : st'.dataLabelNames =
      st.dataLabelNames ++ (if sec = SectionName.data then [nm] else []))
    (hc : st'.codeLabelNames =
      st.codeLabelNames ++ (if sec = SectionName.code then [nm] else []))
    (hi : st'.importsLabelNames =
      st.importsLabelNames ++ (if sec = SectionName.imports then [nm] else []))
    (hb : funcBound e st'.functions.length)
    (hflen : st.functions.length ≤ st'.functions.length)
    (hinj : ∀ p ∈ st.labelMan, (funcIdx? p.2).isSome →
      funcIdx? p.2 ≠ funcIdx? e)
    (hI : LabelNamesInv st) : LabelNamesInv st' := by
  obtain ⟨k, t, d, c, i, td, tc, ti, dc, di, ci, fb, inj⟩ := hI
  have hn : nm ∉ st.labelMan.map Prod.fst := find?_key_none hfresh
  have hnt : nm ∉ st.typesLabelNames := fun hx => hn (t nm hx)
  have hnd : nm ∉ st.dataLabelNames := fun hx => hn (d nm hx)
  have hnc : nm ∉ st.codeLabelNames := fun hx => hn (c nm hx)
  have hni : nm ∉ st.importsLabelNames := fun hx => hn (i nm hx)
  have hif : ∀ σ : SectionName,
      (if sec = σ then [nm] else ([] : List String)) = [] ∨
      (if sec = σ then [nm] else ([] : List String)) = [nm] := by
    intro σ
    by_cases hσ : sec = σ
    · right; rw [if_pos hσ]
    · left; rw [if_neg hσ]
  refine ⟨?_, ?_, ?_, ?_, ?_, ?_, ?_, ?_, ?_, ?_, ?_, ?_, ?_⟩
  · rw [hm, List.map_append]
    rw [List.nodup_append]
    refine ⟨k, by simp, ?_⟩
    intro x hx hx2
    simp only [List.map_cons, List.map_nil, List.mem_singleton] at hx2
    rw [hx2] at hx
    exact hn hx
  · rw [ht, hm, List.map_append]
    intro x hx
    rcases List.mem_append.mp hx with hxl | hxe
    · exact List.mem_append_left _ (t x hxl)
    · rcases hif SectionName.types with he | he
      · rw [he] at hxe; exact absurd hxe (List.not_mem_nil x)
      · rw [he] at hxe
        exact List.mem_append_right _ (by simpa using hxe)
  · rw [hd, hm, List.map_append]
    intro x hx
    rcases List.mem_append.mp hx with hxl | hxe
    · exact List.mem_append_left _ (d x hxl)
    · rcases hif SectionName.data with he | he
      · rw [he] at hxe; exact absurd hxe (List.not_mem_nil x)
      · rw [he] at hxe
        exact List.mem_append_right _ (by simpa using hxe)
  · rw [hc, hm, List.map_append]
    intro x hx
    rcases List.mem_append.mp hx with hxl | hxe
    · exact List.mem_append_left _ (c x hxl)
    · rcases hif SectionName.code with he | he
      · rw [he] at hxe; exact absurd hxe (List.not_mem_nil x)
      · rw [he] at hxe
        exact List.mem_append_right _ (by simpa using hxe)
  · rw [hi, hm, List.map_append]
    intro x hx
    rcases List.mem_append.mp hx with hxl | hxe
    · exact List.mem_append_left _ (i x hxl)
    · rcases hif SectionName.imports with he | he
      · rw [he] at hxe; exact absurd hxe (List.not_mem_nil x)
      · rw [he] at hxe
        exact List.mem_append_right _ (by simpa using hxe)
  · rw [ht, hd]
    exact disjoint_ext td hnt hnd (hif _) (hif _)
      (by by_cases hσ : sec = SectionName.types
          · right; rw [if_neg (by rw [hσ]; decide)]
          · left; rw [if_neg hσ])
  · rw [ht, hc]
    exact disjoint_ext tc hnt hnc (hif _) (hif _)
      (by by_cases hσ : sec = SectionName.types
          · right; rw [if_neg (by rw [hσ]; decide)]
          · left; rw [if_neg hσ])
  · rw [ht, hi]
    exact disjoint_ext ti hnt hni (hif _) (hif _)
      (by by_cases hσ : sec = SectionName.types
          · right; rw [if_neg (by rw [hσ]; decide)]
          · left; rw [if_neg hσ])
  · rw [hd, hc]
    exact disjoint_ext dc hnd hnc (hif _) (hif _)
      (by by_cases hσ : sec = SectionName.data
          · right; rw [if_neg (by rw [hσ]; decide)]
          · left; rw [if_neg hσ])
  · rw [hd, hi]
    exact disjoint_ext di hnd hni (hif _) (hif _)
      (by by_cases hσ : sec = SectionName.data
          · right; rw [if_neg (by rw [hσ]; decide)]
          · left; rw [if_neg hσ])
  · rw [hc, hi]
    exact disjoint_ext ci hnc hni (hif _) (hif _)
      (by by_cases hσ : sec = SectionName.code
          · right; rw [if_neg (by rw [hσ]; decide)]
          · left; rw [if_neg hσ])
  · rw [hm]
    intro p hp
    rcases List.mem_append.mp hp with hpl | hpe
    · exact funcBound_mono (fb p hpl) hflen
    · rw [List.mem_singleton.mp hpe]
      exact hb
  · rw [hm]
    intro p hp q hq hps hpq
    rcases List.mem_append.mp hp with hpl | hpe <;>
      rcases List.mem_append.mp hq with hql | hqe
    · exact inj p hpl q hql hps hpq
    · rw [List.mem_singleton.mp hqe] at hpq
      exact absurd hpq (hinj p hpl hps)
    · rw [List.mem_singleton.mp hpe] at hps hpq
      have hqs : (funcIdx? q.2).isSome := by rw [← hpq]; exact hps
      exact absurd hpq.symm (hinj q hql hqs)
    · rw [List.mem_singleton.mp hpe, List.mem_singleton.mp hqe]


/-! ### The code-section append step preserves the joint invariant -/

theorem funcBound_of_none {e : LMEntry} {n : Nat} (h : funcIdx? e = none) :
    funcBound e n := by
  cases e with
  | func i => exact absurd h (by simp [funcIdx?])
  | plain o => trivial
  | funcRef o r ps nl => trivial

theorem retAt_append_left {stX st : AsmState} {tail : List CodeInstr} {k : Nat}
    (hcX : stX.codeInstrs = st.codeInstrs ++ tail)
    (hk : k < st.codeInstrs.length) : retAt stX k = retAt st k := by
  unfold retAt
  rw [hcX, List.get?_append hk]

theorem pushZeroAt_append_left {stX st : AsmState} {tail : List CodeInstr}
    {k : Nat} (hcX : stX.codeInstrs = st.codeInstrs ++ tail)
    (hk : k < st.codeInstrs.length) : pushZeroAt stX k = pushZeroAt st k := by
  unfold pushZeroAt
  rw [hcX, List.get?_append hk]

theorem voidRetProp_extend {stX st : AsmState} {tail : List CodeInstr}
    (hfun : stX.functions = st.functions)
    (hcX : stX.codeInstrs = st.codeInstrs ++ tail)
    (hB : BodyInRange st) (hV : VoidRetProp st) : VoidRetProp stX := by
  intro f hf hret p hp hr
  rw [hfun] at hf
  have hp2mem : p.2 ∈ f.body :=
    List.get?_mem (List.mem_enum_iff_get?.mp hp)
  have hp2lt : p.2 < st.codeInstrs.length := hB f hf p.2 hp2mem
  rw [retAt_append_left hcX hp2lt] at hr
  obtain ⟨h1, h2, h3, h4⟩ := hV f hf hret p hp hr
  refine ⟨h1, h2, h3, ?_⟩
  rw [pushZeroAt_append_left hcX (by omega)]
  exact h4

theorem bodyInRange_extend {stX st : AsmState} {tail : List CodeInstr}
    (hfun : stX.functions = st.functions)
    (hcX : stX.codeInstrs = st.codeInstrs ++ tail)
    (hB : BodyInRange st) : BodyInRange stX := by
  intro f hf k hk
  rw [hfun] at hf
  rw [hcX, List.length_append]
  exact Nat.lt_of_lt_of_le (hB f hf k hk) (Nat.le_add_right _ _)

theorem asmInv_code_append (stX : AsmState) (fidx i : Nat) (c : CodeInstr)
    (f : AFunc)
    (hgf : stX.functions.get? fidx = some f)
    (hlast : stX.codeInstrs.get? i = some c)
    (hi : i + 1 = stX.codeInstrs.length)
    (hsafe : c.opname = "ret" → f.returnType = ATy.base BinTy.void →
      0 < i ∧ pushZeroAt stX (i - 1) = true ∧
      f.body.get? (f.body.length - 1) = some (i - 1))
    (hB : ∀ g ∈ stX.functions, ∀ k ∈ g.body, k < i)
    (hV : VoidRetProp stX)
    (hLN : LabelNamesInv stX) :
    AsmInv (appendBody stX fidx i) := by
  obtain ⟨fns, happ, hlen⟩ := appendBody_frame stX fidx i
  have hget := appendBody_functions_get? stX fidx i
  have hci : (appendBody stX fidx i).codeInstrs = stX.codeInstrs := by rw [happ]
  have hra : ∀ k, retAt (appendBody stX fidx i) k = retAt stX k := by
    intro k; unfold retAt; rw [hci]
  have hpa : ∀ k, pushZeroAt (appendBody stX fidx i) k = pushZeroAt stX k := by
    intro k; unfold pushZeroAt; rw [hci]
  refine ⟨⟨?_, ?_⟩, ?_⟩
  · -- bodies stay in range of the instruction list
    intro g hg k hk
    rw [hci, ← hi]
    obtain ⟨j, hj⟩ := List.mem_iff_get?.mp hg
    have hgj := hget j
    rw [hj] at hgj
    by_cases hjf : j = fidx
    · rw [if_pos hjf, hjf, hgf] at hgj
      have hgeq : g = { f with body := f.body ++ [i] } := by simpa using hgj
      rw [hgeq] at hk
      dsimp at hk
      rcases List.mem_append.mp hk with hk1 | hk2
      · exact Nat.lt_succ_of_lt
          (hB f (List.mem_iff_get?.mpr ⟨fidx, hgf⟩) k hk1)
      · rw [List.mem_singleton.mp hk2]; exact Nat.lt_succ_self i
    · rw [if_neg hjf] at hgj
      exact Nat.lt_succ_of_lt
        (hB g (List.mem_iff_get?.mpr ⟨j, hgj.symm⟩) k hk)
  · -- the void-ret discipline
    intro g hg hret p hp hr
    rw [hra] at hr
    obtain ⟨j, hj⟩ := List.mem_iff_get?.mp hg
    have hgj := hget j
    rw [hj] at hgj
    by_cases hjf : j = fidx
    · rw [if_pos hjf, hjf, hgf] at hgj
      have hgeq : g = { f with body := f.body ++ [i] } := by simpa using hgj
      rw [hgeq] at hret hp
      dsimp at hret hp
      have hpg : (f.body ++ [i]).get? p.1 = some p.2 :=
        List.mem_enum_iff_get?.mp hp
      by_cases hplt : p.1 < f.body.length
      · rw [List.get?_append hplt] at hpg
        have hpmem : p ∈ f.body.enum := List.mem_enum_iff_get?.mpr hpg
        have hfm : f ∈ stX.functions := List.mem_iff_get?.mpr ⟨fidx, hgf⟩
        obtain ⟨h1, h2, h3, h4⟩ := hV f hfm hret p hpmem hr
        refine ⟨h1, h2, ?_, ?_⟩
        · rw [hgeq]
          dsimp
          rw [List.get?_append (Nat.lt_of_le_of_lt (Nat.sub_le p.1 1) hplt)]
          exact h3
        · rw [hpa]; exact h4
      · have hple : f.body.length ≤ p.1 := Nat.le_of_not_lt hplt
        rw [List.get?_append_right hple] at hpg
        cases hd : p.1 - f.body.length with
        | succ m => rw [hd] at hpg; exact absurd hpg (by simp)
        | zero =>
          rw [hd] at hpg
          have hp2 : p.2 = i := by simpa using hpg.symm
          have hp1 : p.1 = f.body.length := by omega
          have hcop : c.opname = "ret" := by
            unfold retAt at hr
            rw [hp2, hlast] at hr
            simpa using hr
          obtain ⟨hip, hpz, hlb⟩ := hsafe hcop hret
          have hbody0 : 0 < f.body.length := by
            by_contra hc0
            have hnil : f.body = [] := List.eq_nil_of_length_eq_zero (by omega)
            rw [hnil] at hlb
            simp at hlb
          refine ⟨by omega, by rw [hp2]; exact hip, ?_, ?_⟩
          · rw [hgeq]
            dsimp
            rw [hp1, hp2, List.get?_append (by omega)]
            exact hlb
          · rw [hpa, hp2]; exact hpz
    · rw [if_neg hjf] at hgj
      have hgm : g ∈ stX.functions := List.mem_iff_get?.mpr ⟨j, hgj.symm⟩
      obtain ⟨h1, h2, h3, h4⟩ := hV g hgm hret p hp hr
      exact ⟨h1, h2, h3, by rw [hpa]; exact h4⟩
  · -- label bookkeeping untouched
    refine lnInv_mono ?_ ?_ ?_ ?_ ?_ ?_ hLN <;> rw [happ]
    exact hlen.ge


/-! ### The per-node step preserves the joint invariant -/

theorem asmInv_set_locals {st : AsmState} {fidx : Nat} {f : AFunc}
    (hgf : st.functions.get? fidx = some f) (l2 : List AParam)
    (hI : AsmInv st) :
    AsmInv { st with
      functions := st.functions.set fidx { f with locals := l2 } } := by
  obtain ⟨⟨hBR, hVR⟩, hLN⟩ := hI
  have hsh : ∀ j,
      (({ st with functions :=
        st.functions.set fidx { f with locals := l2 } } :
          AsmState).functions.get? j).map funcShape =
      (st.functions.get? j).map funcShape := by
    intro j
    dsimp
    by_cases hj : fidx = j
    · subst hj
      rw [List.get?_set_eq, hgf]
      rfl
    · rw [List.get?_set_ne _ _ hj]
  refine ⟨⟨bodyInRange_shape hsh rfl hBR,
    voidRetProp_shape hsh (fun k => rfl) hVR⟩, ?_⟩
  refine lnInv_mono ?_ ?_ ?_ ?_ ?_ ?_ hLN
  · rfl
  · rfl
  · rfl
  · rfl
  · rfl
  · exact le_of_eq (List.length_set st.functions fidx _).symm

theorem asmInv_step_section (env : FileEnv) (st : AsmState) (sname : String)
    (st' : AsmState)
    (h : processNode env st (Node.section sname) = Except.ok st')
    (hI : AsmInv st) : AsmInv st' := by
  obtain ⟨⟨hBR, hVR⟩, hLN⟩ := hI
  unfold processNode at h
  dsimp only at h
  by_cases hnull : sname = "$null"
  · rw [if_pos hnull] at h
    rw [← Except.ok.inj h]
    exact ⟨⟨hBR, hVR⟩, hLN⟩
  · rw [if_neg hnull] at h
    cases hs : sectionOfName sname with
    | none => rw [hs] at h; exact absurd h (by simp)
    | some s =>
      rw [hs] at h
      dsimp only at h
      rw [← Except.ok.inj h]
      exact ⟨⟨hBR, hVR⟩, hLN⟩

theorem asmInv_step_varDef (env : FileEnv) (st : AsmState)
    (vname : Option String) (tname : String) (st' : AsmState)
    (h : processNode env st (Node.varDef vname tname) = Except.ok st')
    (hI : AsmInv st) : AsmInv st' := by
  unfold processNode at h
  dsimp only at h
  cases hcf : st.currentFunction with
  | none => rw [hcf] at h; exact absurd h (by simp)
  | some fidx =>
    rw [hcf] at h
    dsimp only at h
    cases hgf : st.functions.get? fidx with
    | none => rw [hgf] at h; exact absurd h (by simp)
    | some f =>
      rw [hgf] at h
      dsimp only at h
      cases htt : typeTableGet tname with
      | some b =>
        rw [htt] at h
        dsimp only at h
        rw [exceptBind_ok] at h
        rw [← Except.ok.inj h]
        exact asmInv_set_locals hgf _ hI
      | none =>
        rw [htt] at h
        dsimp only at h
        cases htd : st.typeDefs.find? (fun t => t.tdname = tname) with
        | some td =>
          rw [htd] at h
          dsimp only at h
          rw [exceptBind_ok] at h
          rw [← Except.ok.inj h]
          exact asmInv_set_locals hgf _ hI
        | none =>
          rw [htd] at h
          dsimp only at h
          rw [exceptBind_err] at h
          exact absurd h (by simp)

theorem asmInv_step_typeDef (env : FileEnv) (st : AsmState)
    (tdname : String) (mods : List String) (st' : AsmState)
    (h : processNode env st (Node.typeDef tdname mods) = Except.ok st')
    (hI : AsmInv st) : AsmInv st' := by
  obtain ⟨⟨hBR, hVR⟩, hLN⟩ := hI
  unfold processNode at h
  dsimp only at h
  split at h
  · exact absurd h (by simp)
  · rw [← Except.ok.inj h]
    exact ⟨⟨hBR, hVR⟩, hLN⟩

theorem asmInv_step_label (env : FileEnv) (st : AsmState) (lname : String)
    (st' : AsmState)
    (h : processNode env st (Node.label lname) = Except.ok st')
    (hI : AsmInv st) : AsmInv st' := by
  obtain ⟨⟨hBR, hVR⟩, hLN⟩ := hI
  unfold processNode at h
  dsimp only at h
  cases hcs : st.currentSection with
  | none => rw [hcs] at h; rw [← Except.ok.inj h]; exact ⟨⟨hBR, hVR⟩, hLN⟩
  | some sec =>
    rw [hcs] at h
    dsimp only at h
    by_cases hsz : isSized sec = true
    · rw [if_pos hsz] at h
      cases hAdd : lmAdd st lname (LMEntry.plain (sectionSize st sec)) with
      | error e => rw [hAdd, exceptBind_err] at h; exact absurd h (by simp)
      | ok st2 =>
        rw [hAdd, exceptBind_ok] at h
        obtain ⟨hfresh, hst2⟩ := lmAdd_spec _ _ _ _ hAdd
        rw [← Except.ok.inj h]
        obtain ⟨hfr1, hfr2, hfr3, _⟩ := addSectionLabelName_frame st2 sec lname
        obtain ⟨hl1, hl2, hl3, hl4⟩ := addSectionLabelName_lists st2 sec lname
        constructor
        · refine ⟨bodyInRange_shape (fun j => by rw [hfr1, hst2]) ?_ hBR,
            voidRetProp_shape (fun j => by rw [hfr1, hst2])
              (fun k => by rw [hfr2, hst2]) hVR⟩
          rw [hfr2, hst2]
        · have hm0 : (addSectionLabelName st2 sec lname).labelMan =
              st.labelMan ++ [(lname, LMEntry.plain (sectionSize st sec))] := by
            rw [hfr3, hst2]
          refine lnInv_extend sec hfresh hm0 ?_ ?_ ?_ ?_ ?_ ?_ ?_ hLN
          · rw [hl1, hst2]
          · rw [hl2, hst2]
          · rw [hl3, hst2]
          · rw [hl4, hst2]
          · exact funcBound_of_none rfl
          · exact le_of_eq
              (congrArg List.length (by rw [hfr1, hst2] : (addSectionLabelName st2 sec lname).functions = st.functions)).symm
          · intro p hp hps heq
            rw [show funcIdx? (LMEntry.plain (sectionSize st sec)) = none
              from rfl] at heq
            rw [heq] at hps
            simp at hps
    · rw [if_neg hsz] at h
      rw [← Except.ok.inj h]
      exact ⟨⟨hBR, hVR⟩, hLN⟩


theorem exceptBind_ok_dest {ε α β : Type} {e : Except ε α}
    {f : α → Except ε β} {b : β} (h : (e >>= f) = Except.ok b) :
    ∃ a, e = Except.ok a ∧ f a = Except.ok b := by
  cases e with
  | error err => rw [exceptBind_err] at h; exact absurd h (by simp)
  | ok a => rw [exceptBind_ok] at h; exact ⟨a, rfl, h⟩

theorem asmInv_step_inst_noncode (env : FileEnv) (st : AsmState)
    (sec : SectionName) (opname : String) (args : List NArg) (st' : AsmState)
    (hsec : ¬(sec = SectionName.code))
    (hpush : onInstruction env st sec "push" pushZeroArgs =
        Except.ok (st, none) ∨
      ∃ msg, onInstruction env st sec "push" pushZeroArgs = Except.error msg)
    (hmain : ∀ st1 stM r,
      onInstruction env st1 sec opname args = Except.ok (stM, r) →
      stM.functions = st1.functions ∧ stM.codeInstrs = st1.codeInstrs ∧
      stM.typesLabelNames = st1.typesLabelNames ∧
      stM.dataLabelNames = st1.dataLabelNames ∧
      stM.codeLabelNames = st1.codeLabelNames ∧
      ((stM.labelMan = st1.labelMan ∧
        stM.importsLabelNames = st1.importsLabelNames) ∨
       (∃ nm e, st1.labelMan.find? (fun p => p.1 = nm) = none ∧
         funcIdx? e = none ∧
         stM.labelMan = st1.labelMan ++ [(nm, e)] ∧
         stM.importsLabelNames = st1.importsLabelNames ++ [nm])))
    (hcs : st.currentSection = some sec)
    (h : processNode env st (Node.instruction opname args) = Except.ok st')
    (hI : AsmInv st) : AsmInv st' := by
  obtain ⟨⟨hBR, hVR⟩, hLN⟩ := hI
  unfold processNode at h
  dsimp only at h
  rw [hcs] at h
  dsimp only at h
  suffices hcore : ∀ st3 res2,
      onInstruction env st sec opname args = Except.ok (st3, res2) →
      st3 = st' → AsmInv st' by
    by_cases hop : opname = "ret"
    · rw [if_pos hop] at h
      cases hcf : st.currentFunction with
      | none => rw [hcf] at h; dsimp only at h
                rw [exceptBind_err] at h; exact absurd h (by simp)
      | some fidx =>
        rw [hcf] at h
        dsimp only at h
        cases hgf : st.functions.get? fidx with
        | none => rw [hgf] at h; dsimp only at h
                  rw [exceptBind_err] at h; exact absurd h (by simp)
        | some f =>
          rw [hgf] at h
          dsimp only at h
          by_cases hvoid : f.returnType = ATy.base BinTy.void
          · rw [if_pos hvoid] at h
            rcases hpush with hp | ⟨msg, hp⟩
            · rw [hp, exceptBind_ok] at h
              dsimp only at h
              rw [if_neg hsec] at h
              rw [exceptBind_ok] at h
              obtain ⟨⟨st3, res2⟩, hon, h⟩ := exceptBind_ok_dest h
              rw [if_neg hsec] at h
              exact hcore st3 res2 hon (Except.ok.inj h)
            · rw [hp, exceptBind_err] at h
              exact absurd h (by simp)
          · rw [if_neg hvoid] at h
            rw [exceptBind_ok] at h
            obtain ⟨⟨st3, res2⟩, hon, h⟩ := exceptBind_ok_dest h
            rw [if_neg hsec] at h
            exact hcore st3 res2 hon (Except.ok.inj h)
    · rw [if_neg hop] at h
      rw [exceptBind_ok] at h
      obtain ⟨⟨st3, res2⟩, hon, h⟩ := exceptBind_ok_dest h
      rw [if_neg hsec] at h
      exact hcore st3 res2 hon (Except.ok.inj h)
  intro st3 res2 hon hst'
  obtain ⟨hfun, hcode, hlt, hld, hlc, hdisj⟩ := hmain st st3 res2 hon
  rw [← hst']
  refine ⟨⟨bodyInRange_shape (fun j => by rw [hfun]) (by rw [hcode]) hBR,
    voidRetProp_shape (fun j => by rw [hfun]) (fun k => by rw [hcode]) hVR⟩,
    ?_⟩
  rcases hdisj with ⟨hlm, hli⟩ | ⟨nm, e, hfresh, hnone, hlm, hli⟩
  · exact lnInv_mono hlm hlt hld hlc hli
      (le_of_eq (congrArg List.length hfun).symm) hLN
  · refine lnInv_extend SectionName.imports hfresh hlm ?_ ?_ ?_ ?_ ?_ ?_ ?_ hLN
    · rw [hlt, if_neg (by decide), List.append_nil]
    · rw [hld, if_neg (by decide), List.append_nil]
    · rw [hlc, if_neg (by decide), List.append_nil]
    · rw [hli, if_pos rfl]
    · exact funcBound_of_none hnone
    · exact le_of_eq (congrArg List.length hfun).symm
    · intro p hp hps heq
      rw [hnone] at heq
      rw [heq] at hps
      simp at hps


theorem asmInv_ret_after_push (Y : AsmState) (fidx : Nat) (fX : AFunc)
    (l : List CodeInstr) (z : Int)
    (hYc : Y.codeInstrs = l ++ [pushZeroInstr z])
    (hYf : Y.functions.get? fidx = some fX)
    (hXv : fX.body.get? (fX.body.length - 1) = some l.length)
    (hIY : AsmInv Y) :
    AsmInv (appendBody
      { Y with codeInstrs := Y.codeInstrs ++ [retInstr Y.codeSize],
               codeSize := Y.codeSize + 1 }
      fidx Y.codeInstrs.length) := by
  obtain ⟨⟨hBR1, hVR1⟩, hLN1⟩ := hIY
  have hYlen : Y.codeInstrs.length = l.length + 1 := by
    rw [hYc, List.length_append]
    rfl
  refine asmInv_code_append _ fidx _ (retInstr Y.codeSize) fX hYf ?_ ?_ ?_ ?_ ?_ ?_
  · exact List.get?_concat_length _ _
  · show Y.codeInstrs.length + 1 =
      (Y.codeInstrs ++ [retInstr Y.codeSize]).length
    rw [List.length_append]
    rfl
  · intro _ _
    refine ⟨by rw [hYlen]; exact Nat.succ_pos _, ?_, ?_⟩
    · rw [hYlen, Nat.add_sub_cancel]
      unfold pushZeroAt
      have hg0 : ({ Y with
          codeInstrs := Y.codeInstrs ++ [retInstr Y.codeSize],
          codeSize := Y.codeSize + 1 } : AsmState).codeInstrs.get? l.length =
          some (pushZeroInstr z) := by
        show (Y.codeInstrs ++ [retInstr Y.codeSize]).get? l.length = _
        rw [List.get?_append (by rw [hYlen]; omega), hYc]
        exact List.get?_concat_length _ _
      rw [hg0]
      simp [pushZeroInstr]
    · rw [hYlen, Nat.add_sub_cancel]
      exact hXv
  · exact fun g hg k hk => hBR1 g hg k hk
  · exact @voidRetProp_extend _ Y [retInstr Y.codeSize] rfl rfl hBR1 hVR1
  · refine lnInv_mono ?_ ?_ ?_ ?_ ?_ ?_ hLN1
    · rfl
    · rfl
    · rfl
    · rfl
    · rfl
    · exact le_rfl

theorem asmInv_step_inst_code (env : FileEnv) (st : AsmState)
    (opname : String) (args : List NArg) (st' : AsmState)
    (hcs : st.currentSection = some SectionName.code)
    (h : processNode env st (Node.instruction opname args) = Except.ok st')
    (hI : AsmInv st) : AsmInv st' := by
  obtain ⟨⟨hBR, hVR⟩, hLN⟩ := hI
  unfold processNode at h
  try dsimp only at h
  rw [hcs] at h
  try dsimp only at h
  by_cases hop : opname = "ret"
  · -- a ret node
    rw [if_pos hop] at h
    subst hop
    cases hcf : st.currentFunction with
    | none =>
      rw [hcf] at h
      try dsimp only at h
      rw [exceptBind_err] at h
      exact absurd h (by simp)
    | some fidx =>
      rw [hcf] at h
      try dsimp only at h
      cases hgf : st.functions.get? fidx with
      | none =>
        rw [hgf] at h
        try dsimp only at h
        rw [exceptBind_err] at h
        exact absurd h (by simp)
      | some f =>
        rw [hgf] at h
        try dsimp only at h
        by_cases hvoid : f.returnType = ATy.base BinTy.void
        · -- void: the implicit push is inserted and recorded, then the ret
          rw [if_pos hvoid] at h
          rw [show onInstruction env st SectionName.code "push" pushZeroArgs =
            Except.ok (({ st with
              codeInstrs := st.codeInstrs ++ [pushZeroInstr st.codeSize],
              codeSize := st.codeSize + 10 } : AsmState),
              some st.codeInstrs.length) from rfl] at h
          rw [exceptBind_ok] at h
          try dsimp only at h
          rw [if_pos rfl] at h
          try dsimp only at h
          rw [exceptBind_ok] at h
          try dsimp only at h
          obtain ⟨fns1, happ1, hlen1⟩ := appendBody_frame ({ st with
            codeInstrs := st.codeInstrs ++ [pushZeroInstr st.codeSize],
            codeSize := st.codeSize + 10 } : AsmState) fidx
            st.codeInstrs.length
          rw [happ1] at h
          try dsimp only at h
          cases args with
          | cons a rest =>
            rw [show onInstruction env ({ ({ st with
                codeInstrs := st.codeInstrs ++ [pushZeroInstr st.codeSize],
                codeSize := st.codeSize + 10 } : AsmState) with
                functions := fns1 } : AsmState) SectionName.code "ret"
                (a :: rest) =
              Except.error "wrong number of arguments" from rfl] at h
            rw [exceptBind_err] at h
            exact absurd h (by simp)
          | nil =>
            rw [show onInstruction env ({ ({ st with
                codeInstrs := st.codeInstrs ++ [pushZeroInstr st.codeSize],
                codeSize := st.codeSize + 10 } : AsmState) with
                functions := fns1 } : AsmState) SectionName.code "ret" [] =
              Except.ok (({ ({ ({ st with
                codeInstrs := st.codeInstrs ++ [pushZeroInstr st.codeSize],
                codeSize := st.codeSize + 10 } : AsmState) with
                functions := fns1 } : AsmState) with
                codeInstrs := (({ ({ st with
                  codeInstrs := st.codeInstrs ++ [pushZeroInstr st.codeSize],
                  codeSize := st.codeSize + 10 } : AsmState) with
                  functions := fns1 } : AsmState)).codeInstrs ++
                  [retInstr (({ ({ st with
                    codeInstrs := st.codeInstrs ++ [pushZeroInstr st.codeSize],
                    codeSize := st.codeSize + 10 } : AsmState) with
                    functions := fns1 } : AsmState)).codeSize],
                codeSize := (({ ({ st with
                  codeInstrs := st.codeInstrs ++ [pushZeroInstr st.codeSize],
                  codeSize := st.codeSize + 10 } : AsmState) with
                  functions := fns1 } : AsmState)).codeSize + 1 } : AsmState),
              some (({ ({ st with
                codeInstrs := st.codeInstrs ++ [pushZeroInstr st.codeSize],
                codeSize := st.codeSize + 10 } : AsmState) with
                functions := fns1 } : AsmState)).codeInstrs.length)
              from rfl] at h
            rw [exceptBind_ok] at h
            try dsimp only at h
            rw [if_pos rfl] at h
            try dsimp only at h
            rw [hcf] at h
            try dsimp only at h
            rw [← Except.ok.inj h]
            rw [← hcf]
            -- the push append satisfies the invariant
            have hInvP : AsmInv (appendBody ({ st with
                codeInstrs := st.codeInstrs ++ [pushZeroInstr st.codeSize],
                codeSize := st.codeSize + 10 } : AsmState) fidx
                st.codeInstrs.length) := by
              refine asmInv_code_append _ fidx _ (pushZeroInstr st.codeSize)
                f hgf ?_ ?_ ?_ ?_ ?_ ?_
              · exact List.get?_concat_length _ _
              · show st.codeInstrs.length + 1 =
                  (st.codeInstrs ++ [pushZeroInstr st.codeSize]).length
                rw [List.length_append]
                rfl
              · intro hcr _
                exact absurd hcr (by simp [pushZeroInstr])
              · exact fun g hg k hk => hBR g hg k hk
              · exact @voidRetProp_extend _ st [pushZeroInstr st.codeSize]
                  rfl rfl hBR hVR
              · refine lnInv_mono ?_ ?_ ?_ ?_ ?_ ?_ hLN
                · rfl
                · rfl
                · rfl
                · rfl
                · rfl
                · exact le_rfl
            rw [happ1] at hInvP
            -- the recorded body entry of the current function
            have hfx := appendBody_functions_get? ({ st with
              codeInstrs := st.codeInstrs ++ [pushZeroInstr st.codeSize],
              codeSize := st.codeSize + 10 } : AsmState) fidx
              st.codeInstrs.length fidx
            rw [if_pos rfl, happ1] at hfx
            dsimp only at hfx
            rw [hgf] at hfx
            simp only [Option.map_some'] at hfx
            exact asmInv_ret_after_push _ fidx _ st.codeInstrs st.codeSize
              rfl hfx
              (by
                show (f.body ++ [st.codeInstrs.length]).get?
                  ((f.body ++ [st.codeInstrs.length]).length - 1) = _
                rw [List.length_append]
                rw [show f.body.length + [st.codeInstrs.length].length - 1 =
                  f.body.length from rfl]
                exact List.get?_concat_length _ _)
              hInvP
        · -- non-void: no insertion, the ret is appended alone
          rw [if_neg hvoid] at h
          rw [exceptBind_ok] at h
          try dsimp only at h
          obtain ⟨⟨st3, res2⟩, hon, h⟩ := exceptBind_ok_dest h
          have hon2 : codeOnInstruction st "ret" args >>=
              (fun x => (Except.ok (x.1, some x.2) :
                Except String (AsmState × Option Nat))) =
              Except.ok (st3, res2) := hon
          obtain ⟨⟨stC, iC⟩, hC, hpair⟩ := exceptBind_ok_dest hon2
          have hpair2 : (stC, (some iC : Option Nat)) = (st3, res2) :=
            Except.ok.inj hpair
          injection hpair2 with h31 h32
          subst h31
          subst h32
          obtain ⟨c, sz, hstC, hcop, hcoff, hiC⟩ :=
            codeOnInstruction_spec st "ret" args stC iC hC
          rw [if_pos rfl] at h
          rw [hstC] at h
          try dsimp only at h
          rw [hcf] at h
          try dsimp only at h
          rw [← Except.ok.inj h, ← hcf, ← hstC]
          have hcic : stC.codeInstrs = st.codeInstrs ++ [c] := by rw [hstC]
          have hfunC : stC.functions = st.functions := by rw [hstC]
          have hgfC : stC.functions.get? fidx = some f := by
            rw [hfunC]; exact hgf
          refine asmInv_code_append stC fidx iC c f hgfC ?_ ?_ ?_ ?_ ?_ ?_
          · rw [hcic, hiC]; exact List.get?_concat_length _ _
          · rw [hcic, List.length_append, hiC]
            rfl
          · intro _ hv; exact absurd hv hvoid
          · intro g hg k hk
            rw [hfunC] at hg
            rw [hiC]
            exact hBR g hg k hk
          · exact voidRetProp_extend hfunC hcic hBR hVR
          · refine lnInv_mono ?_ ?_ ?_ ?_ ?_ ?_ hLN
            · rw [hstC]
            · rw [hstC]
            · rw [hstC]
            · rw [hstC]
            · rw [hstC]
            · exact le_of_eq (congrArg List.length hfunC).symm
  · -- not a ret node: the instruction is appended alone
    rw [if_neg hop] at h
    rw [exceptBind_ok] at h
    try dsimp only at h
    obtain ⟨⟨st3, res2⟩, hon, h⟩ := exceptBind_ok_dest h
    have hon2 : codeOnInstruction st opname args >>=
        (fun x => (Except.ok (x.1, some x.2) :
          Except String (AsmState × Option Nat))) =
        Except.ok (st3, res2) := hon
    obtain ⟨⟨stC, iC⟩, hC, hpair⟩ := exceptBind_ok_dest hon2
    have hpair2 : (stC, (some iC : Option Nat)) = (st3, res2) :=
      Except.ok.inj hpair
    injection hpair2 with h31 h32
    subst h31
    subst h32
    obtain ⟨c, sz, hstC, hcop, hcoff, hiC⟩ :=
      codeOnInstruction_spec st opname args stC iC hC
    rw [if_pos rfl] at h
    rw [hstC] at h
    try dsimp only at h
    cases hcf : st.currentFunction with
    | none => rw [hcf] at h; exact absurd h (by simp)
    | some fidx =>
      rw [hcf] at h
      try dsimp only at h
      rw [← Except.ok.inj h, ← hcf, ← hstC]
      have hcic : stC.codeInstrs = st.codeInstrs ++ [c] := by rw [hstC]
      have hfunC : stC.functions = st.functions := by rw [hstC]
      cases hgfC : stC.functions.get? fidx with
      | none =>
        have heq : appendBody stC fidx iC = stC := by
          unfold appendBody
          rw [hgfC]
        rw [heq]
        refine ⟨⟨bodyInRange_extend hfunC hcic hBR,
          voidRetProp_extend hfunC hcic hBR hVR⟩, ?_⟩
        refine lnInv_mono ?_ ?_ ?_ ?_ ?_ ?_ hLN
        · rw [hstC]
        · rw [hstC]
        · rw [hstC]
        · rw [hstC]
        · rw [hstC]
        · exact le_of_eq (congrArg List.length hfunC).symm
      | some fC =>
        refine asmInv_code_append stC fidx iC c fC hgfC ?_ ?_ ?_ ?_ ?_ ?_
        · rw [hcic, hiC]; exact List.get?_concat_length _ _
        · rw [hcic, List.length_append, hiC]
          rfl
        · intro hcr _
          exact absurd (hcop.symm.trans hcr) hop
        · intro g hg k hk
          rw [hfunC] at hg
          rw [hiC]
          exact hBR g hg k hk
        · exact voidRetProp_extend hfunC hcic hBR hVR
        · refine lnInv_mono ?_ ?_ ?_ ?_ ?_ ?_ hLN
          · rw [hstC]
          · rw [hstC]
          · rw [hstC]
          · rw [hstC]
          · rw [hstC]
          · exact le_of_eq (congrArg List.length hfunC).symm


theorem asmInv_funcDef_final (st st3 st4 : AsmState) (sec : SectionName)
    (fname0 : String) (fnew : AFunc) (idx : Nat)
    (hidx : idx = st.functions.length)
    (hb0 : fnew.body = [])
    (hAdd : lmAdd st3 fname0 (LMEntry.func idx) = Except.ok st4)
    (hf3 : st3.functions = st.functions ++ [fnew])
    (hc3 : st3.codeInstrs = st.codeInstrs)
    (hm3 : st3.labelMan = st.labelMan)
    (ht3 : st3.typesLabelNames = st.typesLabelNames)
    (hd3 : st3.dataLabelNames = st.dataLabelNames)
    (hcl3 : st3.codeLabelNames = st.codeLabelNames)
    (hi3 : st3.importsLabelNames = st.importsLabelNames)
    (hI : AsmInv st) :
    AsmInv (addSectionLabelName st4 sec fname0) := by
  obtain ⟨⟨hBR, hVR⟩, hLN⟩ := hI
  obtain ⟨hfresh, hst4⟩ := lmAdd_spec _ _ _ _ hAdd
  obtain ⟨hfr1, hfr2, hfr3, _⟩ := addSectionLabelName_frame st4 sec fname0
  obtain ⟨hl1, hl2, hl3, hl4⟩ := addSectionLabelName_lists st4 sec fname0
  have hfuns : (addSectionLabelName st4 sec fname0).functions =
      st.functions ++ [fnew] := by
    rw [hfr1, hst4]
    exact hf3
  have hcis : (addSectionLabelName st4 sec fname0).codeInstrs =
      st.codeInstrs := by
    rw [hfr2, hst4]
    exact hc3
  have hra : ∀ k, retAt (addSectionLabelName st4 sec fname0) k = retAt st k := by
    intro k; unfold retAt; rw [hcis]
  have hpa : ∀ k, pushZeroAt (addSectionLabelName st4 sec fname0) k =
      pushZeroAt st k := by
    intro k; unfold pushZeroAt; rw [hcis]
  refine ⟨⟨?_, ?_⟩, ?_⟩
  · intro g hg k hk
    rw [hcis]
    rw [hfuns] at hg
    rcases List.mem_append.mp hg with hg1 | hg2
    · exact hBR g hg1 k hk
    · rw [List.mem_singleton.mp hg2, hb0] at hk
      exact absurd hk (List.not_mem_nil k)
  · intro g hg hret p hp hr
    rw [hfuns] at hg
    rw [hra] at hr
    rcases List.mem_append.mp hg with hg1 | hg2
    · obtain ⟨h1, h2, h3, h4⟩ := hVR g hg1 hret p hp hr
      exact ⟨h1, h2, h3, by rw [hpa]; exact h4⟩
    · rw [List.mem_singleton.mp hg2, hb0] at hp
      simp at hp
  · have hLN3 : LabelNamesInv st3 :=
      lnInv_mono hm3 ht3 hd3 hcl3 hi3
        (by rw [hf3, List.length_append]; exact Nat.le_add_right _ _) hLN
    have hm0 : (addSectionLabelName st4 sec fname0).labelMan =
        st3.labelMan ++ [(fname0, LMEntry.func idx)] := by
      rw [hfr3, hst4]
    refine lnInv_extend sec hfresh hm0 ?_ ?_ ?_ ?_ ?_ ?_ ?_ hLN3
    · rw [hl1, hst4]
    · rw [hl2, hst4]
    · rw [hl3, hst4]
    · rw [hl4, hst4]
    · show idx < (addSectionLabelName st4 sec fname0).functions.length
      rw [hfuns, List.length_append, hidx]
      exact Nat.lt_succ_self _
    · exact le_of_eq (show st3.functions.length =
        (addSectionLabelName st4 sec fname0).functions.length by
          rw [hf3, hfuns])
    · intro p hp hps heq
      rw [hm3] at hp
      obtain ⟨_, _, _, _, _, _, _, _, _, _, _, fb, _⟩ := hLN
      have hfb := fb p hp
      cases hpe : p.2 with
      | func j =>
        rw [hpe] at hfb heq
        have hj : j < st.functions.length := hfb
        have hji : j = idx := by simpa [funcIdx?] using heq
        rw [hji, hidx] at hj
        exact absurd hj (lt_irrefl _)
      | plain o => rw [hpe] at hps; simp [funcIdx?] at hps
      | funcRef o r ps2 nl => rw [hpe] at hps; simp [funcIdx?] at hps

theorem asmInv_step_funcDef (env : FileEnv) (st : AsmState) (fname0 : String)
    (rt : String) (ps : List (String × String)) (mods : List String)
    (st' : AsmState)
    (h : processNode env st (Node.funcDef fname0 rt ps mods) = Except.ok st')
    (hI : AsmInv st) : AsmInv st' := by
  unfold processNode at h
  dsimp only at h
  obtain ⟨rty, hrty, h⟩ := exceptBind_ok_dest h
  obtain ⟨ptys, hptys, h⟩ := exceptBind_ok_dest h
  try dsimp only at h
  by_cases hexp : "export" ∈ mods
  · rw [if_pos hexp] at h
    split at h
    · rw [exceptBind_err] at h
      exact absurd h (by simp)
    · rw [exceptBind_ok] at h
      try dsimp only at h
      cases hcs : st.currentSection with
      | none => rw [hcs] at h; exact absurd h (by simp)
      | some sec =>
        rw [hcs] at h
        try dsimp only at h
        by_cases hsz : isSized sec = true
        · rw [if_pos hsz] at h
          obtain ⟨st4, hAdd, h⟩ := exceptBind_ok_dest h
          rw [← Except.ok.inj h]
          exact asmInv_funcDef_final st _ st4 sec fname0
            { fname := fname0, offset := st.codeSize, returnType := rty,
              params := ptys, locals := [], modifiers := mods, body := [] }
            st.functions.length rfl rfl hAdd rfl rfl rfl rfl rfl rfl rfl hI
        · rw [if_neg hsz] at h
          exact absurd h (by simp)
  · rw [if_neg hexp] at h
    rw [exceptBind_ok] at h
    try dsimp only at h
    cases hcs : st.currentSection with
    | none => rw [hcs] at h; exact absurd h (by simp)
    | some sec =>
      rw [hcs] at h
      try dsimp only at h
      by_cases hsz : isSized sec = true
      · rw [if_pos hsz] at h
        obtain ⟨st4, hAdd, h⟩ := exceptBind_ok_dest h
        rw [← Except.ok.inj h]
        exact asmInv_funcDef_final st _ st4 sec fname0
          { fname := fname0, offset := st.codeSize, returnType := rty,
            params := ptys, locals := [], modifiers := mods, body := [] }
          st.functions.length rfl rfl hAdd rfl rfl rfl rfl rfl rfl rfl hI
      · rw [if_neg hsz] at h
        exact absurd h (by simp)


theorem asmInv_step (env : FileEnv) (st : AsmState) (n : Node)
    (st' : AsmState) (h : processNode env st n = Except.ok st')
    (hI : AsmInv st) : AsmInv st' := by
  rcases n with sname | ⟨opname, args⟩ | ⟨vname, tname⟩ |
    ⟨fname0, rt, ps, mods⟩ | ⟨tdname, mods⟩ | lname
  · exact asmInv_step_section env st sname st' h hI
  · cases hcs : st.currentSection with
    | none =>
      unfold processNode at h
      dsimp only at h
      rw [hcs] at h
      try dsimp only at h
      rw [← Except.ok.inj h]
      exact hI
    | some sec =>
      cases sec with
      | code => exact asmInv_step_inst_code env st opname args st' hcs h hI
      | data =>
        refine asmInv_step_inst_noncode env st SectionName.data opname args
          st' (by decide)
          (Or.inr ⟨"Invalid instruction in data section", rfl⟩) ?_ hcs h hI
        intro st1 stM r hm
        have hm2 : dataOnInstruction st1 opname args >>=
            (fun x => (Except.ok (x, none) :
              Except String (AsmState × Option Nat))) =
            Except.ok (stM, r) := hm
        obtain ⟨stD, hD, hp⟩ := exceptBind_ok_dest hm2
        have hp2 : (stD, (none : Option Nat)) = (stM, r) := Except.ok.inj hp
        injection hp2 with hp21 hp22
        subst hp21
        obtain ⟨bs, hsh⟩ := dataOnInstruction_frame _ _ _ _ hD
        rw [hsh]
        exact ⟨rfl, rfl, rfl, rfl, rfl, Or.inl ⟨rfl, rfl⟩⟩
      | types =>
        refine asmInv_step_inst_noncode env st SectionName.types opname args
          st' (by decide)
          (Or.inr ⟨"Unknown instruction in types section", rfl⟩) ?_ hcs h hI
        intro st1 stM r hm
        have hm2 : typesOnInstruction st1 opname args >>=
            (fun x => (Except.ok (x, none) :
              Except String (AsmState × Option Nat))) =
            Except.ok (stM, r) := hm
        obtain ⟨stD, hD, hp⟩ := exceptBind_ok_dest hm2
        have hp2 : (stD, (none : Option Nat)) = (stM, r) := Except.ok.inj hp
        injection hp2 with hp21 hp22
        subst hp21
        obtain ⟨tds, tsz, hsh⟩ := typesOnInstruction_frame _ _ _ _ hD
        rw [hsh]
        exact ⟨rfl, rfl, rfl, rfl, rfl, Or.inl ⟨rfl, rfl⟩⟩
      | config =>
        refine asmInv_step_inst_noncode env st SectionName.config opname args
          st' (by decide)
          (Or.inr ⟨"No option was found", rfl⟩) ?_ hcs h hI
        intro st1 stM r hm
        have hm2 : configOnInstruction st1 opname args >>=
            (fun x => (Except.ok (x, none) :
              Except String (AsmState × Option Nat))) =
            Except.ok (stM, r) := hm
        obtain ⟨stD, hD, hp⟩ := exceptBind_ok_dest hm2
        have hp2 : (stD, (none : Option Nat)) = (stM, r) := Except.ok.inj hp
        injection hp2 with hp21 hp22
        subst hp21
        obtain ⟨cv, hsh⟩ := configOnInstruction_frame _ _ _ _ hD
        rw [hsh]
        exact ⟨rfl, rfl, rfl, rfl, rfl, Or.inl ⟨rfl, rfl⟩⟩
      | imports =>
        refine asmInv_step_inst_noncode env st SectionName.imports opname args
          st' (by decide) (Or.inl rfl) ?_ hcs h hI
        intro st1 stM r hm
        have hm2 : importsOnInstruction env st1 opname args >>=
            (fun x => (Except.ok (x, none) :
              Except String (AsmState × Option Nat))) =
            Except.ok (stM, r) := hm
        obtain ⟨stD, hD, hp⟩ := exceptBind_ok_dest hm2
        have hp2 : (stD, (none : Option Nat)) = (stM, r) := Except.ok.inj hp
        injection hp2 with hp21 hp22
        subst hp21
        obtain ⟨f1, f2, f3, f4, f5, _, _, fd⟩ :=
          importsOnInstruction_frame env st1 opname args stD hD
        exact ⟨f1, f2, f3, f4, f5, fd⟩
      | exports =>
        unfold processNode at h
        dsimp only at h
        rw [hcs] at h
        dsimp only at h
        by_cases hop : opname = "ret"
        · rw [if_pos hop] at h
          cases hcf : st.currentFunction with
          | none =>
            rw [hcf] at h
            dsimp only at h
            rw [exceptBind_err] at h
            exact absurd h (by simp)
          | some fidx =>
            rw [hcf] at h
            dsimp only at h
            cases hgf : st.functions.get? fidx with
            | none =>
              rw [hgf] at h
              dsimp only at h
              rw [exceptBind_err] at h
              exact absurd h (by simp)
            | some f =>
              rw [hgf] at h
              dsimp only at h
              by_cases hvoid : f.returnType = ATy.base BinTy.void
              · rw [if_pos hvoid] at h
                rw [show onInstruction env st SectionName.exports "push"
                    pushZeroArgs =
                  Except.error "Can't manually export a function" from rfl] at h
                rw [exceptBind_err] at h
                exact absurd h (by simp)
              · rw [if_neg hvoid] at h
                rw [exceptBind_ok] at h
                try dsimp only at h
                rw [show onInstruction env st SectionName.exports opname args =
                  Except.error "Can't manually export a function" from rfl] at h
                rw [exceptBind_err] at h
                exact absurd h (by simp)
        · rw [if_neg hop] at h
          rw [exceptBind_ok] at h
          try dsimp only at h
          rw [show onInstruction env st SectionName.exports opname args =
            Except.error "Can't manually export a function" from rfl] at h
          rw [exceptBind_err] at h
          exact absurd h (by simp)
  · exact asmInv_step_varDef env st vname tname st' h hI
  · exact asmInv_step_funcDef env st fname0 rt ps mods st' h hI
  · exact asmInv_step_typeDef env st tdname mods st' h hI
  · exact asmInv_step_label env st lname st' h hI

theorem processNodes_inv (env : FileEnv) :
    ∀ (ns : List Node) (st st' : AsmState),
    processNodes env ns st = Except.ok st' → AsmInv st → AsmInv st' := by
  intro ns
  induction ns with
  | nil =>
    intro st st' h hI
    rw [show processNodes env [] st = Except.ok st from rfl] at h
    rw [← Except.ok.inj h]
    exact hI
  | cons n rest ih =>
    intro st st' h hI
    rw [show processNodes env (n :: rest) st =
      processNode env st n >>= (fun st2 => processNodes env rest st2)
      from rfl] at h
    obtain ⟨st2, h1, h2⟩ := exceptBind_ok_dest h
    exact ih st2 st' h2 (asmInv_step env st n st2 h1 hI)

theorem asmInv_init : AsmInv initState := by
  refine ⟨⟨?_, ?_⟩, ?_⟩
  · intro f hf k hk
    exact absurd hf (List.not_mem_nil f)
  · intro f hf
    exact absurd hf (List.not_mem_nil f)
  · decide


/-! ### The relocation pass only shifts offsets -/

theorem appendBody_codeInstrs (st : AsmState) (fidx i : Nat) :
    (appendBody st fidx i).codeInstrs = st.codeInstrs := by
  unfold appendBody
  cases st.functions.get? fidx <;> rfl

theorem recalcNames_functions_shape (st : AsmState) (names : List String)
    (off : Int) (j : Nat) :
    ((recalcNames st names off).functions.get? j).map funcShape =
      (st.functions.get? j).map funcShape := by
  show ((st.functions.enum.map _).get? j).map funcShape = _
  rw [List.get?_map, List.get?_enum]
  cases hg : st.functions.get? j with
  | none => rfl
  | some f =>
    dsimp only [Option.map]
    by_cases hmem : j ∈ recalcFidxs st.labelMan names
    · rw [if_pos hmem]
      rfl
    · rw [if_neg hmem]

theorem recalcNames_functions_length (st : AsmState) (names : List String)
    (off : Int) :
    (recalcNames st names off).functions.length = st.functions.length := by
  show (st.functions.enum.map _).length = _
  rw [List.length_map, List.enum_length]

theorem recalcCode_codeInstrs_shape (st : AsmState) (off : Int) (k : Nat) :
    ((recalcCode st off).codeInstrs.get? k).map instrShape =
      (st.codeInstrs.get? k).map instrShape := by
  show ((st.codeInstrs.map _).get? k).map instrShape = _
  rw [List.get?_map]
  cases st.codeInstrs.get? k <;> rfl

theorem recalcCode_codeInstrs_length (st : AsmState) (off : Int) :
    (recalcCode st off).codeInstrs.length = st.codeInstrs.length := by
  show (st.codeInstrs.map _).length = _
  rw [List.length_map]

theorem relocate_shape (st st4 : AsmState) (h : relocate st = Except.ok st4) :
    (∀ j, (st4.functions.get? j).map funcShape =
      (st.functions.get? j).map funcShape) ∧
    (∀ k, (st4.codeInstrs.get? k).map instrShape =
      (st.codeInstrs.get? k).map instrShape) ∧
    st4.codeInstrs.length = st.codeInstrs.length := by
  unfold relocate at h
  obtain ⟨cfg, hcfg, h⟩ := exceptBind_ok_dest h
  try dsimp only at h
  obtain ⟨ex, hex, h⟩ := exceptBind_ok_dest h
  rw [← Except.ok.inj h]
  refine ⟨?_, ?_, ?_⟩
  · intro j
    exact (recalcNames_functions_shape _ _ _ j).trans
      ((recalcNames_functions_shape _ _ _ j).trans
        ((recalcNames_functions_shape _ _ _ j).trans
          (recalcNames_functions_shape _ _ _ j)))
  · intro k
    exact recalcCode_codeInstrs_shape _ _ k
  · exact recalcCode_codeInstrs_length _ _


/-- C6: In every state the assembler can reach from an empty state — and
still after the relocation pass — every ret instruction recorded in the
body of a function whose return type is void is immediately preceded, both
in the function's recorded body and in the code section's instruction
list, by the assembler's automatically inserted push with the int-literal
argument 0; and processing a ret inside a non-void function in the code
section appends exactly the one ret instruction, with nothing inserted. -/
theorem void_ret_push_zero :
    (∀ (env : FileEnv) (nodes : List Node) (st : AsmState),
      processNodes env nodes initState = Except.ok st → VoidRetProp st) ∧
    (∀ (env : FileEnv) (nodes : List Node) (st st2 : AsmState),
      processNodes env nodes initState = Except.ok st →
      relocate st = Except.ok st2 → VoidRetProp st2) ∧
    (∀ (env : FileEnv) (st : AsmState) (args : List NArg) (fidx : Nat)
      (f : AFunc) (st2 : AsmState),
      st.currentSection = some SectionName.code →
      st.currentFunction = some fidx →
      st.functions.get? fidx = some f →
      f.returnType ≠ ATy.base BinTy.void →
      processNode env st (Node.instruction "ret" args) = Except.ok st2 →
      st2.codeInstrs = st.codeInstrs ++ [retInstr st.codeSize]) := by
  refine ⟨?_, ?_, ?_⟩
  · intro env nodes st h
    exact (processNodes_inv env nodes initState st h asmInv_init).1.2
  · intro env nodes st st2 h hrel
    have hinv := processNodes_inv env nodes initState st h asmInv_init
    obtain ⟨hsf, hsc, hlen⟩ := relocate_shape st st2 hrel
    exact voidRetProp_shape hsf hsc hinv.1.2
  · intro env st args fidx f st2 hcs hcf hgf hnv h
    unfold processNode at h
    dsimp only at h
    rw [hcs] at h
    dsimp only at h
    rw [if_pos rfl] at h
    rw [hcf] at h
    dsimp only at h
    rw [hgf] at h
    dsimp only at h
    rw [if_neg hnv] at h
    rw [exceptBind_ok] at h
    try dsimp only at h
    obtain ⟨⟨st3, res2⟩, hon, h2⟩ := exceptBind_ok_dest h
    clear h
    have hon2 : codeOnInstruction st "ret" args >>=
        (fun x => (Except.ok (x.1, some x.2) :
          Except String (AsmState × Option Nat))) =
        Except.ok (st3, res2) := hon
    obtain ⟨⟨stC, iC⟩, hC, hpair⟩ := exceptBind_ok_dest hon2
    have hpair2 : (stC, (some iC : Option Nat)) = (st3, res2) :=
      Except.ok.inj hpair
    injection hpair2 with h31 h32
    subst h31
    subst h32
    cases args with
    | cons a rest =>
      rw [show codeOnInstruction st "ret" (a :: rest) =
        Except.error "wrong number of arguments" from rfl] at hC
      exact absurd hC (by simp)
    | nil =>
      rw [codeOnInstruction_ret] at hC
      have hCe := Except.ok.inj hC
      injection hCe with hc1 hc2
      rw [if_pos rfl] at h2
      rw [← hc1] at h2
      dsimp only at h2
      rw [hcf] at h2
      dsimp only at h2
      rw [← Except.ok.inj h2, appendBody_codeInstrs]

/-- Witness for C6 at a concrete program: two void functions whose rets
each get the implicit push 0 (checked via VoidRetProp before and after
relocation), and a ret in a non-void function appended without any
insertion. -/
theorem void_ret_push_zero_witness :
    (processNodes demoEnv demoNodes initState = Except.ok demoSt ∧
      VoidRetProp demoSt) ∧
    (relocate demoSt = Except.ok demoReloc ∧ VoidRetProp demoReloc) ∧
    (processNode demoEnv demoStNv (Node.instruction "ret" []) =
        Except.ok demoStNv2 ∧
      demoStNv2.codeInstrs = demoStNv.codeInstrs ++
        [retInstr demoStNv.codeSize]) :=
  ⟨⟨by decide, void_ret_push_zero.1 demoEnv demoNodes demoSt (by decide)⟩,
   ⟨by decide, void_ret_push_zero.2.1 demoEnv demoNodes demoSt demoReloc
      (by decide) (by decide)⟩,
   ⟨by decide, void_ret_push_zero.2.2 demoEnv demoStNv [] 0 demoFuncC
      demoStNv2 (by decide) (by decide) (by decide) (by decide)
      (by decide)⟩⟩


/-! ### How the relocation pass moves labels -/

theorem lmGet_recalcNames (st : AsmState) (names : List String) (off : Int)
    (nm : String) :
    lmGet (recalcNames st names off) nm =
      (lmGet st nm).map
        (fun e => if nm ∈ names then shiftEntry off e else e) := by
  unfold lmGet
  show (match (st.labelMan.map (fun p =>
      if p.1 ∈ names then (p.1, shiftEntry off p.2) else p)).find?
      (fun p => p.1 = nm) with
    | some p => some p.2
    | none => none) = _
  rw [List.find?_map]
  have hpred : ((fun p => decide (p.1 = nm)) ∘
      (fun p : String × LMEntry =>
        if p.1 ∈ names then (p.1, shiftEntry off p.2) else p)) =
      (fun p : String × LMEntry => decide (p.1 = nm)) := by
    funext p
    by_cases hp : p.1 ∈ names
    · simp [hp]
    · simp [hp]
  rw [hpred]
  cases hf : st.labelMan.find? (fun p => decide (p.1 = nm)) with
  | none => rfl
  | some p =>
    have hkey : p.1 = nm := by simpa using List.find?_some hf
    dsimp only [Option.map]
    by_cases hmem : nm ∈ names
    · rw [hkey]
      simp [hmem]
    · rw [hkey]
      simp [hmem]

theorem recalcNames_labelMan_funcMem (st : AsmState) (names : List String)
    (off : Int) (nm : String) (i : Nat) :
    (nm, LMEntry.func i) ∈ (recalcNames st names off).labelMan ↔
      (nm, LMEntry.func i) ∈ st.labelMan := by
  show (nm, LMEntry.func i) ∈ st.labelMan.map _ ↔ _
  constructor
  · intro hmem
    obtain ⟨p, hp, hpe⟩ := List.mem_map.mp hmem
    by_cases hin : p.1 ∈ names
    · rw [if_pos hin] at hpe
      have h1 : p.1 = nm := congrArg Prod.fst hpe
      have h2 : shiftEntry off p.2 = LMEntry.func i := congrArg Prod.snd hpe
      cases hpz : p.2 with
      | plain o => rw [hpz] at h2; exact absurd h2 (by simp [shiftEntry])
      | funcRef o r ps nl =>
        rw [hpz] at h2; exact absurd h2 (by simp [shiftEntry])
      | func j =>
        rw [hpz] at h2
        have : j = i := by simpa [shiftEntry] using h2
        have hpeq : p = (nm, LMEntry.func i) := by
          rw [← h1, ← this, ← hpz]
        rw [← hpeq]
        exact hp
    · rw [if_neg hin] at hpe
      rw [← hpe]
      exact hp
  · intro hmem
    refine List.mem_map.mpr ⟨(nm, LMEntry.func i), hmem, ?_⟩
    by_cases hin : nm ∈ names
    · show (if (nm, LMEntry.func i).1 ∈ names then _ else _) = _
      rw [if_pos hin]
      rfl
    · show (if (nm, LMEntry.func i).1 ∈ names then _ else _) = _
      rw [if_neg hin]

theorem mem_recalcFidxs (lm : List (String × LMEntry)) (names : List String)
    (i : Nat) :
    i ∈ recalcFidxs lm names ↔
      ∃ nm, (nm, LMEntry.func i) ∈ lm ∧ nm ∈ names := by
  unfold recalcFidxs
  rw [List.mem_filterMap]
  constructor
  · rintro ⟨p, hp, hpe⟩
    by_cases hin : p.1 ∈ names
    · rw [if_pos hin] at hpe
      cases hpz : p.2 with
      | plain o => rw [hpz] at hpe; exact absurd hpe (by simp)
      | funcRef o r ps nl => rw [hpz] at hpe; exact absurd hpe (by simp)
      | func j =>
        rw [hpz] at hpe
        have hj : j = i := by simpa using hpe
        refine ⟨p.1, ?_, hin⟩
        have : p = (p.1, LMEntry.func i) := by
          rw [← hj, ← hpz]
        rw [← this]
        exact hp
    · rw [if_neg hin] at hpe
      exact absurd hpe (by simp)
  · rintro ⟨nm, hmem, hin⟩
    refine ⟨(nm, LMEntry.func i), hmem, ?_⟩
    show (if (nm, LMEntry.func i).1 ∈ names then _ else _) = _
    rw [if_pos hin]

theorem recalcNames_functions_get? (st : AsmState) (names : List String)
    (off : Int) (j : Nat) :
    (recalcNames st names off).functions.get? j =
      (st.functions.get? j).map
        (fun f => if j ∈ recalcFidxs st.labelMan names then
          { f with offset := f.offset + off } else f) := by
  show (st.functions.enum.map _).get? j = _
  rw [List.get?_map, List.get?_enum]
  cases hg : st.functions.get? j with
  | none => rfl
  | some f => rfl


theorem lmGet_mem (st : AsmState) (nm : String) (e : LMEntry)
    (h : lmGet st nm = some e) : (nm, e) ∈ st.labelMan := by
  unfold lmGet at h
  cases hf : st.labelMan.find? (fun p => p.1 = nm) with
  | none => rw [hf] at h; exact absurd h (by simp)
  | some p =>
    rw [hf] at h
    have hkey : p.1 = nm := by simpa using List.find?_some hf
    have hval : p.2 = e := by simpa using h
    have hpm := List.mem_of_find?_eq_some hf
    have : p = (nm, e) := by
      rw [← hkey, ← hval]
    rw [← this]
    exact hpm

theorem recalcNames_skip (st : AsmState) (names : List String) (off : Int)
    (nm : String) (e : LMEntry)
    (hget : lmGet st nm = some e)
    (hnm : nm ∉ names)
    (hno : ∀ j, funcIdx? e = some j → j ∉ recalcFidxs st.labelMan names) :
    lmGet (recalcNames st names off) nm = some e ∧
    lmOffset (recalcNames st names off) e = lmOffset st e := by
  constructor
  · rw [lmGet_recalcNames, hget]
    simp [hnm]
  · cases he : e with
    | plain o => rfl
    | funcRef o r ps nl => rfl
    | func j =>
      have hnoj : j ∉ recalcFidxs st.labelMan names := by
        refine hno j ?_
        rw [he]
        rfl
      show (match (recalcNames st names off).functions.get? j with
        | some f => f.offset
        | none => 0) = (match st.functions.get? j with
        | some f => f.offset
        | none => 0)
      rw [recalcNames_functions_get?]
      cases st.functions.get? j with
      | none => rfl
      | some f =>
        dsimp only [Option.map]
        rw [if_neg hnoj]

theorem recalcNames_shift (st : AsmState) (names : List String) (off : Int)
    (nm : String) (e : LMEntry)
    (hget : lmGet st nm = some e)
    (hnm : nm ∈ names)
    (hfx : ∀ j, funcIdx? e = some j → j ∈ recalcFidxs st.labelMan names)
    (hbd : ∀ j, funcIdx? e = some j → j < st.functions.length) :
    lmGet (recalcNames st names off) nm = some (shiftEntry off e) ∧
    lmOffset (recalcNames st names off) (shiftEntry off e) =
      lmOffset st e + off := by
  constructor
  · rw [lmGet_recalcNames, hget]
    simp [hnm]
  · cases he : e with
    | plain o => rfl
    | funcRef o r ps nl => rfl
    | func j =>
      have hj : j ∈ recalcFidxs st.labelMan names := by
        refine hfx j ?_
        rw [he]
        rfl
      have hjl : j < st.functions.length := by
        refine hbd j ?_
        rw [he]
        rfl
      show (match (recalcNames st names off).functions.get? j with
        | some f => f.offset
        | none => 0) = (match st.functions.get? j with
        | some f => f.offset
        | none => 0) + off
      rw [recalcNames_functions_get?]
      cases hgj : st.functions.get? j with
      | none =>
        rw [List.get?_eq_none] at hgj
        omega
      | some f =>
        dsimp only [Option.map]
        rw [if_pos hj]


theorem funcIdx?_shiftEntry (off : Int) (e : LMEntry) :
    funcIdx? (shiftEntry off e) = funcIdx? e := by
  cases e <;> rfl

theorem relocate_dest (st st4 : AsmState) (h : relocate st = Except.ok st4) :
    ∃ cfg, configToBytes st = Except.ok cfg ∧
      st4 = relocStages st ((cfg.length : Int)) := by
  unfold relocate at h
  obtain ⟨cfg, hcfg, h⟩ := exceptBind_ok_dest h
  try dsimp only at h
  obtain ⟨ex, hex, h⟩ := exceptBind_ok_dest h
  exact ⟨cfg, hcfg, (Except.ok.inj h).symm⟩

theorem relocStages_code_label (st : AsmState) (off1 : Int) (nm : String)
    (hLN : LabelNamesInv st) (hmem : nm ∈ st.codeLabelNames) :
    (lmGet st nm).isSome ∧
    (lmGet (relocStages st off1) nm).map (lmOffset (relocStages st off1)) =
      (lmGet st nm).map (fun e => lmOffset st e +
        (off1 + st.typesSize + (st.dataBytes.length : Int))) := by
  obtain ⟨k, t, d, c, i2, td, tc, ti, dc, di, ci, fb, inj⟩ := hLN
  have hkeys : nm ∈ st.labelMan.map Prod.fst := c nm hmem
  have hsome : (lmGet st nm).isSome := by
    unfold lmGet
    cases hf : st.labelMan.find? (fun p => p.1 = nm) with
    | none => exact absurd hkeys (find?_key_none hf)
    | some p => rfl
  refine ⟨hsome, ?_⟩
  have hnt : nm ∉ st.typesLabelNames := fun hx => tc nm hx hmem
  have hnd : nm ∉ st.dataLabelNames := fun hx => dc nm hx hmem
  have hni : nm ∉ st.importsLabelNames := ci nm hmem
  cases hget : lmGet st nm with
  | none => rw [hget] at hsome; exact absurd hsome (by simp)
  | some e =>
    have hmemE : (nm, e) ∈ st.labelMan := lmGet_mem st nm e hget
    have heF : ∀ j, funcIdx? e = some j → e = LMEntry.func j := by
      intro j hj
      cases hc : e with
      | plain o => rw [hc] at hj; exact absurd hj (by simp [funcIdx?])
      | funcRef o r ps nl => rw [hc] at hj; exact absurd hj (by simp [funcIdx?])
      | func j2 =>
        rw [hc] at hj
        have hj2 : j2 = j := by simpa [funcIdx?] using hj
        rw [hj2]
    have huniq : ∀ nm' j, funcIdx? e = some j →
        (nm', LMEntry.func j) ∈ st.labelMan → nm' = nm := by
      intro nm' j hj hmem'
      refine inj (nm', LMEntry.func j) hmem' (nm, e) hmemE
        (by simp [funcIdx?]) ?_
      rw [heF j hj]
    have hbdE : ∀ j, funcIdx? e = some j → j < st.functions.length := by
      intro j hj
      have hfb := fb (nm, e) hmemE
      rw [heF j hj] at hfb
      exact hfb
    unfold relocStages
    dsimp only
    set S1 := recalcTypes st off1
    set S2 := recalcNames S1 S1.dataLabelNames (off1 + S1.typesSize)
    set S3 := recalcCode S2
      (off1 + S1.typesSize + (S2.dataBytes.length : Int))
    -- stage 1: the types pass leaves the label alone
    have hno1 : ∀ j, funcIdx? e = some j →
        j ∉ recalcFidxs st.labelMan st.typesLabelNames := by
      intro j hj hin
      obtain ⟨nm', hmem', hin'⟩ := (mem_recalcFidxs _ _ _).mp hin
      rw [huniq nm' j hj hmem'] at hin'
      exact hnt hin'
    obtain ⟨hg1, ho1⟩ :=
      recalcNames_skip st st.typesLabelNames off1 nm e hget hnt hno1
    have hg1' : lmGet S1 nm = some e := hg1
    have ho1' : lmOffset S1 e = lmOffset st e := ho1
    -- stage 2: the data pass leaves it alone
    have hnd1 : nm ∉ S1.dataLabelNames := hnd
    have hno2 : ∀ j, funcIdx? e = some j →
        j ∉ recalcFidxs S1.labelMan S1.dataLabelNames := by
      intro j hj hin
      obtain ⟨nm', hmem', hin'⟩ := (mem_recalcFidxs _ _ _).mp hin
      have hmem'' : (nm', LMEntry.func j) ∈ st.labelMan :=
        (recalcNames_labelMan_funcMem st st.typesLabelNames off1 nm' j).mp
          hmem'
      rw [huniq nm' j hj hmem''] at hin'
      exact hnd hin'
    obtain ⟨hg2, ho2⟩ := recalcNames_skip S1 S1.dataLabelNames
      (off1 + S1.typesSize) nm e hg1' hnd1 hno2
    -- stage 3: the code pass shifts it
    have hmm3 : nm ∈ S2.codeLabelNames := hmem
    have hfx3 : ∀ j, funcIdx? e = some j →
        j ∈ recalcFidxs S2.labelMan S2.codeLabelNames := by
      intro j hj
      refine (mem_recalcFidxs _ _ _).mpr ⟨nm, ?_, hmm3⟩
      refine (recalcNames_labelMan_funcMem S1 S1.dataLabelNames
        (off1 + S1.typesSize) nm j).mpr ?_
      refine (recalcNames_labelMan_funcMem st st.typesLabelNames off1
        nm j).mpr ?_
      rw [← heF j hj]
      exact hmemE
    have hbd3 : ∀ j, funcIdx? e = some j → j < S2.functions.length := by
      intro j hj
      have hj1 := hbdE j hj
      have hlen : S2.functions.length = st.functions.length := by
        rw [recalcNames_functions_length]
        exact recalcNames_functions_length st st.typesLabelNames off1
      omega
    obtain ⟨hg3, ho3⟩ := recalcNames_shift S2 S2.codeLabelNames
      (off1 + S1.typesSize + (S2.dataBytes.length : Int)) nm e hg2 hmm3
      hfx3 hbd3
    have hg3' : lmGet S3 nm =
        some (shiftEntry (off1 + S1.typesSize +
          (S2.dataBytes.length : Int)) e) := hg3
    have ho3' : lmOffset S3 (shiftEntry (off1 + S1.typesSize +
        (S2.dataBytes.length : Int)) e) =
        lmOffset S2 e + (off1 + S1.typesSize +
          (S2.dataBytes.length : Int)) := ho3
    -- stage 4: the imports pass leaves it alone
    have hni3 : nm ∉ S3.importsLabelNames := hni
    have hno4 : ∀ j, funcIdx? (shiftEntry (off1 + S1.typesSize +
        (S2.dataBytes.length : Int)) e) = some j →
        j ∉ recalcFidxs S3.labelMan S3.importsLabelNames := by
      intro j hj hin
      rw [funcIdx?_shiftEntry] at hj
      obtain ⟨nm', hmem', hin'⟩ := (mem_recalcFidxs _ _ _).mp hin
      have h3 := (recalcNames_labelMan_funcMem S2 S2.codeLabelNames
        (off1 + S1.typesSize + (S2.dataBytes.length : Int)) nm' j).mp hmem'
      have h2 := (recalcNames_labelMan_funcMem S1 S1.dataLabelNames
        (off1 + S1.typesSize) nm' j).mp h3
      have hmem'' := (recalcNames_labelMan_funcMem st st.typesLabelNames
        off1 nm' j).mp h2
      rw [huniq nm' j hj hmem''] at hin'
      exact hni hin'
    obtain ⟨hg4, ho4⟩ := recalcNames_skip S3 S3.importsLabelNames
      (off1 + S1.typesSize + (S2.dataBytes.length : Int) + S3.codeSize) nm
      (shiftEntry (off1 + S1.typesSize + (S2.dataBytes.length : Int)) e)
      hg3' hni3 hno4
    rw [hg4, Option.map_some', Option.map_some', ho4, ho3', ho2, ho1']
    rfl


/-! ### Processing steps never change a recorded function offset -/

theorem appendBody_offsets (st : AsmState) (fidx i j : Nat) :
    ((appendBody st fidx i).functions.get? j).map (fun g => g.offset) =
      (st.functions.get? j).map (fun g => g.offset) := by
  rw [appendBody_functions_get?]
  by_cases hj : j = fidx
  · rw [if_pos hj]
    cases st.functions.get? j <;> rfl
  · rw [if_neg hj]

theorem noncode_functions (env : FileEnv) (st : AsmState)
    (sec : SectionName) (opname : String) (args : List NArg)
    (st' : AsmState)
    (hsec : ¬(sec = SectionName.code))
    (hpush : onInstruction env st sec "push" pushZeroArgs =
        Except.ok (st, none) ∨
      ∃ msg, onInstruction env st sec "push" pushZeroArgs = Except.error msg)
    (hmainf : ∀ st1 stM r,
      onInstruction env st1 sec opname args = Except.ok (stM, r) →
      stM.functions = st1.functions)
    (hcs : st.currentSection = some sec)
    (h : processNode env st (Node.instruction opname args) = Except.ok st') :
    st'.functions = st.functions := by
  unfold processNode at h
  dsimp only at h
  rw [hcs] at h
  dsimp only at h
  suffices hcore : ∀ st3 res2,
      onInstruction env st sec opname args = Except.ok (st3, res2) →
      st3 = st' → st'.functions = st.functions by
    by_cases hop : opname = "ret"
    · rw [if_pos hop] at h
      cases hcf : st.currentFunction with
      | none => rw [hcf] at h; dsimp only at h
                rw [exceptBind_err] at h; exact absurd h (by simp)
      | some fidx =>
        rw [hcf] at h
        dsimp only at h
        cases hgf : st.functions.get? fidx with
        | none => rw [hgf] at h; dsimp only at h
                  rw [exceptBind_err] at h; exact absurd h (by simp)
        | some f =>
          rw [hgf] at h
          dsimp only at h
          by_cases hvoid : f.returnType = ATy.base BinTy.void
          · rw [if_pos hvoid] at h
            rcases hpush with hp | ⟨msg, hp⟩
            · rw [hp, exceptBind_ok] at h
              dsimp only at h
              rw [if_neg hsec] at h
              rw [exceptBind_ok] at h
              obtain ⟨⟨st3, res2⟩, hon, h⟩ := exceptBind_ok_dest h
              rw [if_neg hsec] at h
              exact hcore st3 res2 hon (Except.ok.inj h)
            · rw [hp, exceptBind_err] at h
              exact absurd h (by simp)
          · rw [if_neg hvoid] at h
            rw [exceptBind_ok] at h
            obtain ⟨⟨st3, res2⟩, hon, h⟩ := exceptBind_ok_dest h
            rw [if_neg hsec] at h
            exact hcore st3 res2 hon (Except.ok.inj h)
    · rw [if_neg hop] at h
      rw [exceptBind_ok] at h
      obtain ⟨⟨st3, res2⟩, hon, h⟩ := exceptBind_ok_dest h
      rw [if_neg hsec] at h
      exact hcore st3 res2 hon (Except.ok.inj h)
  intro st3 res2 hon hst'
  rw [← hst']
  exact hmainf st st3 res2 hon

theorem processNode_offsets (env : FileEnv) (st : AsmState) (n : Node)
    (st' : AsmState) (h : processNode env st n = Except.ok st') :
    ∀ j, j < st.functions.length →
      (st'.functions.get? j).map (fun g => g.offset) =
      (st.functions.get? j).map (fun g => g.offset) := by
  rcases n with sname | ⟨opname, args⟩ | ⟨vname, tname⟩ |
    ⟨fname0, rt, ps, mods⟩ | ⟨tdname, mods⟩ | lname
  · intro j hj
    unfold processNode at h
    dsimp only at h
    by_cases hnull : sname = "$null"
    · rw [if_pos hnull] at h
      rw [← Except.ok.inj h]
    · rw [if_neg hnull] at h
      cases hs : sectionOfName sname with
      | none => rw [hs] at h; exact absurd h (by simp)
      | some s =>
        rw [hs] at h
        dsimp only at h
        rw [← Except.ok.inj h]
  · cases hcs : st.currentSection with
    | none =>
      intro j hj
      unfold processNode at h
      dsimp only at h
      rw [hcs] at h
      try dsimp only at h
      rw [← Except.ok.inj h]
    | some sec =>
      cases sec with
      | code =>
        unfold processNode at h
        dsimp only at h
        rw [hcs] at h
        dsimp only at h
        by_cases hop : opname = "ret"
        · rw [if_pos hop] at h
          subst hop
          cases hcf : st.currentFunction with
          | none =>
            rw [hcf] at h
            dsimp only at h
            rw [exceptBind_err] at h
            exact absurd h (by simp)
          | some fidx =>
            rw [hcf] at h
            dsimp only at h
            cases hgf : st.functions.get? fidx with
            | none =>
              rw [hgf] at h
              dsimp only at h
              rw [exceptBind_err] at h
              exact absurd h (by simp)
            | some f =>
              rw [hgf] at h
              dsimp only at h
              by_cases hvoid : f.returnType = ATy.base BinTy.void
              · rw [if_pos hvoid] at h
                rw [show onInstruction env st SectionName.code "push"
                    pushZeroArgs =
                  Except.ok (({ st with
                    codeInstrs := st.codeInstrs ++
                      [pushZeroInstr st.codeSize],
                    codeSize := st.codeSize + 10 } : AsmState),
                    some st.codeInstrs.length) from rfl] at h
                rw [exceptBind_ok] at h
                dsimp only at h
                rw [if_pos rfl] at h
                try dsimp only at h
                rw [exceptBind_ok] at h
                try dsimp only at h
                obtain ⟨fns1, happ1, hlen1⟩ := appendBody_frame ({ st with
                  codeInstrs := st.codeInstrs ++ [pushZeroInstr st.codeSize],
                  codeSize := st.codeSize + 10 } : AsmState) fidx
                  st.codeInstrs.length
                rw [happ1] at h
                try dsimp only at h
                cases args with
                | cons a rest =>
                  rw [show onInstruction env ({ ({ st with
                      codeInstrs := st.codeInstrs ++
                        [pushZeroInstr st.codeSize],
                      codeSize := st.codeSize + 10 } : AsmState) with
                      functions := fns1 } : AsmState) SectionName.code "ret"
                      (a :: rest) =
                    Except.error "wrong number of arguments" from rfl] at h
                  rw [exceptBind_err] at h
                  exact absurd h (by simp)
                | nil =>
                  obtain ⟨⟨st3, res2⟩, hon, h2⟩ := exceptBind_ok_dest h
                  clear h
                  have hon2 : codeOnInstruction ({ ({ st with
                      codeInstrs := st.codeInstrs ++
                        [pushZeroInstr st.codeSize],
                      codeSize := st.codeSize + 10 } : AsmState) with
                      functions := fns1 } : AsmState) "ret" [] >>=
                      (fun x => (Except.ok (x.1, some x.2) :
                        Except String (AsmState × Option Nat))) =
                      Except.ok (st3, res2) := hon
                  obtain ⟨⟨stC, iC⟩, hC, hpair⟩ := exceptBind_ok_dest hon2
                  have hpair2 : (stC, (some iC : Option Nat)) = (st3, res2) :=
                    Except.ok.inj hpair
                  injection hpair2 with h31 h32
                  subst h31
                  subst h32
                  rw [codeOnInstruction_ret] at hC
                  have hCe := Except.ok.inj hC
                  injection hCe with hc1 hc2
                  rw [if_pos rfl] at h2
                  rw [← hc1] at h2
                  dsimp only at h2
                  rw [hcf] at h2
                  dsimp only at h2
                  rw [← Except.ok.inj h2]
                  intro j hj
                  rw [appendBody_offsets]
                  have hstep := appendBody_offsets ({ st with
                    codeInstrs := st.codeInstrs ++
                      [pushZeroInstr st.codeSize],
                    codeSize := st.codeSize + 10 } : AsmState) fidx
                    st.codeInstrs.length j
                  rw [happ1] at hstep
                  exact hstep
              · rw [if_neg hvoid] at h
                rw [exceptBind_ok] at h
                try dsimp only at h
                obtain ⟨⟨st3, res2⟩, hon, h2⟩ := exceptBind_ok_dest h
                clear h
                have hon2 : codeOnInstruction st "ret" args >>=
                    (fun x => (Except.ok (x.1, some x.2) :
                      Except String (AsmState × Option Nat))) =
                    Except.ok (st3, res2) := hon
                obtain ⟨⟨stC, iC⟩, hC, hpair⟩ := exceptBind_ok_dest hon2
                have hpair2 : (stC, (some iC : Option Nat)) = (st3, res2) :=
                  Except.ok.inj hpair
                injection hpair2 with h31 h32
                subst h31
                subst h32
                obtain ⟨c, sz, hstC, hcop, hcoff, hiC⟩ :=
                  codeOnInstruction_spec st "ret" args stC iC hC
                rw [if_pos rfl] at h2
                rw [hstC] at h2
                dsimp only at h2
                rw [hcf] at h2
                dsimp only at h2
                rw [← Except.ok.inj h2]
                intro j hj
                rw [appendBody_offsets]
        · rw [if_neg hop] at h
          rw [exceptBind_ok] at h
          try dsimp only at h
          obtain ⟨⟨st3, res2⟩, hon, h2⟩ := exceptBind_ok_dest h
          clear h
          have hon2 : codeOnInstruction st opname args >>=
              (fun x => (Except.ok (x.1, some x.2) :
                Except String (AsmState × Option Nat))) =
              Except.ok (st3, res2) := hon
          obtain ⟨⟨stC, iC⟩, hC, hpair⟩ := exceptBind_ok_dest hon2
          have hpair2 : (stC, (some iC : Option Nat)) = (st3, res2) :=
            Except.ok.inj hpair
          injection hpair2 with h31 h32
          subst h31
          subst h32
          obtain ⟨c, sz, hstC, hcop, hcoff, hiC⟩ :=
            codeOnInstruction_spec st opname args stC iC hC
          rw [if_pos rfl] at h2
          rw [hstC] at h2
          dsimp only at h2
          cases hcf : st.currentFunction with
          | none => rw [hcf] at h2; exact absurd h2 (by simp)
          | some fidx =>
            rw [hcf] at h2
            dsimp only at h2
            rw [← Except.ok.inj h2]
            intro j hj
            rw [appendBody_offsets]
      | data =>
        intro j hj
        rw [noncode_functions env st SectionName.data opname args st'
          (by decide) (Or.inr ⟨"Invalid instruction in data section", rfl⟩)
          ?_ hcs h]
        intro st1 stM r hm
        have hm2 : dataOnInstruction st1 opname args >>=
            (fun x => (Except.ok (x, none) :
              Except String (AsmState × Option Nat))) =
            Except.ok (stM, r) := hm
        obtain ⟨stD, hD, hp⟩ := exceptBind_ok_dest hm2
        have hp2 : (stD, (none : Option Nat)) = (stM, r) := Except.ok.inj hp
        injection hp2 with hp21 hp22
        subst hp21
        obtain ⟨bs, hsh⟩ := dataOnInstruction_frame _ _ _ _ hD
        rw [hsh]
      | types =>
        intro j hj
        rw [noncode_functions env st SectionName.types opname args st'
          (by decide) (Or.inr ⟨"Unknown instruction in types section", rfl⟩)
          ?_ hcs h]
        intro st1 stM r hm
        have hm2 : typesOnInstruction st1 opname args >>=
            (fun x => (Except.ok (x, none) :
              Except String (AsmState × Option Nat))) =
            Except.ok (stM, r) := hm
        obtain ⟨stD, hD, hp⟩ := exceptBind_ok_dest hm2
        have hp2 : (stD, (none : Option Nat)) = (stM, r) := Except.ok.inj hp
        injection hp2 with hp21 hp22
        subst hp21
        obtain ⟨tds, tsz, hsh⟩ := typesOnInstruction_frame _ _ _ _ hD
        rw [hsh]
      | config =>
        intro j hj
        rw [noncode_functions env st SectionName.config opname args st'
          (by decide) (Or.inr ⟨"No option was found", rfl⟩) ?_ hcs h]
        intro st1 stM r hm
        have hm2 : configOnInstruction st1 opname args >>=
            (fun x => (Except.ok (x, none) :
              Except String (AsmState × Option Nat))) =
            Except.ok (stM, r) := hm
        obtain ⟨stD, hD, hp⟩ := exceptBind_ok_dest hm2
        have hp2 : (stD, (none : Option Nat)) = (stM, r) := Except.ok.inj hp
        injection hp2 with hp21 hp22
        subst hp21
        obtain ⟨cv, hsh⟩ := configOnInstruction_frame _ _ _ _ hD
        rw [hsh]
      | imports =>
        intro j hj
        rw [noncode_functions env st SectionName.imports opname args st'
          (by decide) (Or.inl rfl) ?_ hcs h]
        intro st1 stM r hm
        have hm2 : importsOnInstruction env st1 opname args >>=
            (fun x => (Except.ok (x, none) :
              Except String (AsmState × Option Nat))) =
            Except.ok (stM, r) := hm
        obtain ⟨stD, hD, hp⟩ := exceptBind_ok_dest hm2
        have hp2 : (stD, (none : Option Nat)) = (stM, r) := Except.ok.inj hp
        injection hp2 with hp21 hp22
        subst hp21
        obtain ⟨f1, _, _, _, _, _, _, _⟩ :=
          importsOnInstruction_frame env st1 opname args stD hD
        exact f1
      | exports =>
        intro j hj
        unfold processNode at h
        dsimp only at h
        rw [hcs] at h
        dsimp only at h
        by_cases hop : opname = "ret"
        · rw [if_pos hop] at h
          cases hcf : st.currentFunction with
          | none =>
            rw [hcf] at h
            dsimp only at h
            rw [exceptBind_err] at h
            exact absurd h (by simp)
          | some fidx =>
            rw [hcf] at h
            dsimp only at h
            cases hgf : st.functions.get? fidx with
            | none =>
              rw [hgf] at h
              dsimp only at h
              rw [exceptBind_err] at h
              exact absurd h (by simp)
            | some f =>
              rw [hgf] at h
              dsimp only at h
              by_cases hvoid : f.returnType = ATy.base BinTy.void
              · rw [if_pos hvoid] at h
                rw [show onInstruction env st SectionName.exports "push"
                    pushZeroArgs =
                  Except.error "Can't manually export a function" from rfl]
                  at h
                rw [exceptBind_err] at h
                exact absurd h (by simp)
              · rw [if_neg hvoid] at h
                rw [exceptBind_ok] at h
                try dsimp only at h
                rw [show onInstruction env st SectionName.exports opname
                    args =
                  Except.error "Can't manually export a function" from rfl]
                  at h
                rw [exceptBind_err] at h
                exact absurd h (by simp)
        · rw [if_neg hop] at h
          rw [exceptBind_ok] at h
          try dsimp only at h
          rw [show onInstruction env st SectionName.exports opname args =
            Except.error "Can't manually export a function" from rfl] at h
          rw [exceptBind_err] at h
          exact absurd h (by simp)
  · intro j hj
    unfold processNode at h
    dsimp only at h
    cases hcf : st.currentFunction with
    | none => rw [hcf] at h; exact absurd h (by simp)
    | some fidx =>
      rw [hcf] at h
      dsimp only at h
      cases hgf : st.functions.get? fidx with
      | none => rw [hgf] at h; exact absurd h (by simp)
      | some f =>
        rw [hgf] at h
        dsimp only at h
        suffices hfin : ∀ l2 : List AParam,
            ((st.functions.set fidx { f with locals := l2 }).get? j).map
              (fun g => g.offset) =
            (st.functions.get? j).map (fun g => g.offset) by
          cases htt : typeTableGet tname with
          | some b =>
            rw [htt] at h
            dsimp only at h
            rw [exceptBind_ok] at h
            rw [← Except.ok.inj h]
            exact hfin _
          | none =>
            rw [htt] at h
            dsimp only at h
            cases htd : st.typeDefs.find? (fun t => t.tdname = tname) with
            | some td =>
              rw [htd] at h
              dsimp only at h
              rw [exceptBind_ok] at h
              rw [← Except.ok.inj h]
              exact hfin _
            | none =>
              rw [htd] at h
              dsimp only at h
              rw [exceptBind_err] at h
              exact absurd h (by simp)
        intro l2
        by_cases hjf : fidx = j
        · subst hjf
          rw [List.get?_set_eq, hgf]
          rfl
        · rw [List.get?_set_ne _ _ hjf]
  · unfold processNode at h
    dsimp only at h
    obtain ⟨rty, hrty, h⟩ := exceptBind_ok_dest h
    obtain ⟨ptys, hptys, h⟩ := exceptBind_ok_dest h
    try dsimp only at h
    suffices hcont : ∀ (st3 st4 : AsmState) (sec : SectionName),
        lmAdd st3 fname0 (LMEntry.func st.functions.length) =
          Except.ok st4 →
        st3.functions = st.functions ++
          [{ fname := fname0, offset := st.codeSize, returnType := rty,
             params := ptys, locals := [], modifiers := mods, body := [] }] →
        addSectionLabelName st4 sec fname0 = st' →
        ∀ j, j < st.functions.length →
          (st'.functions.get? j).map (fun g => g.offset) =
          (st.functions.get? j).map (fun g => g.offset) by
      by_cases hexp : "export" ∈ mods
      · rw [if_pos hexp] at h
        split at h
        · rw [exceptBind_err] at h
          exact absurd h (by simp)
        · rw [exceptBind_ok] at h
          try dsimp only at h
          cases hcs : st.currentSection with
          | none => rw [hcs] at h; exact absurd h (by simp)
          | some sec =>
            rw [hcs] at h
            try dsimp only at h
            by_cases hsz : isSized sec = true
            · rw [if_pos hsz] at h
              obtain ⟨st4, hAdd, h⟩ := exceptBind_ok_dest h
              exact hcont _ st4 sec hAdd rfl (Except.ok.inj h)
            · rw [if_neg hsz] at h
              exact absurd h (by simp)
      · rw [if_neg hexp] at h
        rw [exceptBind_ok] at h
        try dsimp only at h
        cases hcs : st.currentSection with
        | none => rw [hcs] at h; exact absurd h (by simp)
        | some sec =>
          rw [hcs] at h
          try dsimp only at h
          by_cases hsz : isSized sec = true
          · rw [if_pos hsz] at h
            obtain ⟨st4, hAdd, h⟩ := exceptBind_ok_dest h
            exact hcont _ st4 sec hAdd rfl (Except.ok.inj h)
          · rw [if_neg hsz] at h
            exact absurd h (by simp)
    intro st3 st4 sec hAdd hf3 hst' j hj
    obtain ⟨hfresh, hst4⟩ := lmAdd_spec _ _ _ _ hAdd
    obtain ⟨hfr1, _, _, _⟩ := addSectionLabelName_frame st4 sec fname0
    rw [← hst', hfr1, hst4]
    show (st3.functions.get? j).map _ = _
    rw [hf3, List.get?_append hj]
  · intro j hj
    unfold processNode at h
    dsimp only at h
    split at h
    · exact absurd h (by simp)
    · rw [← Except.ok.inj h]
  · intro j hj
    unfold processNode at h
    dsimp only at h
    cases hcs : st.currentSection with
    | none => rw [hcs] at h; rw [← Except.ok.inj h]
    | some sec =>
      rw [hcs] at h
      dsimp only at h
      by_cases hsz : isSized sec = true
      · rw [if_pos hsz] at h
        obtain ⟨st2, hAdd, h⟩ := exceptBind_ok_dest h
        obtain ⟨hfresh, hst2⟩ := lmAdd_spec _ _ _ _ hAdd
        obtain ⟨hfr1, _, _, _⟩ := addSectionLabelName_frame st2 sec lname
        rw [← Except.ok.inj h, hfr1, hst2]
      · rw [if_neg hsz] at h
        rw [← Except.ok.inj h]


/-! ### Defining a function in the code section records its position -/

theorem processNode_funcDef_code (env : FileEnv) (st : AsmState)
    (fname0 rt : String) (ps : List (String × String)) (mods : List String)
    (st2 : AsmState)
    (hcs : st.currentSection = some SectionName.code)
    (h : processNode env st (Node.funcDef fname0 rt ps mods) =
      Except.ok st2) :
    st2.functions.length = st.functions.length + 1 ∧
    (st2.functions.get? st.functions.length).map
      (fun f => (f.fname, f.offset)) = some (fname0, st.codeSize) ∧
    lmGet st2 fname0 = some (LMEntry.func st.functions.length) ∧
    st2.codeLabelNames = st.codeLabelNames ++ [fname0] := by
  unfold processNode at h
  dsimp only at h
  obtain ⟨rty, hrty, h⟩ := exceptBind_ok_dest h
  obtain ⟨ptys, hptys, h⟩ := exceptBind_ok_dest h
  try dsimp only at h
  suffices hcont : ∀ (st3 st4 : AsmState),
      lmAdd st3 fname0 (LMEntry.func st.functions.length) = Except.ok st4 →
      st3.functions = st.functions ++
        [{ fname := fname0, offset := st.codeSize, returnType := rty,
           params := ptys, locals := [], modifiers := mods, body := [] }] →
      st3.codeLabelNames = st.codeLabelNames →
      addSectionLabelName st4 SectionName.code fname0 = st2 →
      st2.functions.length = st.functions.length + 1 ∧
      (st2.functions.get? st.functions.length).map
        (fun f => (f.fname, f.offset)) = some (fname0, st.codeSize) ∧
      lmGet st2 fname0 = some (LMEntry.func st.functions.length) ∧
      st2.codeLabelNames = st.codeLabelNames ++ [fname0] by
    by_cases hexp : "export" ∈ mods
    · rw [if_pos hexp] at h
      split at h
      · rw [exceptBind_err] at h
        exact absurd h (by simp)
      · rw [exceptBind_ok] at h
        try dsimp only at h
        rw [hcs] at h
        try dsimp only at h
        rw [if_pos (by decide : isSized SectionName.code = true)] at h
        obtain ⟨st4, hAdd, h⟩ := exceptBind_ok_dest h
        exact hcont _ st4 hAdd rfl rfl (Except.ok.inj h)
    · rw [if_neg hexp] at h
      rw [exceptBind_ok] at h
      try dsimp only at h
      rw [hcs] at h
      try dsimp only at h
      rw [if_pos (by decide : isSized SectionName.code = true)] at h
      obtain ⟨st4, hAdd, h⟩ := exceptBind_ok_dest h
      exact hcont _ st4 hAdd rfl rfl (Except.ok.inj h)
  intro st3 st4 hAdd hf3 hcl3 hst2
  obtain ⟨hfresh, hst4⟩ := lmAdd_spec _ _ _ _ hAdd
  obtain ⟨hfr1, hfr2, hfr3, _⟩ :=
    addSectionLabelName_frame st4 SectionName.code fname0
  obtain ⟨_, _, hl3, _⟩ :=
    addSectionLabelName_lists st4 SectionName.code fname0
  have hfuns : st2.functions = st.functions ++
      [{ fname := fname0, offset := st.codeSize, returnType := rty,
         params := ptys, locals := [], modifiers := mods, body := [] }] := by
    rw [← hst2, hfr1, hst4]
    exact hf3
  refine ⟨?_, ?_, ?_, ?_⟩
  · rw [hfuns, List.length_append]
    rfl
  · rw [hfuns, List.get?_concat_length]
    rfl
  · rw [← hst2]
    unfold lmGet
    rw [hfr3, hst4]
    show (match (st3.labelMan ++
      [(fname0, LMEntry.func st.functions.length)]).find?
      (fun p => p.1 = fname0) with
      | some p => some p.2
      | none => none) = _
    rw [List.find?_append, hfresh]
    simp
  · rw [← hst2, hl3, hst4]
    rw [if_pos rfl]
    rw [show ({ st3 with labelMan := st3.labelMan ++
      [(fname0, LMEntry.func st.functions.length)] } :
      AsmState).codeLabelNames = st3.codeLabelNames from rfl, hcl3]


/-! ### A relative-pointer argument resolves through the label manager -/

theorem emitArg_rptr_label (st : AsmState) (instr : CodeInstr) (arg : NArg)
    (nm : String) (e : LMEntry) (fidx : Nat) (f : AFunc)
    (hcf : st.currentFunction = some fidx)
    (hgf : st.functions.get? fidx = some f)
    (htv : arg.tval = TokVal.s nm)
    (hlf : f.locals.find? (fun p => p.pname = nm) = none)
    (hpf : f.params.find? (fun p => p.pname = nm) = none)
    (hget : lmGet st nm = some e) :
    emitArg st instr (ATy.base BinTy.rptr) arg =
      Except.ok [(ATy.base BinTy.rptr,
        PVal.i (lmOffset st e - instr.offset))] := by
  unfold emitArg
  rw [if_pos (Or.inl (by decide : (ATy.base BinTy.rptr).isPtrSubclass))]
  rw [hcf]
  try dsimp only
  rw [hgf]
  try dsimp only
  rw [htv]
  try dsimp only
  rw [hlf]
  try dsimp only
  rw [hpf]
  try dsimp only
  rw [hget]
  try dsimp only
  rw [exceptBind_ok]
  dsimp only
  rw [if_pos rfl]

/-! ### Encoding a relative pointer packs the signed native-word value -/

theorem atyToBytes_rptr (v : Int) (bs : List Nat)
    (h : packSigned v NATIVE_SIZE = some bs) :
    atyToBytes (ATy.base BinTy.rptr) (PVal.i v) = Except.ok bs := by
  have h8 : packSigned v 8 = some bs := h
  unfold atyToBytes binToBytes
  dsimp only
  rw [h8]


/-- C1: after the relocation pass, every function defined in the code
section has its label's offset equal to the code section's base offset
(the serialized sizes of the sections preceding code in emission order)
plus the function's position within the code section; and an rptr
argument of an encoded instruction that references a label emits the
label's offset minus the instruction's offset, packed as a signed
native-word integer.  Stated as the chain the code realizes: (a) defining
a function in the code section records it at the current code cursor and
registers its name as a code-owned function label, (b) no later node
changes a recorded function's offset, (c) the node loop from the empty
state maintains the label bookkeeping invariant, (d) relocation shifts
every code-owned label by exactly the code base while keeping it
resolvable, (e) an rptr argument resolving through the label manager
emits the label's offset minus the instruction's offset, and (f) that
value is encoded as a signed native word. -/
theorem code_function_offsets_and_rptr :
    (∀ (env : FileEnv) (st : AsmState) (fname0 rt : String)
        (ps : List (String × String)) (mods : List String) (st2 : AsmState),
      st.currentSection = some SectionName.code →
      processNode env st (Node.funcDef fname0 rt ps mods) = Except.ok st2 →
      st2.functions.length = st.functions.length + 1 ∧
      (st2.functions.get? st.functions.length).map
        (fun f => (f.fname, f.offset)) = some (fname0, st.codeSize) ∧
      lmGet st2 fname0 = some (LMEntry.func st.functions.length) ∧
      st2.codeLabelNames = st.codeLabelNames ++ [fname0]) ∧
    (∀ (env : FileEnv) (st : AsmState) (n : Node) (st' : AsmState),
      processNode env st n = Except.ok st' →
      ∀ j, j < st.functions.length →
        (st'.functions.get? j).map (fun g => g.offset) =
        (st.functions.get? j).map (fun g => g.offset)) ∧
    (∀ (env : FileEnv) (ns : List Node) (st : AsmState),
      processNodes env ns initState = Except.ok st → LabelNamesInv st) ∧
    (∀ (st st4 : AsmState) (base : Int),
      relocate st = Except.ok st4 → codeBase st = Except.ok base →
      LabelNamesInv st → ∀ nm ∈ st.codeLabelNames,
        (lmGet st nm).isSome ∧
        (lmGet st4 nm).map (lmOffset st4) =
          (lmGet st nm).map (fun e => lmOffset st e + base)) ∧
    (∀ (st : AsmState) (instr : CodeInstr) (arg : NArg) (nm : String)
        (e : LMEntry) (fidx : Nat) (f : AFunc),
      st.currentFunction = some fidx →
      st.functions.get? fidx = some f →
      arg.tval = TokVal.s nm →
      f.locals.find? (fun p => p.pname = nm) = none →
      f.params.find? (fun p => p.pname = nm) = none →
      lmGet st nm = some e →
      emitArg st instr (ATy.base BinTy.rptr) arg =
        Except.ok [(ATy.base BinTy.rptr,
          PVal.i (lmOffset st e - instr.offset))]) ∧
    (∀ (v : Int) (bs : List Nat), packSigned v NATIVE_SIZE = some bs →
      atyToBytes (ATy.base BinTy.rptr) (PVal.i v) = Except.ok bs) := by
  refine ⟨?_, ?_, ?_, ?_, ?_, ?_⟩
  · intro env st fname0 rt ps mods st2 hcs h
    exact processNode_funcDef_code env st fname0 rt ps mods st2 hcs h
  · exact processNode_offsets
  · intro env ns st h
    exact (processNodes_inv env ns initState st h asmInv_init).2
  · intro st st4 base hrel hbase hLN nm hmem
    obtain ⟨cfg, hcfg, hst4⟩ := relocate_dest st st4 hrel
    have hbv : base =
        (cfg.length : Int) + st.typesSize + (st.dataBytes.length : Int) := by
      unfold codeBase at hbase
      obtain ⟨cfg2, hcfg2, hb⟩ := exceptBind_ok_dest hbase
      rw [hcfg] at hcfg2
      rw [← Except.ok.inj hcfg2] at hb
      exact (Except.ok.inj hb).symm
    rw [hst4, hbv]
    exact relocStages_code_label st ((cfg.length : Int)) nm hLN hmem
  · intro st instr arg nm e fidx f hcf hgf htv hlf hpf hget
    exact emitArg_rptr_label st instr arg nm e fidx f hcf hgf htv hlf hpf hget
  · exact atyToBytes_rptr

/-- Witness for C1 on the demo program: defining c in the code section
records it at cursor 0 and registers the label, a later ret leaves its
offset alone, the demo run satisfies the label invariant, relocation
shifts b's label by the code base 1, the relocated call's rptr argument
b emits 23 - 1, and 22 packs as the signed native word. -/
theorem code_function_offsets_and_rptr_witness :
    (demoStNv.functions.length = demoStSec.functions.length + 1 ∧
     (demoStNv.functions.get? demoStSec.functions.length).map
       (fun f => (f.fname, f.offset)) = some ("c", demoStSec.codeSize) ∧
     lmGet demoStNv "c" = some (LMEntry.func demoStSec.functions.length) ∧
     demoStNv.codeLabelNames = demoStSec.codeLabelNames ++ ["c"]) ∧
    ((demoStNv2.functions.get? 0).map (fun g => g.offset) =
     (demoStNv.functions.get? 0).map (fun g => g.offset)) ∧
    LabelNamesInv demoSt ∧
    ((lmGet demoSt "b").isSome ∧
     (lmGet demoReloc "b").map (lmOffset demoReloc) =
       (lmGet demoSt "b").map (fun e => lmOffset demoSt e + 1)) ∧
    (emitArg demoReloc demoCall (ATy.base BinTy.rptr) demoCallArg =
      Except.ok [(ATy.base BinTy.rptr,
        PVal.i (lmOffset demoReloc demoEntryB - demoCall.offset))]) ∧
    (atyToBytes (ATy.base BinTy.rptr) (PVal.i 22) =
      Except.ok [22, 0, 0, 0, 0, 0, 0, 0]) := by
  refine ⟨?_, ?_, ?_, ?_, ?_, ?_⟩
  · exact code_function_offsets_and_rptr.1 demoEnv demoStSec "c" "int" [] []
      demoStNv (by decide) (by decide)
  · exact code_function_offsets_and_rptr.2.1 demoEnv demoStNv
      (Node.instruction "ret" []) demoStNv2 (by decide) 0 (by decide)
  · exact code_function_offsets_and_rptr.2.2.1 demoEnv demoNodes demoSt
      (by decide)
  · exact code_function_offsets_and_rptr.2.2.2.1 demoSt demoReloc 1
      (by decide) (by decide) (by decide) "b" (by decide)
  · exact code_function_offsets_and_rptr.2.2.2.2.1 demoReloc demoCall
      demoCallArg "b" demoEntryB 1 demoFuncB (by decide) (by decide)
      (by decide) (by decide) (by decide) (by decide)
  · exact code_function_offsets_and_rptr.2.2.2.2.2 22 [22, 0, 0, 0, 0, 0, 0, 0]
      (by decide)

end QasmPy
